import Mathlib

/-!
Verification of the WAVM LLVM IR emitter (`Source/Runtime/LLVMEmitIR.cpp`) and
of the S-expression parser (`Source/Core/SExpressions.cpp`) against their
natural-language specification.

Machine integers are modelled as natural numbers holding the bit pattern
(`v < 2 ^ w`), with explicit conversion to the signed interpretation where the
source performs signed comparisons or arithmetic.
-/

/-! ## Machine integer helpers -/

/-- The signed (two's complement) interpretation of a `w`-bit pattern. -/
def toSigned (w : Nat) (v : Nat) : Int :=
  if v < 2 ^ (w - 1) then (v : Int) else (v : Int) - ((2 ^ w : Nat) : Int)

/-- The `w`-bit pattern representing an integer (two's complement). -/
def ofSigned (w : Nat) (i : Int) : Nat :=
  (i % ((2 ^ w : Nat) : Int)).toNat

/-! ## Memory address computation (`coerceByteIndexToPointer`)

`EmitFunctionContext::coerceByteIndexToPointer` receives the popped i32 byte
index and the static `U32` offset of the load/store immediate.  Every memory
load and store the emitter produces — the `EMIT_LOAD_OP` / `EMIT_STORE_OP`
macros as well as the atomic `EMIT_ATOMIC_LOAD_OP` / `EMIT_ATOMIC_STORE_OP` /
`EMIT_ATOMIC_CMPXCHG` / `EMIT_ATOMIC_RMW` macros — obtains its pointer from
this one function.  The function `zext`s the 32-bit index to 64 bits, then, if
the offset is non-zero, adds the offset (itself `zext`ed from 32 to 64 bits)
with 64-bit wrap-around, and feeds the sum to the GEP on the memory base
pointer. -/

/-- `zext` of an i32 bit pattern to i64: the unsigned value is unchanged. -/
def zext32to64 (v : Nat) : Nat := v

/-- `sext` of an i32 bit pattern to i64 (what LLVM would implicitly do in the
GEP if the emitter did not `zext` first): patterns with the sign bit set gain
the upper 32 one bits. -/
def sext32to64 (v : Nat) : Nat := if v < 2 ^ 31 then v else v + (2 ^ 64 - 2 ^ 32)

/-- The effective 64-bit byte index that `coerceByteIndexToPointer` feeds to
`CreateInBoundsGEP` on the memory base pointer. -/
def coerceByteIndexToPointer (byteIndex : Nat) (offset : Nat) : Nat :=
  if offset ≠ 0 then (zext32to64 byteIndex + zext32to64 offset) % 2 ^ 64
  else zext32to64 byteIndex

/-! ## Integer division and remainder -/

/-- The trap condition emitted by
`EmitFunctionContext::trapDivideByZeroOrIntegerOverflow`:
`((left == INT_MIN) && (right == -1)) || (right == 0)`, on `w`-bit patterns
(`(U32)INT32_MIN = 2 ^ 31`, `(U32)(-1) = 2 ^ 32 - 1`, and similarly at 64
bits). -/
def trapDivideByZeroOrIntegerOverflow (w : Nat) (left right : Nat) : Bool :=
  (left == 2 ^ (w - 1) && right == 2 ^ w - 1) || right == 0

/-- The trap condition emitted by `EmitFunctionContext::trapDivideByZero`:
`divisor == 0`. -/
def trapDivideByZero (_w : Nat) (right : Nat) : Bool :=
  right == 0

/-- `typeId.div_s` as emitted (`EMIT_INT_BINARY_OP(div_s, ...)`): first the
conditional call to the `divideByZeroOrIntegerOverflowTrap` intrinsic, then
`CreateSDiv`, which on the remaining operands is exact truncated signed
division.  `none` models the trap. -/
def div_s (w : Nat) (left right : Nat) : Option Nat :=
  if trapDivideByZeroOrIntegerOverflow w left right then none
  else some (ofSigned w (Int.tdiv (toSigned w left) (toSigned w right)))

def i32_div_s (left right : Nat) : Option Nat := div_s 32 left right

def i64_div_s (left right : Nat) : Option Nat := div_s 64 left right

/-- `EmitFunctionContext::emitSRem`: first `trapDivideByZero` on the divisor;
then a branch guards the `CreateSRem`: if `left == INT_MIN && right == -1`
(i.e. the `noOverflow` condition is false) control flows from the
pre-overflow block straight to the end block and the phi node yields the
`typedZeroConstant` `0` without executing the `srem`; otherwise the phi
yields the `CreateSRem` result, the truncated signed remainder. -/
def emitSRem (w : Nat) (left right : Nat) : Option Nat :=
  if trapDivideByZero w right then none
  else if left == 2 ^ (w - 1) && right == 2 ^ w - 1 then some 0
  else some (ofSigned w (Int.tmod (toSigned w left) (toSigned w right)))

def i32_rem_s (left right : Nat) : Option Nat := emitSRem 32 left right

def i64_rem_s (left right : Nat) : Option Nat := emitSRem 64 left right


/-! ## Floating-point truncation gates

`emitTruncFloatToInt` and `emitTruncFloatToIntSat` only *compare* their
operand against literal bounds and truncate it; they perform no rounding
arithmetic.  Operands are therefore modelled exactly: an IEEE-754 float is a
NaN, a signed infinity, or a finite rational value.  The C++ float literals
appearing as bounds are embedded by the exact value of the float constant the
compiler stores; where the source writes an expression whose value is not
representable (e.g. `F32(INT32_MAX)`), the rounded value actually stored
(`2147483648.0f`) is used. -/

inductive FloatVal where
  | nan
  | inf (isNeg : Bool)
  | fin (q : ℚ)
deriving DecidableEq, Repr

/-- `FCmpUNO x x`: true iff the operand is NaN. -/
def fcmpUNO : FloatVal → Bool
  | .nan => true
  | _ => false

/-- `FCmpOGE x c` against a finite constant `c`: ordered, so false on NaN. -/
def fcmpOGE (x : FloatVal) (c : ℚ) : Bool :=
  match x with
  | .nan => false
  | .inf isNeg => !isNeg
  | .fin q => decide (c ≤ q)

/-- `FCmpOLE x c` against a finite constant `c`: ordered, so false on NaN. -/
def fcmpOLE (x : FloatVal) (c : ℚ) : Bool :=
  match x with
  | .nan => false
  | .inf isNeg => isNeg
  | .fin q => decide (q ≤ c)

/-- Truncation toward zero of a rational: the value `CreateFPToSI` /
`CreateFPToUI` produce when the operand is finite and in range.  For NaN or
infinite operands the conversion result is poison; every caller masks those
cases before the result can be observed, so an arbitrary stand-in (0) is
used. -/
def fpToIntTrunc : FloatVal → Int
  | .fin q => Int.tdiv q.num (q.den : Int)
  | _ => 0

inductive TrapReason where
  | invalidFloatOperation
  | divideByZeroOrIntegerOverflow
deriving DecidableEq

/-- `EmitFunctionContext::emitTruncFloatToInt`: branch to the
`invalidFloatOperationTrap` intrinsic on NaN (`FCmpUNO operand operand`);
then branch to the `divideByZeroOrIntegerOverflowTrap` intrinsic on
`FCmpOGE operand maxBounds || FCmpOLE operand minBounds`; otherwise emit the
`FPToSI`/`FPToUI` conversion. -/
def emitTruncFloatToInt (minBounds maxBounds : ℚ) (operand : FloatVal) :
    Except TrapReason Int :=
  if fcmpUNO operand then .error .invalidFloatOperation
  else if fcmpOGE operand maxBounds || fcmpOLE operand minBounds then
    .error .divideByZeroOrIntegerOverflow
  else .ok (fpToIntTrunc operand)

/-- `i32.trunc_s_f32`: `emitTruncFloatToInt<F32>(type, true, -2147483904.0f,
2147483648.0f, operand)`; both bounds are exactly representable in
binary32. -/
def i32_trunc_s_f32 : FloatVal → Except TrapReason Int :=
  emitTruncFloatToInt (-2147483904) 2147483648

/-- `CreateSelect c a b`. -/
def llvmSelect {α : Type} (c : Bool) (a b : α) : α := if c then a else b

/-- `EmitFunctionContext::emitTruncFloatToIntSat`, the source select cascade:
the conversion result, overridden by `maxIntBounds` when
`FCmpOGE operand maxFloatBounds`, then by `minIntBounds` when
`FCmpOLE operand minFloatBounds`, then by `Int(0)` when
`FCmpUNO operand operand`. -/
def emitTruncFloatToIntSat (minFloatBounds maxFloatBounds : ℚ)
    (minIntBounds maxIntBounds : Int) (operand : FloatVal) : Int :=
  llvmSelect (fcmpUNO operand) 0
    (llvmSelect (fcmpOLE operand minFloatBounds) minIntBounds
      (llvmSelect (fcmpOGE operand maxFloatBounds) maxIntBounds
        (fpToIntTrunc operand)))

/-- `i32.trunc_s_sat_f32`: `F32(INT32_MIN) = -2147483648.0f` (exact) and
`F32(INT32_MAX) = 2147483648.0f` (`INT32_MAX` rounds up in binary32). -/
def i32_trunc_s_sat_f32 : FloatVal → Int :=
  emitTruncFloatToIntSat (-2147483648) 2147483648 (-2147483648) 2147483647

/-- `i32.trunc_s_sat_f64`: both `F64` bounds are exact. -/
def i32_trunc_s_sat_f64 : FloatVal → Int :=
  emitTruncFloatToIntSat (-2147483648) 2147483647 (-2147483648) 2147483647

/-- `i32.trunc_u_sat_f32`: `F32(UINT32_MAX) = 4294967296.0f` (rounds up). -/
def i32_trunc_u_sat_f32 : FloatVal → Int :=
  emitTruncFloatToIntSat 0 4294967296 0 4294967295

/-- `i32.trunc_u_sat_f64`: `F64(UINT32_MAX)` is exact. -/
def i32_trunc_u_sat_f64 : FloatVal → Int :=
  emitTruncFloatToIntSat 0 4294967295 0 4294967295

/-- `i64.trunc_s_sat_f32`: `F32(INT64_MIN)` is exact (a power of two),
`F32(INT64_MAX) = 9223372036854775808.0f` (rounds up). -/
def i64_trunc_s_sat_f32 : FloatVal → Int :=
  emitTruncFloatToIntSat (-9223372036854775808) 9223372036854775808
    (-9223372036854775808) 9223372036854775807

/-- `i64.trunc_s_sat_f64`: `F64(INT64_MAX) = 9223372036854775808.0` (rounds
up). -/
def i64_trunc_s_sat_f64 : FloatVal → Int :=
  emitTruncFloatToIntSat (-9223372036854775808) 9223372036854775808
    (-9223372036854775808) 9223372036854775807

/-- `i64.trunc_u_sat_f32`: `F32(UINT64_MAX) = 18446744073709551616.0f`. -/
def i64_trunc_u_sat_f32 : FloatVal → Int :=
  emitTruncFloatToIntSat 0 18446744073709551616 0 18446744073709551615

/-- `i64.trunc_u_sat_f64`: `F64(UINT64_MAX) = 18446744073709551616.0`. -/
def i64_trunc_u_sat_f64 : FloatVal → Int :=
  emitTruncFloatToIntSat 0 18446744073709551616 0 18446744073709551615

/-- The saturating-truncation outcome mapping claimed by the specification:
NaN yields 0, an operand at or below the minimum float bound yields the
minimum integer, an operand at or above the maximum float bound yields the
maximum integer, and every other operand yields the plain conversion — with
no trapping outcome in the codomain. -/
def truncSatSpec (f : FloatVal → Int) (minF maxF : ℚ) (minI maxI : Int) : Prop :=
  ∀ operand : FloatVal,
    (fcmpUNO operand = true → f operand = 0) ∧
    (fcmpOLE operand minF = true → f operand = minI) ∧
    (fcmpOGE operand maxF = true → f operand = maxI) ∧
    (fcmpUNO operand = false → fcmpOLE operand minF = false →
      fcmpOGE operand maxF = false → f operand = fpToIntTrunc operand)


/-! ## The S-expression parser (`Source/Core/SExpressions.cpp`)

The parser walks a NUL-terminated C string.  The model carries the remaining
characters as a `List Char` (the input is assumed NUL-free, as C strings
cannot contain an embedded NUL; `peek` on the empty remainder returns the
terminator).  `FatalParseException` becomes the `.fatal` error of an `Except`
monad; the unbounded mutual recursion of `parseNode`/`parseNodeSequence`
(which really can diverge, e.g. on the input `"."`) is bounded by an explicit
fuel, whose exhaustion is the distinct `.outOfFuel` error.  Error-message
strings are represented by the `ErrMsg` enumeration, one constructor per
distinct message in the source. -/

namespace SExp

def nulChar : Char := Char.ofNat 0

def newlineChar : Char := Char.ofNat 10

def tabChar : Char := Char.ofNat 9

def crChar : Char := Char.ofNat 13

def backslashChar : Char := Char.ofNat 92

def quoteChar : Char := Char.ofNat 34

def aposChar : Char := Char.ofNat 39

/-- `Core::TextFileLocus`. -/
structure Locus where
  newlines : Nat := 0
  tabs : Nat := 0
  characters : Nat := 0
deriving DecidableEq, Repr

inductive ErrMsg where
  | unexpectedEof
  | unexpectedNewlineOrEofInQuotedString
  | invalidEscapeCodeInQuotedString
  | expectedHexNaNSignificand
  | nanSignificandMustBeNonZero
  | expectedCloseParenNaN
  | expectedHexDigits
  | expectedExponentDecimal
  | exponentOutOfRange
  | subnormalExponentMustBeNegative1022
  | hexFloatMustStartWithOneOrZero
  | expectedSecondSemicolon (found : Char)
  | eofInBlockComment
  | expectedCloseParen (found : Char)
deriving DecidableEq, Repr

structure Fatal where
  locus : Locus
  message : ErrMsg
deriving DecidableEq, Repr

inductive PErr where
  | fatal (e : Fatal)
  | outOfFuel
deriving DecidableEq, Repr

/-- `StreamState`: the unconsumed characters and the current locus. -/
structure Stream where
  rest : List Char
  locus : Locus := {}
deriving DecidableEq, Repr

/-- `StreamState::peek`: dereferences `next`; the NUL terminator at the end
of the input. -/
def Stream.peek (s : Stream) : Char :=
  match s.rest with
  | [] => nulChar
  | c :: _ => c

/-- Locus update performed by `StreamState::advance` for the consumed
character. -/
def Locus.advanceBy (l : Locus) (c : Char) : Locus :=
  if c = newlineChar then { newlines := l.newlines + 1, tabs := 0, characters := 0 }
  else if c = tabChar then { l with tabs := l.tabs + 1 }
  else { l with characters := l.characters + 1 }

/-- `StreamState::advance`: throws `FatalParseException` ("unexpected end of
file") at the terminator. -/
def Stream.advance (s : Stream) : Except PErr Stream :=
  match s.rest with
  | [] => .error (.fatal ⟨s.locus, .unexpectedEof⟩)
  | c :: cs => .ok ⟨cs, s.locus.advanceBy c⟩

/-- `advance` at a position known (to the caller) not to be the terminator;
identity on the empty remainder, a case the callers never reach. -/
def Stream.forceAdvance (s : Stream) : Stream :=
  match s.rest with
  | [] => s
  | c :: cs => ⟨cs, s.locus.advanceBy c⟩

/-- `StreamState::consume`: returns the current character and advances. -/
def Stream.consume (s : Stream) : Except PErr (Char × Stream) := do
  let s2 ← s.advance
  .ok (s.peek, s2)

/-- `advanceToPtr`, for a caller that knows how many characters to skip. -/
def Stream.advanceByCount (s : Stream) : Nat → Stream
  | 0 => s
  | n + 1 => s.forceAdvance.advanceByCount n

/-- `StreamState::advancePastNext` (loop body; one fuel per iteration, each
of which consumes a character, so `rest.length` fuel always suffices). -/
def advancePastNextAux : Nat → Char → Nat → Stream → Bool × Stream
  | 0, _, _, s => (false, s)
  | fuel + 1, c, depth, s =>
    let nextChar := s.peek
    if nextChar = nulChar then (false, s)
    else if nextChar = c ∧ depth = 0 then (true, s.forceAdvance)
    else if nextChar = '(' then advancePastNextAux fuel c (depth + 1) s.forceAdvance
    else if nextChar = ')' then
      if depth = 0 then (false, s)
      else advancePastNextAux fuel c (depth - 1) s.forceAdvance
    else advancePastNextAux fuel c depth s.forceAdvance

/-- `StreamState::advancePastNext`: skip to just past the next instance of
`c` that is not inside nested parentheses; false (without consuming the
terminator or an unmatched `)`) on failure. -/
def advancePastNext (c : Char) (s : Stream) : Bool × Stream :=
  advancePastNextAux s.rest.length c 0 s

def isWhitespace (c : Char) : Bool :=
  c = ' ' || c = tabChar || c = crChar || c = newlineChar

def isDigit (c : Char) : Bool :=
  '0' ≤ c && c ≤ '9'

def isSymbolCharacter (c : Char) : Bool :=
  !(isWhitespace c) && c ≠ '(' && c ≠ ')' && c ≠ ';' && c ≠ quoteChar && c ≠ '='

/-- A hex digit's value relative to the first character of its range. -/
def hexitValue (base : Char) (off : Nat) (c : Char) : Nat :=
  c.toNat - base.toNat + off

/-- `parseHexit`: the value of a hex digit, or `none`. -/
def parseHexit (c : Char) : Option Nat :=
  if isDigit c then some (hexitValue '0' 0 c)
  else if 'a' ≤ c && c ≤ 'f' then some (hexitValue 'a' 10 c)
  else if 'A' ≤ c && c ≤ 'F' then some (hexitValue 'A' 10 c)
  else none

/-- The bit-field components of a float64 (`Floats::F64Components`). -/
structure F64Comp where
  sign : Bool
  exponent : Nat
  significand : Nat
deriving DecidableEq, Repr

/-- The bit-field components of a float32 (`Floats::F32Components`). -/
structure F32Comp where
  sign : Bool
  exponent : Nat
  significand : Nat
deriving DecidableEq, Repr

/-- The float payload of a `Float` node.  Paths that build explicit bit
patterns (`parseNaN`, `parseInfinity`, and the zero case of
`parseHexNumber`) record both component sets exactly.  `parseHexNumber`
otherwise records the exact f64 components (the node f32 field, a
double-to-float rounding of that value, is not modelled).  The decimal
`strtod` path records the exact pre-rounding value (the IEEE rounding of
`strtod` and of the f32 narrowing is not modelled); no claim depends on
those two roundings. -/
inductive FloatPayload where
  | comps (f64 : F64Comp) (f32 : F32Comp)
  | hexFloat (f64 : F64Comp)
  | decimal (value : FloatVal)
deriving DecidableEq, Repr

/-- `SExp::Node`.  The source's intrusive `nextSibling` chains become
`List`s: a tree node holds its children, and the root sequence is returned
as a list.  The source's one `Node` struct with a tag and a union becomes
one constructor per tag. -/
inductive SNode where
  | tree (startLocus endLocus : Locus) (children : List SNode)
  | attribute (startLocus endLocus : Locus) (children : List SNode)
  | symbol (startLocus endLocus : Locus) (index : Nat)
  | unindexedSymbol (startLocus endLocus : Locus) (chars : List Char)
  | str (startLocus endLocus : Locus) (chars : List Char)
  | error (locus : Locus) (message : ErrMsg)
  | signedInt (startLocus endLocus : Locus) (bits : Nat)
  | unsignedInt (startLocus endLocus : Locus) (bits : Nat)
  | float (startLocus endLocus : Locus) (payload : FloatPayload)
deriving Repr

/-- `ParseContext::parseCharEscapeCode`.  On the two-hexit path the source
advances past the first hexit only (the caller advances past the rest); a
failed second hexit leaves the stream advanced past the first. -/
def parseCharEscapeCode (s : Stream) : Option Char × Stream :=
  let c := s.peek
  if c = 'n' then (some newlineChar, s)
  else if c = 't' then (some tabChar, s)
  else if c = backslashChar then (some backslashChar, s)
  else if c = aposChar then (some aposChar, s)
  else if c = quoteChar then (some quoteChar, s)
  else
    match parseHexit c with
    | none => (none, s)
    | some firstValue =>
      let s2 := s.forceAdvance
      match parseHexit s2.peek with
      | none => (none, s2)
      | some secondValue => (some (Char.ofNat (firstValue * 16 + secondValue)), s2)

/-- `ParseContext::parseQuotedString` loop (opening quote already
consumed). -/
def parseQuotedStringAux : Nat → List Char → Stream → SNode × Stream
  | 0, _, s => (SNode.error s.locus .unexpectedNewlineOrEofInQuotedString, s)
  | fuel + 1, acc, s =>
    let nextChar := s.peek
    if nextChar = newlineChar ∨ nextChar = nulChar then
      let locus := s.locus
      let s2 := (advancePastNext quoteChar s).2
      (SNode.error locus .unexpectedNewlineOrEofInQuotedString, s2)
    else if nextChar = backslashChar then
      let s1 := s.forceAdvance
      match parseCharEscapeCode s1 with
      | (none, s2) =>
        let locus := s2.locus
        let s3 := (advancePastNext quoteChar s2).2
        (SNode.error locus .invalidEscapeCodeInQuotedString, s3)
      | (some escapedChar, s2) =>
        parseQuotedStringAux fuel (acc ++ [escapedChar]) s2.forceAdvance
    else
      let s1 := s.forceAdvance
      if nextChar = quoteChar then (SNode.str s1.locus s1.locus acc, s1)
      else parseQuotedStringAux fuel (acc ++ [nextChar]) s1

/-- `ParseContext::parseQuotedString`: never throws; malformed contents
produce an `error` node after skipping to the closing quote. -/
def parseQuotedString (s : Stream) : SNode × Stream :=
  let s1 := s.forceAdvance
  parseQuotedStringAux s1.rest.length [] s1

/-- `ParseContext::parseKeyword` inner loop: `consume` may throw at the
terminator; on a mismatch the saved state is restored. -/
def parseKeywordAux (saved : Stream) : List Char → Stream → Except PErr (Bool × Stream)
  | [], s => .ok (true, s)
  | k :: ks, s => do
    let (c, s2) ← s.consume
    if c = k then parseKeywordAux saved ks s2 else .ok (false, saved)

def parseKeyword (keyword : List Char) (s : Stream) : Except PErr (Bool × Stream) :=
  parseKeywordAux s keyword s

/-- `ParseContext::parseHexInteger` loop: returns the number of matched
characters and the accumulated value; if the accumulator would overflow a
uint64 the saved state is restored and the count returned is 0 (the value
keeps what was accumulated so far). -/
def parseHexIntegerAux (saved : Stream) :
    Nat → Nat → Nat → Stream → Nat × Nat × Stream
  | 0, value, count, s => (count, value, s)
  | fuel + 1, value, count, s =>
    match parseHexit s.peek with
    | none => (count, value, s)
    | some hexit =>
      let s2 := s.forceAdvance
      if value > (2 ^ 64 - 1) / 16 then (0, value, saved)
      else parseHexIntegerAux saved fuel (value * 16 + hexit) (count + 1) s2

def parseHexInteger (s : Stream) : Nat × Nat × Stream :=
  parseHexIntegerAux s s.rest.length 0 0 s

/-- `isspace` in the C locale. -/
def isCSpace (c : Char) : Bool :=
  c = ' ' || (9 ≤ c.toNat && c.toNat ≤ 13)

def digitVal (c : Char) : Nat := c.toNat - '0'.toNat

def digitsToNat (base : Nat) (ds : List Char) : Nat :=
  ds.foldl (fun a c => a * base + (parseHexit c).getD 0) 0

/-- Sign-prefix splitting shared by the C number-conversion models:
(isNegative, remaining characters, characters consumed). -/
def splitSign (cs : List Char) : Bool × List Char × Nat :=
  match cs with
  | c :: t =>
    if c = '-' then (true, t, 1)
    else if c = '+' then (false, t, 1)
    else (false, cs, 0)
  | [] => (false, cs, 0)

/-- C `strtoull` with base 10 (used by `parseDecimalInteger`): skips
`isspace` characters, accepts an optional sign, reads decimal digits.
Returns (value, characters consumed, overflowed).  On overflow the value is
`ULLONG_MAX`; a negated in-range value wraps modulo `2 ^ 64`. -/
def strtoull10 (cs0 : List Char) : Nat × Nat × Bool :=
  let ws := cs0.takeWhile isCSpace
  let cs1 := cs0.drop ws.length
  let (neg, cs2, signLen) := splitSign cs1
  let ds := cs2.takeWhile isDigit
  if ds.length = 0 then (0, 0, false)
  else
    let v := digitsToNat 10 ds
    let consumed := ws.length + signLen + ds.length
    if v ≥ 2 ^ 64 then (2 ^ 64 - 1, consumed, true)
    else if neg then ((2 ^ 64 - v) % 2 ^ 64, consumed, false)
    else (v, consumed, false)

/-- `ParseContext::parseDecimalInteger`: false when nothing was consumed or
on `ERANGE` (the stream is unchanged in both cases). -/
def parseDecimalInteger (s : Stream) : Option (Nat × Stream) :=
  match strtoull10 s.rest with
  | (_, 0, _) => none
  | (value, consumed, overflowed) =>
    if overflowed then none else some (value, s.advanceByCount consumed)

/-- `ParseContext::parseNaN`.  The components start out as the canonical
quiet NaN (f64 significand `1ull << 51`, f32 significand `1 << 22`); a
parenthesised hex payload overwrites both significand bit-fields (truncating
to their 52- and 23-bit widths). -/
def parseNaN (startLocus : Locus) (isNegative : Bool) (s : Stream) :
    Except PErr (SNode × Stream) := do
  if s.peek = '(' then
    let s1 := s.forceAdvance
    let (kw, s2) ← parseKeyword ("0x".toList) s1
    if !kw then
      let s3 := (advancePastNext ')' s2).2
      return (SNode.error s3.locus .expectedHexNaNSignificand, s3)
    let (numMatched, significandBits, s3) := parseHexInteger s2
    if numMatched = 0 then
      return (SNode.error s3.locus .expectedHexNaNSignificand, s3)
    if significandBits = 0 then
      return (SNode.error s3.locus .nanSignificandMustBeNonZero, s3)
    let (c, s4) ← s3.consume
    if c ≠ ')' then
      return (SNode.error s4.locus .expectedCloseParenNaN, s4)
    return (SNode.float startLocus s4.locus
      (.comps ⟨isNegative, 0x7ff, significandBits % 2 ^ 52⟩
              ⟨isNegative, 0xff, significandBits % 2 ^ 23⟩), s4)
  else
    return (SNode.float startLocus s.locus
      (.comps ⟨isNegative, 0x7ff, 2 ^ 51⟩ ⟨isNegative, 0xff, 2 ^ 22⟩), s)

/-- `ParseContext::parseInfinity`: max exponent, zero significand. -/
def parseInfinity (startLocus : Locus) (isNegative : Bool) (s : Stream) :
    SNode × Stream :=
  (SNode.float startLocus s.locus
    (.comps ⟨isNegative, 0x7ff, 0⟩ ⟨isNegative, 0xff, 0⟩), s)

/-- The straight-line tail of `ParseContext::parseHexNumber` after the
optional exponent has been read. -/
def finishHexNumber (startLocus : Locus) (isNegative : Bool)
    (integerPart fractionalPart : Nat) (exponent : Int)
    (hasDecimalPoint hasExponent : Bool) (s : Stream) : SNode × Stream :=
  if fractionalPart = 0 ∧ exponent = 0 ∧
      ¬(isNegative ∧ integerPart = 0 ∧ (hasDecimalPoint ∨ hasExponent)) then
    let bits := if isNegative then (2 ^ 64 - integerPart % 2 ^ 64) % 2 ^ 64
                else integerPart
    (if isNegative then SNode.signedInt s.locus s.locus bits
     else SNode.unsignedInt s.locus s.locus bits, s)
  else if integerPart = 0 ∧ fractionalPart = 0 then
    (SNode.float s.locus s.locus (.comps ⟨isNegative, 0, 0⟩ ⟨isNegative, 0, 0⟩), s)
  else if integerPart = 0 ∧ exponent ≠ -1022 then
    (SNode.error startLocus .subnormalExponentMustBeNegative1022, s)
  else if integerPart ≠ 0 ∧ integerPart ≠ 1 then
    (SNode.error startLocus .hexFloatMustStartWithOneOrZero, s)
  else
    let exponent2 := if integerPart = 0 then (-1023 : Int) else exponent
    (SNode.float s.locus s.locus
      (.hexFloat ⟨isNegative, (exponent2 + 1023).toNat % 2 ^ 11,
        fractionalPart % 2 ^ 52⟩), s)

/-- `ParseContext::parseHexNumber`.  The fractional shift
`fractionalPart <<= 52 - numFractionalHexits * 4` is uint64 arithmetic whose
count wraps modulo `2 ^ 64`; a count of 64 or more is undefined behaviour in
the source, modelled as yielding 0 (the semantics of the adjacent
`shlSaturate` helper). -/
def parseHexNumber (startLocus : Locus) (isNegative : Bool) (s : Stream) :
    Except PErr (SNode × Stream) := do
  let (numIntChars, integerPart, s1) := parseHexInteger s
  if numIntChars = 0 then
    return (SNode.error s1.locus .expectedHexDigits, s1)
  let (kwDot, s2) ← parseKeyword ['.'] s1
  let (hasDecimalPoint, fractionalPart, s3) :=
    if kwDot then
      let (numFractionalHexits, fp, s3) := parseHexInteger s2
      let shiftCount := (52 + 2 ^ 64 - (numFractionalHexits * 4) % 2 ^ 64) % 2 ^ 64
      (true, if shiftCount ≥ 64 then 0 else (fp <<< shiftCount) % 2 ^ 64, s3)
    else (false, 0, s2)
  let (kwPLower, s4) ← parseKeyword ['p'] s3
  let (kwP, s5) ← if kwPLower then pure (true, s4) else parseKeyword ['P'] s4
  if kwP then
    let (isExponentNegative, s6) ←
      if s5.peek = '-' ∨ s5.peek = '+' then do
        let (c, s6) ← s5.consume
        pure (c == '-', s6)
      else pure (false, s5)
    match parseDecimalInteger s6 with
    | none => return (SNode.error s6.locus .expectedExponentDecimal, s6)
    | some (unsignedExponent, s7) =>
      let exponent : Int :=
        if isExponentNegative then -(toSigned 64 unsignedExponent)
        else toSigned 64 unsignedExponent
      if exponent < -1022 ∨ exponent > 1023 then
        return (SNode.error s7.locus .exponentOutOfRange, s7)
      return finishHexNumber startLocus isNegative integerPart fractionalPart
        exponent hasDecimalPoint true s7
  else
    return finishHexNumber startLocus isNegative integerPart fractionalPart
      0 hasDecimalPoint false s5

/-- Case-insensitive keyword match (for the C `strtod` forms). -/
def matchCI : List Char → List Char → Bool
  | [], _ => true
  | _ :: _, [] => false
  | k :: ks, c :: cs => c.toLower = k && matchCI ks cs

def isNanSeqChar (c : Char) : Bool := c.isAlphanum || c = '_'

/-- Exponent part of a C float subject sequence: marker character, optional
sign, at least one digit; `none` consumes nothing. -/
def parseExpPart (expChars : List Char) (cs : List Char) : Option (Int × Nat) :=
  match cs with
  | [] => none
  | c :: t =>
    if expChars.contains c then
      let (eneg, t2, signLen) := splitSign t
      let ds := t2.takeWhile isDigit
      if ds.length = 0 then none
      else some (if eneg then -(digitsToNat 10 ds : Int) else (digitsToNat 10 ds : Int),
        1 + signLen + ds.length)
    else none

/-- C `strtod` (used by `parseNumber` for non-hex, non-keyword numbers):
skips `isspace`, accepts a sign, then an `inf`/`infinity`/`nan` form, a hex
float, or a decimal with optional fraction and exponent.  Returns the exact
pre-rounding value and the number of characters of the subject sequence; a
pair `(.fin 0, 0)` means no conversion. -/
def strtodModel (cs0 : List Char) : FloatVal × Nat :=
  let ws := cs0.takeWhile isCSpace
  let cs1 := cs0.drop ws.length
  let (neg, cs2, signLen) := splitSign cs1
  let pre := ws.length + signLen
  if matchCI ("infinity".toList) cs2 then (.inf neg, pre + 8)
  else if matchCI ("inf".toList) cs2 then (.inf neg, pre + 3)
  else if matchCI ("nan".toList) cs2 then
    let cs3 := cs2.drop 3
    match cs3 with
    | c :: t =>
      if c = '(' then
        let seq := t.takeWhile isNanSeqChar
        match t.drop seq.length with
        | c2 :: _ =>
          if c2 = ')' then (.nan, pre + 3 + 1 + seq.length + 1) else (.nan, pre + 3)
        | [] => (.nan, pre + 3)
      else (.nan, pre + 3)
    | [] => (.nan, pre + 3)
  else if cs2.length ≥ 2 ∧ cs2.get? 0 = some '0' ∧
      (cs2.get? 1 = some 'x' ∨ cs2.get? 1 = some 'X') then
    let cs3 := cs2.drop 2
    let d1 := cs3.takeWhile (fun c => (parseHexit c).isSome)
    let cs4 := cs3.drop d1.length
    let (frac, fracConsumed) :=
      match cs4 with
      | c :: t =>
        if c = '.' then (t.takeWhile (fun c2 => (parseHexit c2).isSome), 1) else ([], 0)
      | [] => ([], 0)
    if d1.length = 0 ∧ frac.length = 0 then (.fin 0, pre + 1)
    else
      let cs5 := cs4.drop (fracConsumed + frac.length)
      let mantissa : ℚ :=
        (digitsToNat 16 d1 : ℚ) + (digitsToNat 16 frac : ℚ) / (16 : ℚ) ^ frac.length
      let (exp, expConsumed) := (parseExpPart ['p', 'P'] cs5).getD (0, 0)
      let value : ℚ := mantissa * (2 : ℚ) ^ exp
      (.fin (if neg then -value else value),
        pre + 2 + d1.length + fracConsumed + frac.length + expConsumed)
  else
    let d1 := cs2.takeWhile isDigit
    let cs3 := cs2.drop d1.length
    let (frac, fracConsumed) :=
      match cs3 with
      | c :: t => if c = '.' then (t.takeWhile isDigit, 1) else ([], 0)
      | [] => ([], 0)
    if d1.length = 0 ∧ frac.length = 0 then (.fin 0, 0)
    else
      let cs4 := cs3.drop (fracConsumed + frac.length)
      let mantissa : ℚ :=
        (digitsToNat 10 d1 : ℚ) + (digitsToNat 10 frac : ℚ) / (10 : ℚ) ^ frac.length
      let (exp, expConsumed) := (parseExpPart ['e', 'E'] cs4).getD (0, 0)
      let value : ℚ := mantissa * (10 : ℚ) ^ exp
      (.fin (if neg then -value else value),
        pre + d1.length + fracConsumed + frac.length + expConsumed)

/-- C `strtoull` with base 0 (used by `parseNumber`): `0x` hex, leading-`0`
octal, else decimal.  Returns (value, characters consumed); overflow clamps
to `ULLONG_MAX` (the caller does not check `errno` on this path), a negated
in-range value wraps modulo `2 ^ 64`. -/
def strtoull0 (cs0 : List Char) : Nat × Nat :=
  let ws := cs0.takeWhile isCSpace
  let cs1 := cs0.drop ws.length
  let (neg, cs2, signLen) := splitSign cs1
  let pre := ws.length + signLen
  let finishValue : Nat → Nat := fun v =>
    if v ≥ 2 ^ 64 then 2 ^ 64 - 1
    else if neg then (2 ^ 64 - v) % 2 ^ 64 else v
  if cs2.length ≥ 2 ∧ cs2.get? 0 = some '0' ∧
      (cs2.get? 1 = some 'x' ∨ cs2.get? 1 = some 'X') then
    let ds := (cs2.drop 2).takeWhile (fun c => (parseHexit c).isSome)
    if ds.length = 0 then (0, pre + 1)
    else (finishValue (digitsToNat 16 ds), pre + 2 + ds.length)
  else
    match cs2 with
    | c :: _ =>
      if c = '0' then
        let ds := cs2.takeWhile (fun c2 => '0' ≤ c2 && c2 ≤ '7')
        (finishValue (digitsToNat 8 ds), pre + ds.length)
      else
        let ds := cs2.takeWhile isDigit
        if ds.length = 0 then (0, 0)
        else (finishValue (digitsToNat 10 ds), pre + ds.length)
    | [] => (0, 0)

def floatValNegate : FloatVal → FloatVal
  | .nan => .nan
  | .inf b => .inf (!b)
  | .fin q => .fin (-q)

/-- `ParseContext::parseNumber`. -/
def parseNumber (s : Stream) : Except PErr (SNode × Stream) := do
  let startLocus := s.locus
  let (isNegative, s1) ←
    if s.peek = '-' ∨ s.peek = '+' then do
      let (c, s1) ← s.consume
      pure (c == '-', s1)
    else pure (false, s)
  let (kwNan, s2) ← parseKeyword ("nan".toList) s1
  if kwNan then parseNaN startLocus isNegative s2
  else
    let (kwInf, s3) ← parseKeyword ("infinity".toList) s2
    if kwInf then return parseInfinity startLocus isNegative s3
    else
      let (kwHexLower, s4) ← parseKeyword ("0x".toList) s3
      let (kwHex, s5) ← if kwHexLower then pure (true, s4) else parseKeyword ("0X".toList) s4
      if kwHex then parseHexNumber startLocus isNegative s5
      else
        let (f64v, f64Consumed) := strtodModel s5.rest
        let (i64v, i64Consumed) := strtoull0 s5.rest
        if f64Consumed > i64Consumed then
          let s6 := s5.advanceByCount f64Consumed
          return (SNode.float s6.locus s6.locus
            (.decimal (if isNegative then floatValNegate f64v else f64v)), s6)
        else
          let s6 := s5.advanceByCount i64Consumed
          let bits := if isNegative then (2 ^ 64 - i64v % 2 ^ 64) % 2 ^ 64 else i64v
          return (if isNegative then SNode.signedInt s6.locus s6.locus bits
                  else SNode.unsignedInt s6.locus s6.locus bits, s6)

abbrev SymbolIndexMap := List (List Char × Nat)

def lookupSymbol (m : SymbolIndexMap) (chars : List Char) : Option Nat :=
  (m.find? (fun p => p.1 == chars)).map (fun p => p.2)

def SNode.startLocus : SNode → Locus
  | .tree l _ _ => l
  | .attribute l _ _ => l
  | .symbol l _ _ => l
  | .unindexedSymbol l _ _ => l
  | .str l _ _ => l
  | .error l _ => l
  | .signedInt l _ _ => l
  | .unsignedInt l _ _ => l
  | .float l _ _ => l

/-- The do-while loop of `ParseContext::parseSymbol`: append the current
character, advance (which throws at the terminator — `isSymbolCharacter`
accepts NUL, so a symbol running to the end of the input really does throw
"unexpected end of file"), repeat while the next character is a symbol
character. -/
def parseSymbolLoop : Nat → List Char → Stream → Except PErr (List Char × Stream)
  | 0, _, _ => .error .outOfFuel
  | fuel + 1, acc, s => do
    let (c, s2) ← s.consume
    let acc2 := acc ++ [c]
    if isSymbolCharacter s2.peek then parseSymbolLoop fuel acc2 s2
    else .ok (acc2, s2)

/-- The block-comment do-while in `ParseContext::parseNode`. -/
def blockCommentLoop : Nat → Stream → Except PErr Stream
  | 0, _ => .error .outOfFuel
  | fuel + 1, s =>
    match advancePastNext ';' s with
    | (false, s2) => .error (.fatal ⟨s2.locus, .eofInBlockComment⟩)
    | (true, s2) =>
      if s2.peek = ')' then .ok s2
      else blockCommentLoop fuel s2

mutual

/-- `ParseContext::parseNode`: one unit of fuel per loop iteration and per
recursion (a `nullptr` result means "no node here"). -/
def parseNode (map : SymbolIndexMap) : Nat → Stream → Except PErr (Option SNode × Stream)
  | 0, _ => .error .outOfFuel
  | fuel + 1, s => do
    let nextChar := s.peek
    if nextChar = nulChar then .ok (none, s)
    else if isWhitespace nextChar then parseNode map fuel s.forceAdvance
    else if nextChar = ';' then
      let s1 := s.forceAdvance
      if s1.peek ≠ ';' then
        .error (.fatal ⟨s1.locus, .expectedSecondSemicolon nextChar⟩)
      else
        let skipCount :=
          (s1.rest.takeWhile (fun c => c ≠ newlineChar ∧ c ≠ nulChar)).length
        parseNode map fuel (s1.advanceByCount skipCount)
    else if nextChar = '(' then
      let s1 := s.forceAdvance
      if s1.peek = ';' then do
        let s2 ← blockCommentLoop s1.rest.length s1
        parseNode map fuel s2.forceAdvance
      else do
        let startLocus := s1.locus
        let (children, s2) ← parseNodeSequence map fuel s1
        if s2.peek ≠ ')' then
          .error (.fatal ⟨s2.locus, .expectedCloseParen nextChar⟩)
        else
          let s3 := s2.forceAdvance
          .ok (some (SNode.tree startLocus s3.locus children), s3)
    else if nextChar = quoteChar then
      let (node, s1) := parseQuotedString s
      .ok (some node, s1)
    else if isDigit nextChar ∨ nextChar = '+' ∨ nextChar = '-' ∨ nextChar = '.' then do
      let (node, s1) ← parseNumber s
      .ok (some node, s1)
    else if isSymbolCharacter nextChar then do
      let (node, s1) ← parseSymbol map fuel s
      .ok (some node, s1)
    else .ok (none, s)

/-- `ParseContext::parseNodeSequence`. -/
def parseNodeSequence (map : SymbolIndexMap) : Nat → Stream → Except PErr (List SNode × Stream)
  | 0, _ => .error .outOfFuel
  | fuel + 1, s => do
    match ← parseNode map fuel s with
    | (none, s2) => .ok ([], s2)
    | (some node, s2) => do
      let (restNodes, s3) ← parseNodeSequence map fuel s2
      .ok (node :: restNodes, s3)

/-- `ParseContext::parseSymbol`. -/
def parseSymbol (map : SymbolIndexMap) : Nat → Stream → Except PErr (SNode × Stream)
  | 0, _ => .error .outOfFuel
  | fuel + 1, s => do
    let startLocus := s.locus
    let (chars, s1) ← parseSymbolLoop (s.rest.length + 1) [] s
    if chars = "nan".toList then parseNaN startLocus false s1
    else if chars = "infinity".toList then .ok (parseInfinity startLocus false s1)
    else
      let symbolNode :=
        match lookupSymbol map chars with
        | none => SNode.unindexedSymbol startLocus s1.locus chars
        | some index => SNode.symbol startLocus s1.locus index
      if s1.peek = '=' then parseAttribute map fuel symbolNode s1
      else .ok (symbolNode, s1)

/-- `ParseContext::parseAttribute` (the source appends the parsed value as
the symbol node sibling; a null value leaves a single child). -/
def parseAttribute (map : SymbolIndexMap) : Nat → SNode → Stream → Except PErr (SNode × Stream)
  | 0, _, _ => .error .outOfFuel
  | fuel + 1, symbolNode, s => do
    let s1 := s.forceAdvance
    let (value, s2) ← parseNode map fuel s1
    let children :=
      match value with
      | none => [symbolNode]
      | some v => [symbolNode, v]
    .ok (SNode.attribute symbolNode.startLocus s2.locus children, s2)

end

inductive ParseOutcome where
  | roots (nodes : List SNode)
  | caught (node : SNode)
deriving Repr

/-- `SExp::parse`: runs `parseNodeSequence` from the start of the input and
catches `FatalParseException`, converting it into an `error` node carrying
the exception locus and message.  `none` only on fuel exhaustion (the
source loop really can diverge, e.g. on the input `"."`). -/
def parse (map : SymbolIndexMap) (input : List Char) (fuel : Nat) :
    Option ParseOutcome :=
  match parseNodeSequence map fuel ⟨input, {}⟩ with
  | .ok (nodes, _) => some (.roots nodes)
  | .error (.fatal e) => some (.caught (SNode.error e.locus e.message))
  | .error .outOfFuel => none

end SExp


/-! ## The per-function emitter core (`EmitFunctionContext`)

A value-level model of the emitter state the control-flow claims are about:
the symbolic operand stack, the control stack, the branch-target stack, and
the phi nodes with their incoming-value lists.  SSA values are abstract
identifiers; basic blocks and phi nodes are numbered from a fresh-id
counter.  The modelled control kinds are `function`/`block`/`ifThen`/
`ifElse`/`loop` (the exception frames `try_`/`catch_` are outside this
model), and the modelled operators are the structured-control and branch
operators together with representatives of the four value-operator shapes
the ~170 macro-generated operators share (push a result; pop two and push
one; pop one and push one; pop arguments and push results).  Every
`wavmAssert`/`errorUnless` in the source, and every container access that
would be undefined behaviour, is modelled as returning `none`. -/

namespace Emit

inductive WasmType where
  | i32 | i64 | f32 | f64 | v128
deriving DecidableEq, Repr

/-- A symbolic SSA value on the operand stack. -/
inductive Val where
  | phi (id : Nat)
  | typedZero (t : WasmType)
  | ssa (id : Nat)
deriving DecidableEq, Repr

structure BranchTarget where
  params : List WasmType
  block : Nat
  phis : List Nat
deriving DecidableEq, Repr

inductive CtrlType where
  | function | block | ifThen | ifElse | loop
deriving DecidableEq, Repr

/-- `EmitFunctionContext::ControlContext`. -/
structure ControlContext where
  type : CtrlType
  endBlock : Nat
  endPHIs : List Nat
  elseBlock : Option Nat
  elseArgs : List Val
  resultTypes : List WasmType
  outerStackSize : Nat
  outerBranchTargetStackSize : Nat
  isReachable : Bool
deriving DecidableEq, Repr

/-- The mutable state of `EmitFunctionContext`: all stacks are bottom-first
(C++ vector order, `back()` is the top). -/
structure EmitState where
  stack : List Val
  controlStack : List ControlContext
  branchTargetStack : List BranchTarget
  phiIncomings : List (Nat × List Val)
  functionResultTypes : List WasmType
  nextId : Nat
deriving DecidableEq, Repr

/-- The innermost frame's recorded outer operand-stack depth
(`controlStack.size() ? controlStack.back().outerStackSize : 0`). -/
def innerOuterStackSize (st : EmitState) : Nat :=
  (st.controlStack.getLast?).elim 0 (fun f => f.outerStackSize)

/-- `EmitFunctionContext::pop`: asserts
`stack.size() - outerStackSize >= 1` (unsigned, so it fires exactly when the
sizes are equal) and pops the back of the stack (undefined behaviour on an
empty stack, modelled as failure). -/
def pop (st : EmitState) : Option (Val × EmitState) :=
  if st.stack.length = innerOuterStackSize st then none
  else
    match st.stack.getLast? with
    | none => none
    | some v => some (v, { st with stack := st.stack.dropLast })

/-- `EmitFunctionContext::popMultiple`: asserts
`stack.size() - outerStackSize >= num` (unsigned), copies the top `num`
values bottom-to-top and shrinks the stack. -/
def popMultiple (st : EmitState) (num : Nat) : Option (List Val × EmitState) :=
  if innerOuterStackSize st ≤ st.stack.length ∧
      st.stack.length - innerOuterStackSize st < num then none
  else if st.stack.length < num then none
  else some (st.stack.drop (st.stack.length - num),
    { st with stack := st.stack.take (st.stack.length - num) })

/-- `EmitFunctionContext::getValueFromTop`: unchecked
`stack[stack.size() - offset - 1]`. -/
def getValueFromTop (st : EmitState) (offset : Nat) : Val :=
  st.stack.getD (st.stack.length - offset - 1) (Val.ssa 0)

def push (st : EmitState) (v : Val) : EmitState :=
  { st with stack := st.stack ++ [v] }

def pushMultiple (st : EmitState) (vs : List Val) : EmitState :=
  { st with stack := st.stack ++ vs }

/-- A fresh SSA value pushed as an instruction result. -/
def pushNewSSA (st : EmitState) : EmitState :=
  { st with stack := st.stack ++ [Val.ssa st.nextId], nextId := st.nextId + 1 }

def pushNewSSAs (st : EmitState) (n : Nat) : EmitState :=
  { st with stack := st.stack ++ (List.range n).map (fun i => Val.ssa (st.nextId + i)),
            nextId := st.nextId + n }

/-- `EmitFunctionContext::createPHIs`: one phi per element of the type
tuple, each starting with no incoming values. -/
def createPHIs (st : EmitState) (types : List WasmType) : List Nat × EmitState :=
  let ids := (List.range types.length).map (fun i => st.nextId + i)
  (ids, { st with nextId := st.nextId + types.length,
                  phiIncomings := st.phiIncomings ++ ids.map (fun i => (i, ([] : List Val))) })

/-- `PHINode::addIncoming` (the predecessor block is not tracked; the
incoming values are). -/
def addIncoming (st : EmitState) (phiId : Nat) (v : Val) : EmitState :=
  { st with
    phiIncomings := st.phiIncomings.map
      (fun p => if p.1 = phiId then (p.1, p.2 ++ [v]) else p) }

def lookupIncomings (st : EmitState) (phiId : Nat) : Option (List Val) :=
  (st.phiIncomings.find? (fun p => p.1 == phiId)).map (fun p => p.2)

/-- `PHINode::eraseFromParent`. -/
def erasePhi (st : EmitState) (phiId : Nat) : EmitState :=
  { st with phiIncomings := st.phiIncomings.filter (fun p => p.1 != phiId) }

def addIncomingList : EmitState → List Nat → List Val → EmitState
  | st, [], _ => st
  | st, _, [] => st
  | st, p :: ps, v :: vs => addIncomingList (addIncoming st p v) ps vs

/-- `EmitFunctionContext::pushControlStack`:
`errorUnless(controlStack.back().isReachable)` when the control stack is
non-empty, then push a frame recording the current stack depths. -/
def pushControlStack (st : EmitState) (type : CtrlType) (resultTypes : List WasmType)
    (endBlock : Nat) (endPHIs : List Nat) (elseBlock : Option Nat)
    (elseArgs : List Val) : Option EmitState :=
  let frame : ControlContext :=
    ⟨type, endBlock, endPHIs, elseBlock, elseArgs, resultTypes,
      st.stack.length, st.branchTargetStack.length, true⟩
  match st.controlStack.getLast? with
  | some f =>
    if f.isReachable then some { st with controlStack := st.controlStack ++ [frame] }
    else none
  | none => some { st with controlStack := st.controlStack ++ [frame] }

def pushBranchTarget (st : EmitState) (params : List WasmType) (block : Nat)
    (phis : List Nat) : EmitState :=
  { st with branchTargetStack := st.branchTargetStack ++ [⟨params, block, phis⟩] }

/-- `EmitFunctionContext::getBranchTargetByDepth`:
`wavmAssert(depth < branchTargetStack.size())`. -/
def getBranchTargetByDepth (st : EmitState) (depth : Nat) : Option BranchTarget :=
  if h : depth < st.branchTargetStack.length then
    some (st.branchTargetStack.get
      ⟨st.branchTargetStack.length - depth - 1, by omega⟩)
  else none

/-- Pop one value per listed phi, adding each as an incoming value; the
caller passes the phi list reversed, matching the source loops that run the
phi index from high to low while popping. -/
def popAndAddIncomingsRev : EmitState → List Nat → Option EmitState
  | st, [] => some st
  | st, p :: rest => do
    let (v, st2) ← pop st
    popAndAddIncomingsRev (addIncoming st2 p v) rest

/-- `EmitFunctionContext::branchToEndOfControlContext`: if the current
context is reachable, pop one result per result type (highest phi index
first) into the end phis and branch to the end block; in both cases assert
`stack.size() == outerStackSize` afterwards. -/
def branchToEndOfControlContext (st : EmitState) : Option EmitState := do
  let f ← st.controlStack.getLast?
  let st2 ← if f.isReachable then popAndAddIncomingsRev st f.endPHIs.reverse else some st
  if st2.stack.length = f.outerStackSize then some st2 else none

/-- `EmitFunctionContext::enterUnreachable`: resize the operand stack to the
innermost frame's outer depth and clear its reachability. -/
def enterUnreachable (st : EmitState) : Option EmitState := do
  let f ← st.controlStack.getLast?
  if f.outerStackSize ≤ st.stack.length then
    some { st with stack := st.stack.take f.outerStackSize,
                   controlStack := st.controlStack.dropLast ++ [{ f with isReachable := false }] }
  else none

/-- The end-phi reclamation loop of `EmitFunctionContext::end`: for each end
phi in order, push the phi if it has incoming values, otherwise erase it and
push the typed zero constant of the corresponding result type. -/
def pushEndPHIs : EmitState → List Nat → List WasmType → EmitState
  | st, [], _ => st
  | st, _ :: _, [] => st
  | st, phiId :: rest, t :: ts =>
    let st2 :=
      if (lookupIncomings st phiId).getD [] ≠ [] then push st (Val.phi phiId)
      else push (erasePhi st phiId) (Val.typedZero t)
    pushEndPHIs st2 rest ts

/-- `EmitFunctionContext::block`. -/
def block (st : EmitState) (params results : List WasmType) : Option EmitState := do
  let endBlock := st.nextId
  let st1 := { st with nextId := st.nextId + 1 }
  let (endPHIs, st2) := createPHIs st1 results
  let (blockArgs, st3) ← popMultiple st2 params.length
  let st4 ← pushControlStack st3 CtrlType.block results endBlock endPHIs none []
  let st5 := pushBranchTarget st4 results endBlock endPHIs
  some (pushMultiple st5 blockArgs)

/-- `EmitFunctionContext::loop`. -/
def loop (st : EmitState) (params results : List WasmType) : Option EmitState := do
  let loopBodyBlock := st.nextId
  let endBlock := st.nextId + 1
  let st1 := { st with nextId := st.nextId + 2 }
  let (parameterPHIs, st2) := createPHIs st1 params
  let (endPHIs, st3) := createPHIs st2 results
  let st4 ← popAndAddIncomingsRev st3 parameterPHIs.reverse
  let st5 ← pushControlStack st4 CtrlType.loop results endBlock endPHIs none []
  let st6 := pushBranchTarget st5 params loopBodyBlock parameterPHIs
  some (pushMultiple st6 (parameterPHIs.map Val.phi))

/-- `EmitFunctionContext::if_`. -/
def if_ (st : EmitState) (params results : List WasmType) : Option EmitState := do
  let elseBlock := st.nextId + 1
  let endBlock := st.nextId + 2
  let st1 := { st with nextId := st.nextId + 3 }
  let (endPHIs, st2) := createPHIs st1 results
  let (_condition, st3) ← pop st2
  if st3.stack.length < params.length then none
  else do
    let (args, st4) ← popMultiple st3 params.length
    let st5 ← pushControlStack st4 CtrlType.ifThen results endBlock endPHIs
      (some elseBlock) args
    let st6 := pushBranchTarget st5 results endBlock endPHIs
    some (pushMultiple st6 args)

/-- `EmitFunctionContext::else_`. -/
def else_ (st : EmitState) : Option EmitState := do
  let f ← st.controlStack.getLast?
  let st2 ← branchToEndOfControlContext st
  match f.elseBlock with
  | none => none
  | some _ =>
    if f.type = CtrlType.ifThen then
      some { st2 with
        stack := st2.stack ++ f.elseArgs,
        controlStack := st2.controlStack.dropLast ++
          [{ f with type := CtrlType.ifElse, isReachable := true, elseBlock := none }] }
    else none

/-- `EmitFunctionContext::end`. -/
def end_ (st : EmitState) : Option EmitState := do
  let f ← st.controlStack.getLast?
  let st1 ← branchToEndOfControlContext st
  let st2 ←
    match f.elseBlock with
    | some _ =>
      if f.elseArgs.length = f.endPHIs.length then
        some (addIncomingList st1 f.endPHIs f.elseArgs)
      else none
    | none => some st1
  if f.endPHIs.length ≠ 0 ∧ f.endPHIs.length ≠ f.resultTypes.length then none
  else
    let st3 := pushEndPHIs st2 f.endPHIs f.resultTypes
    if f.outerBranchTargetStackSize ≤ st3.branchTargetStack.length then
      some { st3 with
        branchTargetStack := st3.branchTargetStack.take f.outerBranchTargetStackSize,
        controlStack := st3.controlStack.dropLast }
    else none

/-- `EmitFunctionContext::br`. -/
def br (st : EmitState) (depth : Nat) : Option EmitState := do
  let target ← getBranchTargetByDepth st depth
  if target.params.length ≠ target.phis.length then none
  else do
    let st2 ← popAndAddIncomingsRev st target.phis.reverse
    enterUnreachable st2

/-- `EmitFunctionContext::br_if`: pop only the condition; the branch
arguments are read with `getValueFromTop` (without popping) and wired into
the target phis, then emission resumes in the false block. -/
def br_if (st : EmitState) (depth : Nat) : Option EmitState := do
  let (_condition, st1) ← pop st
  let target ← getBranchTargetByDepth st1 depth
  if target.params.length ≠ target.phis.length then none
  else
    some ((List.range target.params.length).foldl
      (fun acc argIndex =>
        addIncoming acc (target.phis.getD argIndex 0)
          (getValueFromTop acc (target.params.length - argIndex - 1)))
      st1)

/-- `EmitFunctionContext::br_table` (with the branch table passed directly
in place of the `branchTableIndex` lookup). -/
def br_table (st : EmitState) (targetDepths : List Nat) (defaultDepth : Nat) :
    Option EmitState := do
  let (_index, st1) ← pop st
  let defaultTarget ← getBranchTargetByDepth st1 defaultDepth
  let numArgs := defaultTarget.params.length
  let (args, st2) ← popMultiple st1 numArgs
  let st3 := addIncomingList st2 defaultTarget.phis args
  let st4 ← targetDepths.foldlM
    (fun acc d => do
      let target ← getBranchTargetByDepth acc d
      if target.phis.length ≠ numArgs then none
      else some (addIncomingList acc target.phis args))
    st3
  enterUnreachable st4

/-- `EmitFunctionContext::return_`: a branch to the function frame
(`controlStack[0]`). -/
def return_ (st : EmitState) : Option EmitState := do
  let f0 ← st.controlStack.head?
  if f0.endPHIs.length ≠ st.functionResultTypes.length then none
  else do
    let st2 ← popAndAddIncomingsRev st f0.endPHIs.reverse
    enterUnreachable st2

/-- `EmitFunctionContext::unreachable`: the emitted trap call and
terminator have no operand-stack effect. -/
def unreachable_ (st : EmitState) : Option EmitState :=
  enterUnreachable st

/-- `EmitFunctionContext::call` / `call_indirect` stack discipline: pop the
arguments, push one fresh value per result. -/
def call (st : EmitState) (params results : List WasmType) : Option EmitState := do
  let (_args, st1) ← popMultiple st params.length
  some (pushNewSSAs st1 results.length)

/-- `drop` uses `stack.pop_back()` directly (no assert; empty-stack
undefined behaviour modelled as failure). -/
def dropOp (st : EmitState) : Option EmitState :=
  match st.stack.getLast? with
  | none => none
  | some _ => some { st with stack := st.stack.dropLast }

def selectOp (st : EmitState) : Option EmitState := do
  let (_condition, st1) ← pop st
  let (_falseValue, st2) ← pop st1
  let (_trueValue, st3) ← pop st2
  some (pushNewSSA st3)

def binaryOp (st : EmitState) : Option EmitState := do
  let (_right, st1) ← pop st
  let (_left, st2) ← pop st1
  some (pushNewSSA st2)

def unaryOp (st : EmitState) : Option EmitState := do
  let (_operand, st1) ← pop st
  some (pushNewSSA st1)

/-- The modelled operator set. -/
inductive Op where
  | const (t : WasmType)
  | binary (t : WasmType)
  | unary (t : WasmType)
  | dropV
  | selectV
  | callOp (params results : List WasmType)
  | blockOp (params results : List WasmType)
  | loopOp (params results : List WasmType)
  | ifOp (params results : List WasmType)
  | elseOp
  | endOp
  | brOp (depth : Nat)
  | brIfOp (depth : Nat)
  | brTableOp (targetDepths : List Nat) (defaultDepth : Nat)
  | returnOp
  | unreachableOp
deriving DecidableEq, Repr

/-- Dispatch of one operator to the emitter (the reachable path of the main
decode loop). -/
def emitOp (st : EmitState) : Op → Option EmitState
  | .const _ => some (pushNewSSA st)
  | .binary _ => binaryOp st
  | .unary _ => unaryOp st
  | .dropV => dropOp st
  | .selectV => selectOp st
  | .callOp ps rs => call st ps rs
  | .blockOp ps rs => block st ps rs
  | .loopOp ps rs => loop st ps rs
  | .ifOp ps rs => if_ st ps rs
  | .elseOp => else_ st
  | .endOp => end_ st
  | .brOp d => br st d
  | .brIfOp d => br_if st d
  | .brTableOp ds d => br_table st ds d
  | .returnOp => return_ st
  | .unreachableOp => unreachable_ st

/-- The `UnreachableOpVisitor`: tracks the nesting depth of structured
operators inside unreachable code and forwards `else`/`end` to the emitter
when they belong to the frame that went unreachable. -/
def unreachableVisit (st : EmitState) (depth : Nat) : Op → Option (EmitState × Nat)
  | .blockOp _ _ => some (st, depth + 1)
  | .loopOp _ _ => some (st, depth + 1)
  | .ifOp _ _ => some (st, depth + 1)
  | .elseOp => if depth = 0 then (else_ st).map (fun st2 => (st2, 0)) else some (st, depth)
  | .endOp =>
    if depth = 0 then (end_ st).map (fun st2 => (st2, 0)) else some (st, depth - 1)
  | _ => some (st, depth)

/-- The main decode loop of `EmitFunctionContext::emit`:
`while(decoder && controlStack.size())`, dispatching to the emitter while
the innermost frame is reachable and to the unreachable visitor
otherwise. -/
def emitOps : EmitState → Nat → List Op → Option EmitState
  | st, _, [] => some st
  | st, depth, op :: rest =>
    match st.controlStack.getLast? with
    | none => some st
    | some f =>
      if f.isReachable then do
        let st2 ← emitOp st op
        emitOps st2 depth rest
      else do
        let (st2, depth2) ← unreachableVisit st depth op
        emitOps st2 depth2 rest

/-- `EmitFunctionContext::emit` up to the end of the decode loop: create the
return block and its phis, push the function control frame and branch
target (the operand stack starts empty — parameters live in local slots),
then run the decode loop. -/
def emitFunc (results : List WasmType) (ops : List Op) : Option EmitState := do
  let st0 : EmitState := ⟨[], [], [], [], results, 0⟩
  let returnBlock := st0.nextId
  let st1 := { st0 with nextId := st0.nextId + 1 }
  let (returnPHIs, st2) := createPHIs st1 results
  let st3 ← pushControlStack st2 CtrlType.function results returnBlock returnPHIs none []
  let st4 := pushBranchTarget st3 results returnBlock returnPHIs
  emitOps st4 0 ops

end Emit


/-! ## The WebAssembly function validator

The typing algorithm of the WebAssembly specification appendix, specialised
to the modelled operator set: a stack of operand types (an unknown type for
operands conjured in unreachable code) and a stack of control frames.  This
is the well-typedness premise of the stack-balance claim. -/

namespace Emit

structure VCtrl where
  kind : CtrlType
  startTypes : List WasmType
  endTypes : List WasmType
  height : Nat
  unreachable : Bool
deriving DecidableEq, Repr

structure VState where
  vals : List (Option WasmType)
  ctrls : List VCtrl
deriving DecidableEq, Repr

def labelTypes (vc : VCtrl) : List WasmType :=
  if vc.kind = CtrlType.loop then vc.startTypes else vc.endTypes

def pushVal (vs : VState) (t : Option WasmType) : VState :=
  { vs with vals := vs.vals ++ [t] }

def pushVals (vs : VState) (ts : List WasmType) : VState :=
  { vs with vals := vs.vals ++ ts.map some }

def popVal (vs : VState) : Option (Option WasmType × VState) := do
  let f ← vs.ctrls.getLast?
  if vs.vals.length = f.height then
    if f.unreachable then some (none, vs) else none
  else
    match vs.vals.getLast? with
    | none => none
    | some t => some (t, { vs with vals := vs.vals.dropLast })

def popValExpect (vs : VState) (expect : WasmType) : Option VState := do
  let (actual, vs2) ← popVal vs
  match actual with
  | none => some vs2
  | some a => if a = expect then some vs2 else none

def popVals (vs : VState) (ts : List WasmType) : Option VState :=
  ts.reverse.foldlM (fun acc t => popValExpect acc t) vs

def pushCtrl (vs : VState) (kind : CtrlType) (ins outs : List WasmType) : VState :=
  pushVals { vs with ctrls := vs.ctrls ++ [⟨kind, ins, outs, vs.vals.length, false⟩] } ins

def popCtrl (vs : VState) : Option (VCtrl × VState) := do
  let f ← vs.ctrls.getLast?
  let vs2 ← popVals vs f.endTypes
  if vs2.vals.length = f.height then
    some (f, { vs2 with ctrls := vs2.ctrls.dropLast })
  else none

def setUnreachable (vs : VState) : Option VState := do
  let f ← vs.ctrls.getLast?
  if f.height ≤ vs.vals.length then
    some { vs with vals := vs.vals.take f.height,
                   ctrls := vs.ctrls.dropLast ++ [{ f with unreachable := true }] }
  else none

def getCtrlByDepth (vs : VState) (depth : Nat) : Option VCtrl :=
  if h : depth < vs.ctrls.length then
    some (vs.ctrls.get ⟨vs.ctrls.length - depth - 1, by omega⟩)
  else none

def validateOp (vs : VState) : Op → Option VState
  | .const t => some (pushVal vs (some t))
  | .binary t => do
    let vs1 ← popValExpect vs t
    let vs2 ← popValExpect vs1 t
    some (pushVal vs2 (some t))
  | .unary t => do
    let vs1 ← popValExpect vs t
    some (pushVal vs1 (some t))
  | .dropV => do
    let (_, vs1) ← popVal vs
    some vs1
  | .selectV => do
    let vs1 ← popValExpect vs WasmType.i32
    let (t1, vs2) ← popVal vs1
    let (t2, vs3) ← popVal vs2
    match t1, t2 with
    | none, t => some (pushVal vs3 t)
    | t, none => some (pushVal vs3 t)
    | some a, some b => if a = b then some (pushVal vs3 (some a)) else none
  | .callOp ps rs => do
    let vs1 ← popVals vs ps
    some (pushVals vs1 rs)
  | .blockOp ps rs => do
    let vs1 ← popVals vs ps
    some (pushCtrl vs1 CtrlType.block ps rs)
  | .loopOp ps rs => do
    let vs1 ← popVals vs ps
    some (pushCtrl vs1 CtrlType.loop ps rs)
  | .ifOp ps rs => do
    let vs1 ← popValExpect vs WasmType.i32
    let vs2 ← popVals vs1 ps
    some (pushCtrl vs2 CtrlType.ifThen ps rs)
  | .elseOp => do
    let (f, vs1) ← popCtrl vs
    if f.kind = CtrlType.ifThen then
      some (pushCtrl vs1 CtrlType.ifElse f.startTypes f.endTypes)
    else none
  | .endOp => do
    let (f, vs1) ← popCtrl vs
    if f.kind = CtrlType.ifThen ∧ f.startTypes ≠ f.endTypes then none
    else some (pushVals vs1 f.endTypes)
  | .brOp d => do
    let f ← getCtrlByDepth vs d
    let vs1 ← popVals vs (labelTypes f)
    setUnreachable vs1
  | .brIfOp d => do
    let f ← getCtrlByDepth vs d
    let vs1 ← popValExpect vs WasmType.i32
    let vs2 ← popVals vs1 (labelTypes f)
    some (pushVals vs2 (labelTypes f))
  | .brTableOp ds d => do
    let fd ← getCtrlByDepth vs d
    if ds.all (fun dd => (getCtrlByDepth vs dd).elim false
        (fun f => labelTypes f = labelTypes fd)) then do
      let vs1 ← popValExpect vs WasmType.i32
      let vs2 ← popVals vs1 (labelTypes fd)
      setUnreachable vs2
    else none
  | .returnOp => do
    let f0 ← vs.ctrls.head?
    let vs1 ← popVals vs f0.endTypes
    setUnreachable vs1
  | .unreachableOp => setUnreachable vs

def validateOps (vs : VState) : List Op → Option VState
  | [] => some vs
  | op :: rest => do
    let vs2 ← validateOp vs op
    validateOps vs2 rest

/-- A function body is well typed when the operator sequence validates from
an empty operand stack under a single function frame (parameters live in
locals, not on the operand stack). -/
def validateFunc (results : List WasmType) (ops : List Op) : Bool :=
  (validateOps ⟨[], [⟨CtrlType.function, [], results, 0, false⟩]⟩ ops).isSome

end Emit


/-! ## The simulation invariant for the stack-balance claim

The inductive invariant tying an emitter state to a validator state during
emission of a well-typed function: the emitter control frames correspond
one-to-one to the oldest validator control frames (the validator owns extra
frames for structured operators opened inside unreachable code, counted by
the visitor depth `d`), branch targets carry the label types and one phi
per label parameter, and in reachable code the operand-stack depth equals
the validator operand-stack depth. -/

namespace Emit

def framesMatch (ec : ControlContext) (vc : VCtrl) : Prop :=
  ec.type = vc.kind ∧
  ec.outerStackSize = vc.height ∧
  ec.resultTypes = vc.endTypes ∧
  ec.endPHIs.length = vc.endTypes.length ∧
  (ec.type = CtrlType.ifThen → ec.elseBlock ≠ none ∧
    ec.elseArgs.length = vc.startTypes.length) ∧
  (ec.type ≠ CtrlType.ifThen → ec.elseBlock = none)

def btMatch (bt : BranchTarget) (vc : VCtrl) : Prop :=
  bt.params = labelTypes vc ∧ bt.phis.length = bt.params.length

structure Sim (st : EmitState) (vs : VState) (d : Nat) : Prop where
  hne : st.controlStack ≠ []
  hmatch : List.Forall₂ framesMatch st.controlStack (vs.ctrls.take st.controlStack.length)
  hbt : List.Forall₂ btMatch st.branchTargetStack (vs.ctrls.take st.controlStack.length)
  hbtss : st.controlStack.map (fun ec => ec.outerBranchTargetStackSize)
      = List.range st.controlStack.length
  hinner : ∀ ec ∈ st.controlStack.dropLast, ec.isReachable = true
  hlow : ∀ vc ∈ vs.ctrls.take (st.controlStack.length - 1), vc.unreachable = false
  hfres : ∀ vc0, vs.ctrls.head? = some vc0 → st.functionResultTypes = vc0.endTypes
  hht : ∀ g, vs.ctrls.getLast? = some g → g.height ≤ vs.vals.length
  hchain : List.Chain' (fun a b => a.height ≤ b.height) vs.ctrls
  htop : ∀ etop, st.controlStack.getLast? = some etop →
    ∀ vtop, (vs.ctrls.take st.controlStack.length).getLast? = some vtop →
      ((etop.isReachable = true ∧ d = 0 ∧ vs.ctrls.length = st.controlStack.length ∧
          vtop.unreachable = false ∧ st.stack.length = vs.vals.length) ∨
       (etop.isReachable = false ∧ vtop.unreachable = true ∧
          vs.ctrls.length = st.controlStack.length + d ∧
          st.stack.length = etop.outerStackSize))

end Emit

/-! ## Theorems -/

/-! ### Helper lemmas about `toSigned` / `ofSigned` -/

theorem two_pow_split (w : Nat) (hw : 0 < w) : (2 ^ w : Nat) = 2 ^ (w - 1) * 2 := by
  conv_lhs => rw [show w = (w - 1) + 1 by omega]
  rw [pow_succ]

theorem int_sub_self_emod (a b : Int) : (a - b) % b = a % b := by
  rw [Int.sub_emod, Int.emod_self, sub_zero, Int.emod_emod_of_dvd _ dvd_rfl]

theorem int_add_self_emod (a b : Int) : (a + b) % b = a % b := by
  rw [Int.add_emod, Int.emod_self, add_zero, Int.emod_emod_of_dvd _ dvd_rfl]

theorem toSigned_bounds (w v : Nat) (hw : 0 < w) (hv : v < 2 ^ w) :
    -((2 ^ (w - 1) : Nat) : Int) ≤ toSigned w v ∧
      toSigned w v < ((2 ^ (w - 1) : Nat) : Int) := by
  have hsplit : (2 ^ w : Nat) = 2 ^ (w - 1) * 2 := two_pow_split w hw
  unfold toSigned
  split <;> rename_i h
  · have h1 : (v : Int) < ((2 ^ (w - 1) : Nat) : Int) := by exact_mod_cast h
    have h3 : (0 : Int) ≤ (v : Int) := Int.ofNat_nonneg v
    omega
  · push_neg at h
    have h1 : ((2 ^ (w - 1) : Nat) : Int) ≤ (v : Int) := by exact_mod_cast h
    have h2 : (v : Int) < ((2 ^ w : Nat) : Int) := by exact_mod_cast hv
    have h3 : ((2 ^ w : Nat) : Int) = ((2 ^ (w - 1) : Nat) : Int) * 2 := by
      rw [hsplit]; push_cast; ring
    omega

theorem ofSigned_toSigned (w : Nat) (v : Nat) (hv : v < 2 ^ w) :
    ofSigned w (toSigned w v) = v := by
  have hvle : (v : Int) < ((2 ^ w : Nat) : Int) := by exact_mod_cast hv
  have hv0 : (0 : Int) ≤ (v : Int) := Int.ofNat_nonneg v
  unfold ofSigned toSigned
  split
  · rw [Int.emod_eq_of_lt hv0 hvle]
    simp
  · rw [int_sub_self_emod, Int.emod_eq_of_lt hv0 hvle]
    simp

theorem toSigned_ofSigned (w : Nat) (i : Int) (hw : 0 < w)
    (hlo : -((2 ^ (w - 1) : Nat) : Int) ≤ i)
    (hhi : i < ((2 ^ (w - 1) : Nat) : Int)) :
    toSigned w (ofSigned w i) = i := by
  have hsplit : ((2 ^ w : Nat) : Int) = ((2 ^ (w - 1) : Nat) : Int) * 2 := by
    rw [two_pow_split w hw]; push_cast; ring
  have hpow : (0 : Int) < ((2 ^ (w - 1) : Nat) : Int) := by
    exact_mod_cast Nat.pos_pow_of_pos (w - 1) (by norm_num)
  unfold ofSigned toSigned
  rcases le_or_lt 0 i with hi | hi
  · have hmod : i % ((2 ^ w : Nat) : Int) = i := Int.emod_eq_of_lt hi (by omega)
    rw [hmod]
    have htn : ((i.toNat : Nat) : Int) = i := Int.toNat_of_nonneg hi
    have hlt : (i.toNat : Nat) < 2 ^ (w - 1) := by
      have : ((i.toNat : Nat) : Int) < ((2 ^ (w - 1) : Nat) : Int) := by omega
      exact_mod_cast this
    rw [if_pos hlt]
    omega
  · have hmod : i % ((2 ^ w : Nat) : Int) = i + ((2 ^ w : Nat) : Int) := by
      have h1 : (i + ((2 ^ w : Nat) : Int)) % ((2 ^ w : Nat) : Int)
          = i % ((2 ^ w : Nat) : Int) := int_add_self_emod _ _
      rw [← h1, Int.emod_eq_of_lt (by omega) (by omega)]
    rw [hmod]
    have htn : (((i + ((2 ^ w : Nat) : Int)).toNat : Nat) : Int)
        = i + ((2 ^ w : Nat) : Int) := Int.toNat_of_nonneg (by omega)
    have hge : ¬ (((i + ((2 ^ w : Nat) : Int)).toNat : Nat) < 2 ^ (w - 1)) := by
      intro hcon
      have : (((i + ((2 ^ w : Nat) : Int)).toNat : Nat) : Int)
          < ((2 ^ (w - 1) : Nat) : Int) := by exact_mod_cast hcon
      omega
    rw [if_neg hge]
    omega

theorem ofSigned_lt (w : Nat) (i : Int) : ofSigned w i < 2 ^ w := by
  have hpos : (0 : Int) < ((2 ^ w : Nat) : Int) := by
    exact_mod_cast Nat.pos_pow_of_pos w (by norm_num)
  have h1 : 0 ≤ i % ((2 ^ w : Nat) : Int) := Int.emod_nonneg i (by omega)
  have h2 : i % ((2 ^ w : Nat) : Int) < ((2 ^ w : Nat) : Int) :=
    Int.emod_lt_of_pos i hpos
  unfold ofSigned
  omega

theorem natAbs_tmod_eq (a b : Int) : (Int.tmod a b).natAbs = a.natAbs % b.natAbs := by
  cases a <;> cases b <;> rename_i m n
  · rfl
  · rfl
  · rw [show Int.tmod (Int.negSucc m) (Int.ofNat n) = -Int.ofNat (m.succ % n) from rfl,
        Int.natAbs_neg]
    rfl
  · rw [show Int.tmod (Int.negSucc m) (Int.negSucc n) = -Int.ofNat (m.succ % n.succ) from rfl,
        Int.natAbs_neg]
    rfl

theorem natAbs_le_of_bounds {a : Int} {M : Nat}
    (h1 : -(M : Int) ≤ a) (h2 : a < (M : Int)) : a.natAbs ≤ M := by
  omega

/-- Range of the truncated signed quotient on `w`-bit operands, excluding the
division-overflow pair `(INT_MIN, -1)`. -/
theorem tdiv_range (w : Nat) (a b : Int)
    (ha1 : -((2 ^ (w - 1) : Nat) : Int) ≤ a) (ha2 : a < ((2 ^ (w - 1) : Nat) : Int))
    (hb0 : b ≠ 0) (hno : ¬(a = -((2 ^ (w - 1) : Nat) : Int) ∧ b = -1)) :
    -((2 ^ (w - 1) : Nat) : Int) ≤ a.tdiv b ∧
      a.tdiv b < ((2 ^ (w - 1) : Nat) : Int) := by
  have hMpos : 0 < 2 ^ (w - 1) := Nat.pos_pow_of_pos _ (by norm_num)
  have hAa : a.natAbs ≤ 2 ^ (w - 1) := natAbs_le_of_bounds ha1 ha2
  have habs : (a.tdiv b).natAbs = a.natAbs / b.natAbs := Int.natAbs_tdiv a b
  have hqle : (a.tdiv b).natAbs ≤ 2 ^ (w - 1) :=
    habs ▸ le_trans (Nat.div_le_self _ _) hAa
  have hne : a.tdiv b ≠ ((2 ^ (w - 1) : Nat) : Int) := by
    intro hq
    have hqabs : (a.tdiv b).natAbs = 2 ^ (w - 1) := by
      rw [hq]; exact Int.natAbs_ofNat _
    have hdiv : a.natAbs / b.natAbs = 2 ^ (w - 1) := by rw [← habs, hqabs]
    have hapos : 0 < a.natAbs := by
      by_contra hcon
      push_neg at hcon
      interval_cases h : a.natAbs
      · simp [h] at hdiv
        omega
    have hb1 : b.natAbs = 1 := by
      rcases Nat.lt_or_ge b.natAbs 2 with hlt | hge
      · have : b.natAbs ≠ 0 := by
          intro h0
          exact hb0 (Int.natAbs_eq_zero.mp h0)
        omega
      · exfalso
        have : a.natAbs / b.natAbs < a.natAbs := Nat.div_lt_self hapos hge
        omega
    have haM : a.natAbs = 2 ^ (w - 1) := by
      have := Nat.div_one a.natAbs
      rw [hb1] at hdiv
      omega
    have haeq : a = -((2 ^ (w - 1) : Nat) : Int) := by
      rcases Int.natAbs_eq a with h | h
      · exfalso
        rw [h, haM] at ha2
        exact lt_irrefl _ ha2
      · rw [h, haM]
    rcases Int.natAbs_eq b with hbpos | hbneg
    · -- b = 1 : tdiv = a = -M, contradicting tdiv = M > 0
      have hb : b = 1 := by rw [hbpos, hb1]; rfl
      rw [hb, Int.tdiv_one, haeq] at hq
      omega
    · have hb : b = -1 := by rw [hbneg, hb1]; rfl
      exact hno ⟨haeq, hb⟩
  omega

/-- Range of the truncated signed remainder: strictly within `(-|b|, |b|)` for
`b ≠ 0`, hence within the `w`-bit signed range for `w`-bit operands. -/
theorem tmod_range (w : Nat) (a b : Int)
    (hb1 : -((2 ^ (w - 1) : Nat) : Int) ≤ b) (hb2 : b < ((2 ^ (w - 1) : Nat) : Int))
    (hb0 : b ≠ 0) :
    -((2 ^ (w - 1) : Nat) : Int) ≤ Int.tmod a b ∧
      Int.tmod a b < ((2 ^ (w - 1) : Nat) : Int) := by
  have hBa : b.natAbs ≤ 2 ^ (w - 1) := natAbs_le_of_bounds hb1 hb2
  have hBpos : 0 < b.natAbs := by
    have : b.natAbs ≠ 0 := fun h0 => hb0 (Int.natAbs_eq_zero.mp h0)
    omega
  have habs : (Int.tmod a b).natAbs < b.natAbs := by
    rw [natAbs_tmod_eq]
    exact Nat.mod_lt _ hBpos
  omega


theorem toSigned_inj (w : Nat) (v1 v2 : Nat) (h1 : v1 < 2 ^ w) (h2 : v2 < 2 ^ w)
    (he : toSigned w v1 = toSigned w v2) : v1 = v2 := by
  have e1 := ofSigned_toSigned w v1 h1
  have e2 := ofSigned_toSigned w v2 h2
  rw [he, e2] at e1
  exact e1.symm

theorem toSigned_min (w : Nat) (hw : 0 < w) :
    toSigned w (2 ^ (w - 1)) = -((2 ^ (w - 1) : Nat) : Int) := by
  have h3 : ((2 ^ w : Nat) : Int) = ((2 ^ (w - 1) : Nat) : Int) * 2 := by
    exact_mod_cast congrArg (fun n : Nat => (n : Int)) (two_pow_split w hw)
  unfold toSigned
  rw [if_neg (lt_irrefl _)]
  omega

theorem toSigned_negone (w : Nat) (hw : 0 < w) :
    toSigned w (2 ^ w - 1) = -1 := by
  have hsplit := two_pow_split w hw
  have hMpos : 0 < 2 ^ (w - 1) := Nat.pos_pow_of_pos _ (by norm_num)
  unfold toSigned
  rw [if_neg (by omega)]
  omega

theorem toSigned_zero_eq (w : Nat) : toSigned w 0 = 0 := by
  have hMpos : 0 < 2 ^ (w - 1) := Nat.pos_pow_of_pos _ (by norm_num)
  unfold toSigned
  rw [if_pos hMpos]
  simp

/-! ### Claim theorems: memory addressing, division, remainder -/

/-- C1.  For every emitted memory load or store (the non-atomic and atomic
load/store macros all obtain their pointer from `coerceByteIndexToPointer`),
the emitted address computation zero-extends the popped 32-bit byte index to
64 bits and zero-extends the 32-bit static offset before adding, so the
effective byte address fed to the pointer GEP is the unsigned value of the
index plus the unsigned offset.  The final conjunct separates this from a
sign-extending computation: for any index with the sign bit set, an implicit
`sext` would produce a different address. -/
theorem C1_memory_address_zero_extended (byteIndex offset : Nat)
    (hb : byteIndex < 2 ^ 32) (ho : offset < 2 ^ 32) :
    coerceByteIndexToPointer byteIndex offset = byteIndex + offset ∧
    coerceByteIndexToPointer byteIndex offset < 2 ^ 33 ∧
    (2 ^ 31 ≤ byteIndex →
      (sext32to64 byteIndex + zext32to64 offset) % 2 ^ 64 ≠ byteIndex + offset) := by
  have h31 : (2 : Nat) ^ 31 = 2147483648 := by norm_num
  have h32 : (2 : Nat) ^ 32 = 4294967296 := by norm_num
  have h33 : (2 : Nat) ^ 33 = 8589934592 := by norm_num
  have h64 : (2 : Nat) ^ 64 = 18446744073709551616 := by norm_num
  refine ⟨?_, ?_, ?_⟩
  · unfold coerceByteIndexToPointer zext32to64
    rw [h32, h64] at *
    split <;> omega
  · unfold coerceByteIndexToPointer zext32to64
    rw [h32, h33, h64] at *
    split <;> omega
  · intro hsign
    unfold sext32to64 zext32to64
    rw [h31, h32, h64] at *
    rw [if_neg (by omega)]
    omega

theorem C1_memory_address_zero_extended_witness :
    (2 ^ 31 + 5 : Nat) < 2 ^ 32 ∧ (8 : Nat) < 2 ^ 32 ∧
      coerceByteIndexToPointer (2 ^ 31 + 5) 8 = 2 ^ 31 + 13 :=
  ⟨by norm_num, by norm_num,
    (C1_memory_address_zero_extended (2 ^ 31 + 5) 8 (by norm_num) (by norm_num)).1.trans
      (by norm_num)⟩

/-- The generic `div_s` specification shared by the i32 and i64 instances. -/
theorem div_s_spec (w : Nat) (hw : 0 < w) (l r : Nat)
    (hl : l < 2 ^ w) (hr : r < 2 ^ w) :
    (div_s w l r = none ↔
      toSigned w r = 0 ∨
        (toSigned w l = -((2 ^ (w - 1) : Nat) : Int) ∧ toSigned w r = -1)) ∧
    (∀ q, div_s w l r = some q →
      q < 2 ^ w ∧ toSigned w q = Int.tdiv (toSigned w l) (toSigned w r)) := by
  have hsplit : (2 ^ w : Nat) = 2 ^ (w - 1) * 2 := two_pow_split w hw
  have hMpos : 0 < 2 ^ (w - 1) := Nat.pos_pow_of_pos _ (by norm_num)
  have hlb := toSigned_bounds w l hw hl
  have hrb := toSigned_bounds w r hw hr
  have hmineq : l = 2 ^ (w - 1) ↔ toSigned w l = -((2 ^ (w - 1) : Nat) : Int) := by
    constructor
    · intro h1
      rw [h1]
      exact toSigned_min w hw
    · intro h1
      exact toSigned_inj w l (2 ^ (w - 1)) hl (by omega) (h1.trans (toSigned_min w hw).symm)
  have hnegone : r = 2 ^ w - 1 ↔ toSigned w r = -1 := by
    constructor
    · intro h1
      rw [h1]
      exact toSigned_negone w hw
    · intro h1
      exact toSigned_inj w r (2 ^ w - 1) hr (by omega)
        (h1.trans (toSigned_negone w hw).symm)
  have hzero : r = 0 ↔ toSigned w r = 0 := by
    constructor
    · intro h1
      rw [h1]
      exact toSigned_zero_eq w
    · intro h1
      exact toSigned_inj w r 0 hr (by omega) (h1.trans (toSigned_zero_eq w).symm)
  constructor
  · unfold div_s
    cases hc : trapDivideByZeroOrIntegerOverflow w l r
    · rw [if_neg (by simp [hc])]
      unfold trapDivideByZeroOrIntegerOverflow at hc
      simp only [Bool.or_eq_false_iff, Bool.and_eq_false_iff, beq_eq_false_iff_ne,
        ne_eq] at hc
      constructor
      · intro h
        exact absurd h (by simp)
      · intro h
        exfalso
        rcases h with h | ⟨h1, h2⟩
        · exact hc.2 (hzero.mpr h)
        · rcases hc.1 with h3 | h3
          · exact h3 (hmineq.mpr h1)
          · exact h3 (hnegone.mpr h2)
    · rw [if_pos (by simp [hc])]
      unfold trapDivideByZeroOrIntegerOverflow at hc
      simp only [Bool.or_eq_true, Bool.and_eq_true, beq_iff_eq] at hc
      simp only [true_iff]
      rcases hc with ⟨hc1, hc2⟩ | hc3
      · exact Or.inr ⟨hmineq.mp hc1, hnegone.mp hc2⟩
      · exact Or.inl (hzero.mp hc3)
  · intro q hq
    unfold div_s at hq
    split at hq
    · exact absurd hq (by simp)
    · rename_i hc
      unfold trapDivideByZeroOrIntegerOverflow at hc
      simp only [Bool.or_eq_true, Bool.and_eq_true, beq_iff_eq, not_or, not_and] at hc
      have hr0 : toSigned w r ≠ 0 := fun h => hc.2 (hzero.mpr h)
      have hno : ¬(toSigned w l = -((2 ^ (w - 1) : Nat) : Int) ∧ toSigned w r = -1) := by
        rintro ⟨h1, h2⟩
        exact hc.1 (hmineq.mpr h1) (hnegone.mpr h2)
      have hrange := tdiv_range w (toSigned w l) (toSigned w r) hlb.1 hlb.2 hr0 hno
      have hq2 : ofSigned w (Int.tdiv (toSigned w l) (toSigned w r)) = q :=
        Option.some_inj.mp hq
      subst hq2
      exact ⟨ofSigned_lt _ _, toSigned_ofSigned w _ hw hrange.1 hrange.2⟩

/-- C2.  For `i32.div_s` and `i64.div_s` the emitted code calls the
`divideByZeroOrIntegerOverflowTrap` intrinsic before the division iff the
divisor is 0, or the dividend is `INT_MIN` and the divisor is `-1`; in
particular `i32.div_s` with dividend `INT32_MIN` and divisor `-1` traps
rather than wrapping, and every non-trapping operand pair yields the exact
truncated signed quotient. -/
theorem C2_div_s_trap_iff_and_exact :
    (∀ l r : Nat, l < 2 ^ 32 → r < 2 ^ 32 →
      ((i32_div_s l r = none ↔
        toSigned 32 r = 0 ∨
          (toSigned 32 l = -((2 ^ 31 : Nat) : Int) ∧ toSigned 32 r = -1)) ∧
       (∀ q, i32_div_s l r = some q →
         q < 2 ^ 32 ∧ toSigned 32 q = Int.tdiv (toSigned 32 l) (toSigned 32 r)))) ∧
    (∀ l r : Nat, l < 2 ^ 64 → r < 2 ^ 64 →
      ((i64_div_s l r = none ↔
        toSigned 64 r = 0 ∨
          (toSigned 64 l = -((2 ^ 63 : Nat) : Int) ∧ toSigned 64 r = -1)) ∧
       (∀ q, i64_div_s l r = some q →
         q < 2 ^ 64 ∧ toSigned 64 q = Int.tdiv (toSigned 64 l) (toSigned 64 r)))) ∧
    i32_div_s (2 ^ 31) (2 ^ 32 - 1) = none := by
  refine ⟨?_, ?_, ?_⟩
  · intro l r hl hr
    exact div_s_spec 32 (by norm_num) l r hl hr
  · intro l r hl hr
    exact div_s_spec 64 (by norm_num) l r hl hr
  · rfl

theorem C2_div_s_witness :
    (7 : Nat) < 2 ^ 32 ∧ (2 ^ 32 - 1 : Nat) < 2 ^ 32 ∧
      i32_div_s 7 (2 ^ 32 - 1) = some (2 ^ 32 - 7) ∧
      toSigned 32 (2 ^ 32 - 7) = -7 := by
  refine ⟨by norm_num, by norm_num, by rfl, ?_⟩
  have h := (C2_div_s_trap_iff_and_exact.1 7 (2 ^ 32 - 1) (by norm_num)
    (by norm_num)).2 (2 ^ 32 - 7) (by rfl)
  rw [h.2]
  rfl

/-- The generic `emitSRem` specification shared by the i32 and i64
instances. -/
theorem emitSRem_spec (w : Nat) (hw : 0 < w) (l r : Nat)
    (hl : l < 2 ^ w) (hr : r < 2 ^ w) :
    (emitSRem w l r = none ↔ toSigned w r = 0) ∧
    (toSigned w l = -((2 ^ (w - 1) : Nat) : Int) → toSigned w r = -1 →
      emitSRem w l r = some 0) ∧
    (∀ q, emitSRem w l r = some q →
      ¬(toSigned w l = -((2 ^ (w - 1) : Nat) : Int) ∧ toSigned w r = -1) →
      q < 2 ^ w ∧ toSigned w q = Int.tmod (toSigned w l) (toSigned w r)) := by
  have hMpos : 0 < 2 ^ (w - 1) := Nat.pos_pow_of_pos _ (by norm_num)
  have hsplit : (2 ^ w : Nat) = 2 ^ (w - 1) * 2 := two_pow_split w hw
  have hrb := toSigned_bounds w r hw hr
  have hmineq : l = 2 ^ (w - 1) ↔ toSigned w l = -((2 ^ (w - 1) : Nat) : Int) := by
    constructor
    · intro h1
      rw [h1]
      exact toSigned_min w hw
    · intro h1
      exact toSigned_inj w l (2 ^ (w - 1)) hl (by omega) (h1.trans (toSigned_min w hw).symm)
  have hnegone : r = 2 ^ w - 1 ↔ toSigned w r = -1 := by
    constructor
    · intro h1
      rw [h1]
      exact toSigned_negone w hw
    · intro h1
      exact toSigned_inj w r (2 ^ w - 1) hr (by omega)
        (h1.trans (toSigned_negone w hw).symm)
  have hzero : r = 0 ↔ toSigned w r = 0 := by
    constructor
    · intro h1
      rw [h1]
      exact toSigned_zero_eq w
    · intro h1
      exact toSigned_inj w r 0 hr (by omega) (h1.trans (toSigned_zero_eq w).symm)
  refine ⟨?_, ?_, ?_⟩
  · unfold emitSRem trapDivideByZero
    cases hc : (r == 0)
    · rw [if_neg (by simp [hc])]
      simp only [beq_eq_false_iff_ne, ne_eq] at hc
      constructor
      · intro h
        split at h <;> exact absurd h (by simp)
      · intro h
        exact absurd (hzero.mpr h) hc
    · rw [if_pos (by simp [hc])]
      simp only [beq_iff_eq] at hc
      simp only [true_iff]
      exact hzero.mp hc
  · intro h1 h2
    unfold emitSRem trapDivideByZero
    rw [if_neg (by simp; omega)]
    rw [if_pos (by simp [hmineq.mpr h1, hnegone.mpr h2])]
  · intro q hq hno
    unfold emitSRem trapDivideByZero at hq
    split at hq
    · exact absurd hq (by simp)
    · split at hq
      · rename_i hc
        simp only [Bool.and_eq_true, beq_iff_eq] at hc
        exact absurd ⟨hmineq.mp hc.1, hnegone.mp hc.2⟩ hno
      · rename_i hr0 _
        have hr0' : toSigned w r ≠ 0 := by
          simp only [beq_iff_eq] at hr0
          exact fun h => hr0 (by simpa using hzero.mpr h)
        have hrange := tmod_range w (toSigned w l) (toSigned w r) hrb.1 hrb.2 hr0'
        have hq2 : ofSigned w (Int.tmod (toSigned w l) (toSigned w r)) = q :=
          Option.some_inj.mp hq
        subst hq2
        exact ⟨ofSigned_lt _ _, toSigned_ofSigned w _ hw hrange.1 hrange.2⟩

/-- C4.  For `i32.rem_s` and `i64.rem_s`: after the divisor-is-zero trap
check, the `(INT_MIN, -1)` operand pair yields 0 through the phi node
without executing the remainder instruction, and every other non-trapping
pair yields the truncated signed remainder. -/
theorem C4_rem_s_spec :
    (∀ l r : Nat, l < 2 ^ 32 → r < 2 ^ 32 →
      ((i32_rem_s l r = none ↔ toSigned 32 r = 0) ∧
       (toSigned 32 l = -((2 ^ 31 : Nat) : Int) → toSigned 32 r = -1 →
         i32_rem_s l r = some 0) ∧
       (∀ q, i32_rem_s l r = some q →
         ¬(toSigned 32 l = -((2 ^ 31 : Nat) : Int) ∧ toSigned 32 r = -1) →
         q < 2 ^ 32 ∧ toSigned 32 q = Int.tmod (toSigned 32 l) (toSigned 32 r)))) ∧
    (∀ l r : Nat, l < 2 ^ 64 → r < 2 ^ 64 →
      ((i64_rem_s l r = none ↔ toSigned 64 r = 0) ∧
       (toSigned 64 l = -((2 ^ 63 : Nat) : Int) → toSigned 64 r = -1 →
         i64_rem_s l r = some 0) ∧
       (∀ q, i64_rem_s l r = some q →
         ¬(toSigned 64 l = -((2 ^ 63 : Nat) : Int) ∧ toSigned 64 r = -1) →
         q < 2 ^ 64 ∧ toSigned 64 q = Int.tmod (toSigned 64 l) (toSigned 64 r)))) := by
  constructor
  · intro l r hl hr
    exact emitSRem_spec 32 (by norm_num) l r hl hr
  · intro l r hl hr
    exact emitSRem_spec 64 (by norm_num) l r hl hr

theorem C4_rem_s_witness :
    i32_rem_s (2 ^ 31) (2 ^ 32 - 1) = some 0 ∧
      i32_rem_s 7 3 = some 1 ∧ toSigned 32 1 = Int.tmod (toSigned 32 7) (toSigned 32 3) := by
  refine ⟨?_, by rfl, ?_⟩
  · exact (C4_rem_s_spec.1 (2 ^ 31) (2 ^ 32 - 1) (by norm_num) (by norm_num)).2.1
      (by rw [toSigned_min 32 (by norm_num)]) (by rw [toSigned_negone 32 (by norm_num)])
  · exact ((C4_rem_s_spec.1 7 3 (by norm_num) (by norm_num)).2.2 1 (by rfl)
      (by decide)).2

/-! ### Claim theorems: float-to-int truncation -/

/-- C3.  `i32.trunc_s_f32` traps with `invalidFloatOperationTrap` exactly on
NaN, traps with `divideByZeroOrIntegerOverflowTrap` exactly when the operand
is `>= 2147483648.0` or `<= -2147483904.0`, and otherwise performs the
float-to-signed-int conversion; in particular the input `2147483648.0` traps
and the input `2147483647.0` converts to `INT32_MAX`. -/
theorem C3_i32_trunc_s_f32_spec :
    (∀ operand : FloatVal,
      (i32_trunc_s_f32 operand = .error .invalidFloatOperation ↔
        operand = .nan) ∧
      (i32_trunc_s_f32 operand = .error .divideByZeroOrIntegerOverflow ↔
        (fcmpOGE operand 2147483648 = true ∨
          fcmpOLE operand (-2147483904) = true)) ∧
      (fcmpUNO operand = false → fcmpOGE operand 2147483648 = false →
        fcmpOLE operand (-2147483904) = false →
        i32_trunc_s_f32 operand = .ok (fpToIntTrunc operand))) ∧
    i32_trunc_s_f32 (.fin 2147483648) = .error .divideByZeroOrIntegerOverflow ∧
    i32_trunc_s_f32 (.fin 2147483647) = .ok 2147483647 := by
  refine ⟨?_, by rfl, by rfl⟩
  intro operand
  unfold i32_trunc_s_f32 emitTruncFloatToInt
  cases operand with
  | nan => refine ⟨by simp [fcmpUNO], ?_, ?_⟩ <;> simp [fcmpUNO, fcmpOGE, fcmpOLE]
  | inf isNeg =>
    cases isNeg <;>
      refine ⟨by simp [fcmpUNO, fcmpOGE, fcmpOLE], by simp [fcmpUNO, fcmpOGE, fcmpOLE], ?_⟩ <;>
      simp [fcmpUNO, fcmpOGE, fcmpOLE]
  | fin q =>
    by_cases h1 : (2147483648 : ℚ) ≤ q <;> by_cases h2 : q ≤ (-2147483904 : ℚ) <;>
      refine ⟨by simp [fcmpUNO, fcmpOGE, fcmpOLE, h1, h2], ?_, ?_⟩ <;>
      simp [fcmpUNO, fcmpOGE, fcmpOLE, h1, h2]

theorem C3_i32_trunc_s_f32_witness :
    i32_trunc_s_f32 (.fin 7) = .ok 7 ∧
      i32_trunc_s_f32 .nan = .error .invalidFloatOperation := by
  constructor
  · have h := (C3_i32_trunc_s_f32_spec.1 (.fin 7)).2.2 (by decide) (by decide) (by decide)
    rw [h]
    rfl
  · exact (C3_i32_trunc_s_f32_spec.1 .nan).1.mpr rfl

/-- The generic select-cascade specification, valid whenever the float
bounds are properly ordered. -/
theorem emitTruncFloatToIntSat_spec (minF maxF : ℚ) (minI maxI : Int)
    (hlt : minF < maxF) :
    truncSatSpec (emitTruncFloatToIntSat minF maxF minI maxI) minF maxF minI maxI := by
  intro operand
  unfold emitTruncFloatToIntSat llvmSelect
  cases operand with
  | nan => refine ⟨fun _ => by simp [fcmpUNO], ?_, ?_, ?_⟩ <;>
      simp [fcmpUNO, fcmpOGE, fcmpOLE]
  | inf isNeg =>
    cases isNeg <;> refine ⟨?_, ?_, ?_, ?_⟩ <;> simp [fcmpUNO, fcmpOGE, fcmpOLE]
  | fin q =>
    have hne : ¬((q ≤ minF) ∧ (maxF ≤ q)) := by
      rintro ⟨ha, hb⟩
      exact absurd (hb.trans ha) (not_le.mpr hlt)
    by_cases h1 : q ≤ minF <;> by_cases h2 : maxF ≤ q
    · exact absurd ⟨h1, h2⟩ hne
    all_goals refine ⟨?_, ?_, ?_, ?_⟩ <;> simp [fcmpUNO, fcmpOGE, fcmpOLE, h1, h2]

/-- C5.  Every saturating float-to-int truncation the emitter produces never
traps and maps its operand by the select cascade: NaN to 0, at-or-below the
minimum float bound to the minimum integer, at-or-above the maximum float
bound to the maximum integer, and everything else to the plain conversion. -/
theorem C5_trunc_sat_spec :
    truncSatSpec i32_trunc_s_sat_f32 (-2147483648) 2147483648
      (-2147483648) 2147483647 ∧
    truncSatSpec i32_trunc_s_sat_f64 (-2147483648) 2147483647
      (-2147483648) 2147483647 ∧
    truncSatSpec i32_trunc_u_sat_f32 0 4294967296 0 4294967295 ∧
    truncSatSpec i32_trunc_u_sat_f64 0 4294967295 0 4294967295 ∧
    truncSatSpec i64_trunc_s_sat_f32 (-9223372036854775808) 9223372036854775808
      (-9223372036854775808) 9223372036854775807 ∧
    truncSatSpec i64_trunc_s_sat_f64 (-9223372036854775808) 9223372036854775808
      (-9223372036854775808) 9223372036854775807 ∧
    truncSatSpec i64_trunc_u_sat_f32 0 18446744073709551616 0 18446744073709551615 ∧
    truncSatSpec i64_trunc_u_sat_f64 0 18446744073709551616 0 18446744073709551615 :=
  ⟨emitTruncFloatToIntSat_spec _ _ _ _ (by norm_num),
   emitTruncFloatToIntSat_spec _ _ _ _ (by norm_num),
   emitTruncFloatToIntSat_spec _ _ _ _ (by norm_num),
   emitTruncFloatToIntSat_spec _ _ _ _ (by norm_num),
   emitTruncFloatToIntSat_spec _ _ _ _ (by norm_num),
   emitTruncFloatToIntSat_spec _ _ _ _ (by norm_num),
   emitTruncFloatToIntSat_spec _ _ _ _ (by norm_num),
   emitTruncFloatToIntSat_spec _ _ _ _ (by norm_num)⟩

theorem C5_trunc_sat_witness :
    i32_trunc_s_sat_f32 .nan = 0 ∧
      i32_trunc_s_sat_f32 (.fin 2147483648) = 2147483647 ∧
      i32_trunc_s_sat_f32 (.inf true) = -2147483648 := by
  refine ⟨(C5_trunc_sat_spec.1 .nan).1 rfl, ?_, ?_⟩
  · exact (C5_trunc_sat_spec.1 (.fin 2147483648)).2.2.1 (by decide)
  · exact (C5_trunc_sat_spec.1 (.inf true)).2.1 (by decide)

namespace SExp

theorem except_ok_bind {ε α β : Type} (a : α) (f : α → Except ε β) :
    (Except.ok a >>= f : Except ε β) = f a := rfl

theorem except_error_bind {ε α β : Type} (e : ε) (f : α → Except ε β) :
    ((Except.error e : Except ε α) >>= f) = Except.error e := rfl

theorem isSymbolCharacter_not_nl_tab (c : Char) (h : isSymbolCharacter c = true) :
    c ≠ newlineChar ∧ c ≠ tabChar := by
  unfold isSymbolCharacter isWhitespace at h
  constructor <;> intro he <;> subst he <;> simp at h

/-- The symbol-scanning do-while on a token of symbol characters followed by
a non-symbol character: it accumulates exactly the token and stops at the
terminator character, having advanced the locus over the token. -/
theorem parseSymbolLoop_token (tok : List Char) (acc : List Char) (fuel : Nat)
    (c : Char) (cs : List Char) (loc : Locus)
    (hfuel : tok.length + 1 ≤ fuel)
    (htok : ∀ x ∈ tok, isSymbolCharacter x = true)
    (htok0 : tok ≠ [])
    (hc : isSymbolCharacter c = false) :
    parseSymbolLoop fuel acc ⟨tok ++ c :: cs, loc⟩ =
      .ok (acc ++ tok,
        ⟨c :: cs, { loc with characters := loc.characters + tok.length }⟩) := by
  induction tok generalizing acc fuel loc with
  | nil => exact absurd rfl htok0
  | cons t ts ih =>
    obtain ⟨m, rfl⟩ : ∃ m, fuel = m + 1 := ⟨fuel - 1, by simp at hfuel ⊢; omega⟩
    have hts : t ≠ newlineChar ∧ t ≠ tabChar :=
      isSymbolCharacter_not_nl_tab t (htok t (by simp))
    have hadv : Locus.advanceBy loc t = { loc with characters := loc.characters + 1 } := by
      unfold Locus.advanceBy
      rw [if_neg hts.1, if_neg hts.2]
    have hstep : parseSymbolLoop (m + 1) acc ⟨t :: (ts ++ c :: cs), loc⟩
        = if isSymbolCharacter (Stream.peek ⟨ts ++ c :: cs, Locus.advanceBy loc t⟩) then
            parseSymbolLoop m (acc ++ [t]) ⟨ts ++ c :: cs, Locus.advanceBy loc t⟩
          else .ok (acc ++ [t], ⟨ts ++ c :: cs, Locus.advanceBy loc t⟩) := rfl
    rw [show (t :: ts) ++ c :: cs = t :: (ts ++ c :: cs) from rfl, hstep, hadv]
    cases ts with
    | nil =>
      have hpeek : Stream.peek ⟨[] ++ c :: cs, { loc with characters := loc.characters + 1 }⟩
          = c := rfl
      rw [hpeek, hc]
      simp
    | cons u us =>
      have hpeek : Stream.peek
          ⟨(u :: us) ++ c :: cs, { loc with characters := loc.characters + 1 }⟩ = u := rfl
      rw [hpeek, htok u (by simp)]
      simp only [if_true]
      rw [ih (acc ++ [t]) m { loc with characters := loc.characters + 1 }
        (by simp at hfuel ⊢; omega)
        (fun x hx => htok x (by simp [hx]))
        (by simp)]
      rw [List.append_assoc]
      simp
      omega

/-- `parseNaN` only ever produces a `float` node or an `error` node. -/
theorem parseNaN_shape (startLocus : Locus) (isNeg : Bool) (s : Stream)
    (res : SNode) (s2 : Stream)
    (h : parseNaN startLocus isNeg s = .ok (res, s2)) :
    (∃ l1 l2 p, res = SNode.float l1 l2 p) ∨ (∃ l m, res = SNode.error l m) := by
  unfold parseNaN at h
  split at h
  · dsimp only at h
    cases hkw : parseKeyword ("0x".toList) s.forceAdvance with
    | error e =>
      rw [hkw, except_error_bind] at h
      cases h
    | ok p =>
      obtain ⟨kwb, sk⟩ := p
      rw [hkw, except_ok_bind] at h
      dsimp only at h
      split at h
      · simp only [except_ok_bind, pure, Except.pure, Except.ok.injEq, Prod.mk.injEq] at h
        exact Or.inr ⟨_, _, h.1.symm⟩
      · rcases hph : parseHexInteger sk with ⟨numMatched, significandBits, s3⟩
        rw [hph] at h
        dsimp only at h
        split at h
        · simp only [except_ok_bind, pure, Except.pure, Except.ok.injEq, Prod.mk.injEq] at h
          exact Or.inr ⟨_, _, h.1.symm⟩
        · split at h
          · simp only [except_ok_bind, pure, Except.pure, Except.ok.injEq, Prod.mk.injEq] at h
            exact Or.inr ⟨_, _, h.1.symm⟩
          · cases hcon : s3.consume with
            | error e =>
              rw [hcon, except_error_bind] at h
              cases h
            | ok p2 =>
              obtain ⟨c2, s4⟩ := p2
              rw [hcon, except_ok_bind] at h
              dsimp only at h
              split at h
              · simp only [except_ok_bind, pure, Except.pure, Except.ok.injEq, Prod.mk.injEq] at h
                exact Or.inr ⟨_, _, h.1.symm⟩
              · simp only [except_ok_bind, pure, Except.pure, Except.ok.injEq, Prod.mk.injEq] at h
                exact Or.inl ⟨_, _, _, h.1.symm⟩
  · simp only [except_ok_bind, pure, Except.pure, Except.ok.injEq, Prod.mk.injEq] at h
    exact Or.inl ⟨_, _, _, h.1.symm⟩

/-- C10 (amended).  A bare symbol token spelling exactly `nan` or `infinity`
is dispatched to the number parser and never yields a `Symbol` or
`UnindexedSymbol` node: `infinity` always produces the positive-infinity
`Float` node (both component sets), `nan` produces the canonical quiet-NaN
`Float` node provided the terminating character is not `(`; a following `(`
instead parses an explicit NaN payload, yielding a `Float` node with that
significand or an `error` node if the payload is malformed. -/
theorem C10_nan_infinity_amended (map : SymbolIndexMap) (fuel : Nat) (loc : Locus)
    (c : Char) (cs : List Char) (hc : isSymbolCharacter c = false) :
    (c ≠ '(' →
      parseSymbol map (fuel + 1) ⟨'n' :: 'a' :: 'n' :: c :: cs, loc⟩ =
        .ok (SNode.float loc { loc with characters := loc.characters + 3 }
          (.comps ⟨false, 0x7ff, 2 ^ 51⟩ ⟨false, 0xff, 2 ^ 22⟩),
          ⟨c :: cs, { loc with characters := loc.characters + 3 }⟩)) ∧
    (parseSymbol map (fuel + 1)
        ⟨'i' :: 'n' :: 'f' :: 'i' :: 'n' :: 'i' :: 't' :: 'y' :: c :: cs, loc⟩ =
      .ok (SNode.float loc { loc with characters := loc.characters + 8 }
        (.comps ⟨false, 0x7ff, 0⟩ ⟨false, 0xff, 0⟩),
        ⟨c :: cs, { loc with characters := loc.characters + 8 }⟩)) ∧
    (∀ res s2,
      parseSymbol map (fuel + 1) ⟨'n' :: 'a' :: 'n' :: c :: cs, loc⟩ = .ok (res, s2) →
      (∃ l1 l2 p, res = SNode.float l1 l2 p) ∨ (∃ l m, res = SNode.error l m)) := by
  have hloop := parseSymbolLoop_token ['n', 'a', 'n'] []
    (('n' :: 'a' :: 'n' :: c :: cs).length + 1) c cs loc
    (by simp only [List.length_cons, List.length_nil]; omega) (by decide) (by simp) hc
  simp only [List.cons_append, List.nil_append, List.length_cons, List.length_nil] at hloop
  have hsym : parseSymbol map (fuel + 1) ⟨'n' :: 'a' :: 'n' :: c :: cs, loc⟩
      = parseNaN loc false ⟨c :: cs, { loc with characters := loc.characters + 3 }⟩ := by
    simp only [parseSymbol, List.length_cons]
    rw [hloop, except_ok_bind]
    try dsimp only
    rw [if_pos (show (['n', 'a', 'n'] : List Char) = "nan".toList from by decide)]
  refine ⟨?_, ?_, ?_⟩
  · intro hparen
    rw [hsym]
    unfold parseNaN
    rw [show (⟨c :: cs, { loc with characters := loc.characters + 3 }⟩ : Stream).peek = c
      from rfl]
    rw [if_neg hparen]
    rfl
  · have hloopInf := parseSymbolLoop_token ['i', 'n', 'f', 'i', 'n', 'i', 't', 'y'] []
      (('i' :: 'n' :: 'f' :: 'i' :: 'n' :: 'i' :: 't' :: 'y' :: c :: cs).length + 1) c cs loc
      (by simp only [List.length_cons, List.length_nil]; omega) (by decide) (by simp) hc
    simp only [List.cons_append, List.nil_append, List.length_cons, List.length_nil] at hloopInf
    simp only [parseSymbol, List.length_cons]
    rw [hloopInf, except_ok_bind]
    try dsimp only
    rw [if_neg (show ¬((['i', 'n', 'f', 'i', 'n', 'i', 't', 'y'] : List Char) = "nan".toList)
      from by decide)]
    rw [if_pos (show (['i', 'n', 'f', 'i', 'n', 'i', 't', 'y'] : List Char) = "infinity".toList
      from by decide)]
    rfl
  · intro res s2 h
    rw [hsym] at h
    exact parseNaN_shape _ _ _ _ _ h

/-- C10 counterexample: the bare symbol token `nan` followed by `(0x2)` is
lexed through the symbol path but yields a `Float` node carrying the
explicit payload significands (2), not the canonical quiet NaN
(significand `2 ^ 51` in f64, `2 ^ 22` in f32) that the claim requires for
every occurrence of the token. -/
theorem C10_nan_counterexample :
    parse [] ("nan(0x2)".toList) 100 =
      some (.roots [SNode.float ⟨0, 0, 0⟩ ⟨0, 0, 8⟩
        (.comps ⟨false, 2047, 2⟩ ⟨false, 255, 2⟩)]) ∧
    FloatPayload.comps ⟨false, 2047, 2⟩ ⟨false, 255, 2⟩ ≠
      FloatPayload.comps ⟨false, 2047, 2 ^ 51⟩ ⟨false, 255, 2 ^ 22⟩ :=
  ⟨rfl, by decide⟩

theorem C10_nan_infinity_amended_witness :
    parseSymbol [] 1 ⟨['n', 'a', 'n', ' '], ⟨0, 0, 0⟩⟩ =
      .ok (SNode.float ⟨0, 0, 0⟩ ⟨0, 0, 3⟩
        (.comps ⟨false, 0x7ff, 2 ^ 51⟩ ⟨false, 0xff, 2 ^ 22⟩),
        ⟨[' '], ⟨0, 0, 3⟩⟩) :=
  (C10_nan_infinity_amended [] 0 ⟨0, 0, 0⟩ ' ' [] (by decide)).1 (by decide)

/-- C9.  `SExp::parse` never propagates an exception: a
`FatalParseException` raised anywhere inside parsing is caught in `parse`
and returned as an `Error` node carrying the exception message and locus
(first conjunct; the second shows the only outcomes are a root list, such a
caught error node, or fuel exhaustion — the model of the source diverging).
The three concrete inputs exhibit: a malformed escape producing an `Error`
node in the tree and skipping to the closing quote (parsing then continues
with the symbol `e`), an unterminated quoted string producing an `Error`
node, and a fatal unexpected-end-of-file becoming a caught `Error` node. -/
theorem C9_parse_never_propagates :
    (∀ (map : SymbolIndexMap) (input : List Char) (fuel : Nat) (e : Fatal),
      parseNodeSequence map fuel ⟨input, ⟨0, 0, 0⟩⟩ = .error (.fatal e) →
      parse map input fuel = some (.caught (SNode.error e.locus e.message))) ∧
    (∀ (map : SymbolIndexMap) (input : List Char) (fuel : Nat),
      (∃ nodes, parse map input fuel = some (.roots nodes)) ∨
      (∃ ef : Fatal, parse map input fuel = some (.caught (SNode.error ef.locus ef.message))) ∨
      parse map input fuel = none) ∧
    parse [] (quoteChar :: 'a' :: 'b' :: backslashChar :: 'q' :: 'c' :: 'd' ::
        quoteChar :: ' ' :: 'e' :: [')']) 100 =
      some (.roots [SNode.error ⟨0, 0, 4⟩ .invalidEscapeCodeInQuotedString,
        SNode.unindexedSymbol ⟨0, 0, 9⟩ ⟨0, 0, 10⟩ ['e']]) ∧
    parse [] (quoteChar :: 'a' :: ['b']) 100 =
      some (.roots [SNode.error ⟨0, 0, 3⟩ .unexpectedNewlineOrEofInQuotedString]) ∧
    parse [] ['('] 100 =
      some (.caught (SNode.error ⟨0, 0, 1⟩ (.expectedCloseParen '('))) := by
  refine ⟨?_, ?_, rfl, rfl, rfl⟩
  · intro map input fuel e h
    unfold parse
    rw [h]
  · intro map input fuel
    unfold parse
    cases hr : parseNodeSequence map fuel ⟨input, ⟨0, 0, 0⟩⟩ with
    | ok p =>
      obtain ⟨nodes, sfin⟩ := p
      exact Or.inl ⟨nodes, rfl⟩
    | error err =>
      cases err with
      | fatal ef => exact Or.inr (Or.inl ⟨ef, rfl⟩)
      | outOfFuel => exact Or.inr (Or.inr rfl)

theorem C9_parse_never_propagates_witness :
    parse [] ['('] 100 =
      some (.caught (SNode.error ⟨0, 0, 1⟩ (.expectedCloseParen '('))) :=
  C9_parse_never_propagates.1 [] ['('] 100 ⟨⟨0, 0, 1⟩, .expectedCloseParen '('⟩ rfl

end SExp

namespace Emit

theorem addIncoming_stack (st : EmitState) (p : Nat) (v : Val) :
    (addIncoming st p v).stack = st.stack := rfl

theorem addIncoming_controlStack (st : EmitState) (p : Nat) (v : Val) :
    (addIncoming st p v).controlStack = st.controlStack := rfl

theorem addIncoming_branchTargetStack (st : EmitState) (p : Nat) (v : Val) :
    (addIncoming st p v).branchTargetStack = st.branchTargetStack := rfl

theorem getValueFromTop_addIncoming (st : EmitState) (p : Nat) (v : Val) (k : Nat) :
    getValueFromTop (addIncoming st p v) k = getValueFromTop st k := rfl

theorem findIncomings_map (p q : Nat) (v : Val) :
    ∀ l : List (Nat × List Val),
    Option.map (fun x => x.2)
      ((l.map (fun x => if x.1 = p then (x.1, x.2 ++ [v]) else x)).find? (fun x => x.1 == q))
    = if q = p then
        Option.map (fun l2 => l2 ++ [v]) (Option.map (fun x => x.2) (l.find? (fun x => x.1 == q)))
      else Option.map (fun x => x.2) (l.find? (fun x => x.1 == q))
  | [] => by by_cases h : q = p <;> simp [h]
  | x :: t => by
    by_cases hxp : x.1 = p <;> by_cases hxq : x.1 = q
    · have hqp : q = p := hxq ▸ hxp
      rw [List.map_cons, List.find?_cons_of_pos _ (by simp [hxp, hxq, hqp]),
          List.find?_cons_of_pos _ (by simp [hxq])]
      simp [hxp, hqp]
    · have hqp : ¬q = p := fun h => hxq (h ▸ hxp)
      have hpq : ¬p = q := fun h => hqp h.symm
      rw [List.map_cons, List.find?_cons_of_neg _ (by simp [hxp, hpq]),
          List.find?_cons_of_neg _ (by simp [hxq]), findIncomings_map p q v t,
          if_neg hqp]
    · have hqp : ¬q = p := fun h => hxp (hxq.trans h)
      rw [List.map_cons, List.find?_cons_of_pos _ (by simp [hxp, hxq, hqp]),
          List.find?_cons_of_pos _ (by simp [hxq]), if_neg hqp]
      simp [hxp]
    · rw [List.map_cons, List.find?_cons_of_neg _ (by simp [hxp, hxq]),
          List.find?_cons_of_neg _ (by simp [hxq]), findIncomings_map p q v t]

theorem lookupIncomings_addIncoming (st : EmitState) (p q : Nat) (v : Val) :
    lookupIncomings (addIncoming st p v) q =
      if q = p then (lookupIncomings st q).map (fun l2 => l2 ++ [v])
      else lookupIncomings st q := by
  simp only [lookupIncomings, addIncoming]
  exact findIncomings_map p q v st.phiIncomings

theorem nodup_getD_inj {phis : List Nat} (h : phis.Nodup) {i j : Nat}
    (hi : i < phis.length) (hj : j < phis.length)
    (heq : phis.getD i 0 = phis.getD j 0) : i = j := by
  rw [List.getD_eq_getElem _ _ hi, List.getD_eq_getElem _ _ hj] at heq
  exact (List.Nodup.getElem_inj_iff h).1 heq

end Emit

namespace Emit

theorem pop_spec (st : EmitState) (v : Val) (st2 : EmitState)
    (h : pop st = some (v, st2)) :
    st.stack ≠ [] ∧ st.stack.getLast? = some v ∧
    st2.stack = st.stack.dropLast ∧
    st2.controlStack = st.controlStack ∧
    st2.branchTargetStack = st.branchTargetStack ∧
    st2.phiIncomings = st.phiIncomings ∧
    st2.functionResultTypes = st.functionResultTypes ∧
    st2.nextId = st.nextId ∧
    st.stack.length ≠ innerOuterStackSize st := by
  unfold pop at h
  split at h
  · exact absurd h (by simp)
  · rename_i hlen
    cases hl : st.stack.getLast? with
    | none => rw [hl] at h; exact absurd h (by simp)
    | some w =>
      rw [hl] at h
      simp only [Option.some.injEq, Prod.mk.injEq] at h
      obtain ⟨hv, hst⟩ := h
      subst hst
      refine ⟨?_, by rw [hv], rfl, rfl, rfl, rfl, rfl, rfl, hlen⟩
      intro hnil
      rw [hnil] at hl
      exact absurd hl (by simp)

theorem brIfFold_fields (phis : List Nat) (n : Nat) :
    ∀ (idxs : List Nat) (st : EmitState),
    ((idxs.foldl (fun acc argIndex => addIncoming acc (phis.getD argIndex 0)
        (getValueFromTop acc (n - argIndex - 1))) st).stack = st.stack ∧
     (idxs.foldl (fun acc argIndex => addIncoming acc (phis.getD argIndex 0)
        (getValueFromTop acc (n - argIndex - 1))) st).controlStack = st.controlStack ∧
     (idxs.foldl (fun acc argIndex => addIncoming acc (phis.getD argIndex 0)
        (getValueFromTop acc (n - argIndex - 1))) st).branchTargetStack = st.branchTargetStack ∧
     (idxs.foldl (fun acc argIndex => addIncoming acc (phis.getD argIndex 0)
        (getValueFromTop acc (n - argIndex - 1))) st).functionResultTypes
        = st.functionResultTypes)
  | [], st => ⟨rfl, rfl, rfl, rfl⟩
  | i :: t, st => by
    rw [List.foldl_cons]
    exact brIfFold_fields phis n t _

theorem brIfFold_lookup_notmem (phis : List Nat) (n : Nat) (hnodup : phis.Nodup)
    (i : Nat) (hi : i < phis.length) :
    ∀ (idxs : List Nat) (st : EmitState), (∀ j ∈ idxs, j < phis.length) → i ∉ idxs →
    lookupIncomings (idxs.foldl (fun acc argIndex => addIncoming acc (phis.getD argIndex 0)
        (getValueFromTop acc (n - argIndex - 1))) st) (phis.getD i 0)
      = lookupIncomings st (phis.getD i 0)
  | [], st, _, _ => rfl
  | j :: t, st, hbound, hmem => by
    rw [List.foldl_cons,
      brIfFold_lookup_notmem phis n hnodup i hi t _
        (fun k hk => hbound k (List.mem_cons_of_mem _ hk))
        (fun hmem2 => hmem (List.mem_cons_of_mem _ hmem2)),
      lookupIncomings_addIncoming, if_neg]
    intro heq
    have hj : j < phis.length := hbound j (List.mem_cons_self _ _)
    have hij := nodup_getD_inj hnodup hi hj heq
    exact hmem (by rw [hij]; exact List.mem_cons_self _ _)

theorem brIfFold_lookup_mem (phis : List Nat) (n : Nat) (hnodup : phis.Nodup) :
    ∀ (idxs : List Nat) (st : EmitState), idxs.Nodup → (∀ j ∈ idxs, j < phis.length) →
    ∀ i, i ∈ idxs →
    lookupIncomings (idxs.foldl (fun acc argIndex => addIncoming acc (phis.getD argIndex 0)
        (getValueFromTop acc (n - argIndex - 1))) st) (phis.getD i 0)
      = (lookupIncomings st (phis.getD i 0)).map
          (fun l2 => l2 ++ [getValueFromTop st (n - i - 1)])
  | [], _, _, _, i, hmem => absurd hmem (List.not_mem_nil i)
  | j :: t, st, hnd, hbound, i, hmem => by
    rw [List.foldl_cons]
    rcases List.mem_cons.1 hmem with heq | hmem2
    · subst heq
      rw [brIfFold_lookup_notmem phis n hnodup i (hbound i (List.mem_cons_self _ _)) t _
            (fun k hk => hbound k (List.mem_cons_of_mem _ hk))
            ((List.nodup_cons.1 hnd).1),
          lookupIncomings_addIncoming, if_pos rfl]
    · have hne : ¬i = j := fun hij => (List.nodup_cons.1 hnd).1 (hij ▸ hmem2)
      have hne2 : ¬phis.getD i 0 = phis.getD j 0 := fun heq =>
        hne (nodup_getD_inj hnodup (hbound i hmem) (hbound j (List.mem_cons_self _ _)) heq)
      rw [brIfFold_lookup_mem phis n hnodup t _ (List.nodup_cons.1 hnd).2
            (fun k hk => hbound k (List.mem_cons_of_mem _ hk)) i hmem2,
          getValueFromTop_addIncoming, lookupIncomings_addIncoming, if_neg hne2]

theorem getBranchTargetByDepth_congr (st st2 : EmitState)
    (h : st2.branchTargetStack = st.branchTargetStack) (depth : Nat) :
    getBranchTargetByDepth st2 depth = getBranchTargetByDepth st depth := by
  cases st
  cases st2
  simp only at h
  subst h
  rfl

theorem lookupIncomings_eq_of_phiIncomings_eq (st st2 : EmitState)
    (h : st2.phiIncomings = st.phiIncomings) (p : Nat) :
    lookupIncomings st2 p = lookupIncomings st p := by
  simp only [lookupIncomings, h]

theorem getValueFromTop_eq_of_stack_eq (st st2 : EmitState)
    (h : st2.stack = st.stack) (k : Nat) :
    getValueFromTop st2 k = getValueFromTop st k := by
  simp only [getValueFromTop, h]

/-- **C6**: `br_if` pops exactly one value (the condition) from the operand
stack — the depth after `br_if` is exactly one less than before it, the
control and branch-target stacks are untouched — and the branch-argument
values are read without being popped: each of the `|target.params|` top
values of the remaining stack is added as an incoming value to the
corresponding target phi node while remaining on the operand stack for the
fallthrough path. -/
theorem C6_br_if_frame_effect (st st2 : EmitState) (depth : Nat)
    (h : br_if st depth = some st2) :
    st.stack ≠ [] ∧
    st2.stack = st.stack.dropLast ∧
    st2.stack.length + 1 = st.stack.length ∧
    st2.controlStack = st.controlStack ∧
    st2.branchTargetStack = st.branchTargetStack ∧
    ∀ target, getBranchTargetByDepth st2 depth = some target →
      target.params.length = target.phis.length ∧
      (target.phis.Nodup →
        ∀ i, i < target.params.length →
          lookupIncomings st2 (target.phis.getD i 0) =
            (lookupIncomings st (target.phis.getD i 0)).map
              (fun l2 => l2 ++ [getValueFromTop st2 (target.params.length - i - 1)])) := by
  unfold br_if at h
  simp only [bind, Option.bind_eq_some] at h
  obtain ⟨⟨c, st1⟩, hpop, h⟩ := h
  obtain ⟨target, htarget0, h⟩ := h
  replace htarget : getBranchTargetByDepth st1 depth = some target := htarget0
  split at h
  · exact absurd h (by simp)
  · rename_i hlen
    rw [not_not] at hlen
    simp only [Option.some.injEq] at h
    obtain ⟨hnil, -, hstack1, hctrl1, hbt1, hphi1, -, -, -⟩ := pop_spec st c st1 hpop
    have hfields := brIfFold_fields target.phis target.params.length
      (List.range target.params.length) st1
    rw [h] at hfields
    have hstack2 : st2.stack = st.stack.dropLast := hfields.1.trans hstack1
    refine ⟨hnil, hstack2, ?_, hfields.2.1.trans hctrl1, hfields.2.2.1.trans hbt1, ?_⟩
    · rw [hstack2, List.length_dropLast]
      have : st.stack.length ≠ 0 := fun h0 => hnil (List.length_eq_zero.1 h0)
      omega
    · intro target2 htarget2
      have hbtst : st2.branchTargetStack = st1.branchTargetStack := hfields.2.2.1
      have : getBranchTargetByDepth st2 depth = getBranchTargetByDepth st1 depth :=
        getBranchTargetByDepth_congr st1 st2 hbtst depth
      rw [this, htarget] at htarget2
      simp only [Option.some.injEq] at htarget2
      subst htarget2
      refine ⟨hlen, ?_⟩
      intro hnodup i hi
      have hlook := brIfFold_lookup_mem target.phis target.params.length hnodup
        (List.range target.params.length) st1 (List.nodup_range _)
        (fun j hj => hlen ▸ List.mem_range.1 hj) i (List.mem_range.2 hi)
      rw [h] at hlook
      rw [hlook,
        lookupIncomings_eq_of_phiIncomings_eq st st1 hphi1,
        getValueFromTop_eq_of_stack_eq st1 st2 hfields.1]

end Emit

namespace Emit

theorem C6_br_if_witness :
    lookupIncomings
      (⟨[Val.ssa 1, Val.ssa 2], [⟨CtrlType.function, 0, [7], none, [], [WasmType.i32], 0, 0, true⟩],
        [⟨[WasmType.i32], 0, [7]⟩], [(7, [Val.ssa 2])], [WasmType.i32], 10⟩ : EmitState) 7
      = some [Val.ssa 2] ∧
    (⟨[Val.ssa 1, Val.ssa 2], [⟨CtrlType.function, 0, [7], none, [], [WasmType.i32], 0, 0, true⟩],
        [⟨[WasmType.i32], 0, [7]⟩], [(7, [Val.ssa 2])], [WasmType.i32], 10⟩ : EmitState).stack
      = ([Val.ssa 1, Val.ssa 2, Val.ssa 3] : List Val).dropLast := by
  have h := C6_br_if_frame_effect
    ⟨[Val.ssa 1, Val.ssa 2, Val.ssa 3],
      [⟨CtrlType.function, 0, [7], none, [], [WasmType.i32], 0, 0, true⟩],
      [⟨[WasmType.i32], 0, [7]⟩], [(7, [])], [WasmType.i32], 10⟩
    ⟨[Val.ssa 1, Val.ssa 2], [⟨CtrlType.function, 0, [7], none, [], [WasmType.i32], 0, 0, true⟩],
      [⟨[WasmType.i32], 0, [7]⟩], [(7, [Val.ssa 2])], [WasmType.i32], 10⟩
    0 rfl
  refine ⟨?_, h.2.1⟩
  exact (h.2.2.2.2.2 ⟨[WasmType.i32], 0, [7]⟩ rfl).2 (by decide) 0 (by decide)

end Emit

namespace Emit

theorem popAndAddIncomingsRev_frames :
    ∀ (phis : List Nat) (st st2 : EmitState),
    popAndAddIncomingsRev st phis = some st2 →
    st2.controlStack = st.controlStack ∧ st2.branchTargetStack = st.branchTargetStack ∧
    st2.functionResultTypes = st.functionResultTypes ∧ st2.nextId = st.nextId
  | [], st, st2, h => by
    simp only [popAndAddIncomingsRev, Option.some.injEq] at h
    subst h
    exact ⟨rfl, rfl, rfl, rfl⟩
  | p :: rest, st, st2, h => by
    simp only [popAndAddIncomingsRev, bind, Option.bind_eq_some] at h
    obtain ⟨⟨v, st1⟩, hpop, h2⟩ := h
    replace h2 : popAndAddIncomingsRev (addIncoming st1 p v) rest = some st2 := h2
    have h3 := popAndAddIncomingsRev_frames rest _ _ h2
    obtain ⟨-, -, -, hctrl, hbt, -, hfr, hid, -⟩ := pop_spec st v st1 hpop
    exact ⟨h3.1.trans hctrl, h3.2.1.trans hbt, h3.2.2.1.trans hfr, h3.2.2.2.trans hid⟩

theorem addIncomingList_fields :
    ∀ (ps : List Nat) (vs : List Val) (st : EmitState),
    (addIncomingList st ps vs).stack = st.stack ∧
    (addIncomingList st ps vs).controlStack = st.controlStack ∧
    (addIncomingList st ps vs).branchTargetStack = st.branchTargetStack
  | [], vs, st => by cases vs <;> exact ⟨rfl, rfl, rfl⟩
  | _ :: _, [], st => ⟨rfl, rfl, rfl⟩
  | p :: ps, v :: vs, st => addIncomingList_fields ps vs (addIncoming st p v)

theorem findIncomings_filter (p q : Nat) :
    ∀ l : List (Nat × List Val),
    (l.filter (fun x => x.1 != p)).find? (fun x => x.1 == q)
      = if q = p then none else l.find? (fun x => x.1 == q)
  | [] => by by_cases h : q = p <;> simp [h]
  | x :: t => by
    by_cases hxp : x.1 = p <;> by_cases hxq : x.1 = q
    · have hqp : q = p := hxq ▸ hxp
      rw [List.filter_cons_of_neg (by simp [hxp]), findIncomings_filter p q t, if_pos hqp,
        if_pos hqp]
    · have hqp : ¬q = p := fun hh => hxq (hh ▸ hxp)
      rw [List.filter_cons_of_neg (by simp [hxp]), findIncomings_filter p q t,
        if_neg hqp, if_neg hqp, List.find?_cons_of_neg _ (by simp [hxq])]
    · have hqp : ¬q = p := fun hh => hxp (hxq.trans hh)
      rw [List.filter_cons_of_pos (by simp [hxp]), List.find?_cons_of_pos _ (by simp [hxq]),
        List.find?_cons_of_pos _ (by simp [hxq]), if_neg hqp]
    · rw [List.filter_cons_of_pos (by simp [hxp]), List.find?_cons_of_neg _ (by simp [hxq]),
        findIncomings_filter p q t]
      by_cases hqp : q = p
      · rw [if_pos hqp, if_pos hqp]
      · rw [if_neg hqp, if_neg hqp, List.find?_cons_of_neg _ (by simp [hxq])]

theorem lookupIncomings_erasePhi (st : EmitState) (p q : Nat) :
    lookupIncomings (erasePhi st p) q = if q = p then none else lookupIncomings st q := by
  simp only [lookupIncomings, erasePhi, findIncomings_filter]
  by_cases h : q = p <;> simp [h]

theorem lookupIncomings_push (st : EmitState) (v : Val) (q : Nat) :
    lookupIncomings (push st v) q = lookupIncomings st q := rfl

theorem pushEndPHIs_lookup_none :
    ∀ (phis : List Nat) (ts : List WasmType) (st : EmitState) (p : Nat),
    lookupIncomings st p = none → lookupIncomings (pushEndPHIs st phis ts) p = none
  | [], _, _, _, h => h
  | _ :: _, [], _, _, h => h
  | q :: rest, t :: ts, st, p, h => by
    unfold pushEndPHIs
    split
    · exact pushEndPHIs_lookup_none rest ts _ p h
    · refine pushEndPHIs_lookup_none rest ts _ p ?_
      rw [lookupIncomings_push, lookupIncomings_erasePhi]
      by_cases hpq : p = q
      · rw [if_pos hpq]
      · rw [if_neg hpq]
        exact h

theorem pushEndPHIs_stack_frames :
    ∀ (phis : List Nat) (ts : List WasmType) (st : EmitState), phis.Nodup →
    (pushEndPHIs st phis ts).stack
        = st.stack ++ (phis.zip ts).map (fun pt =>
            if (lookupIncomings st pt.1).getD [] = [] then Val.typedZero pt.2
            else Val.phi pt.1) ∧
    (pushEndPHIs st phis ts).controlStack = st.controlStack ∧
    (pushEndPHIs st phis ts).branchTargetStack = st.branchTargetStack
  | [], ts, st, _ => by simp [pushEndPHIs]
  | p :: rest, [], st, _ => by simp [pushEndPHIs]
  | p :: rest, t :: ts, st, hnd => by
    obtain ⟨hnotmem, hndr⟩ := List.nodup_cons.1 hnd
    unfold pushEndPHIs
    by_cases hc : (lookupIncomings st p).getD [] = []
    · rw [if_neg (fun hcontra => hcontra hc)]
      have ih := pushEndPHIs_stack_frames rest ts (push (erasePhi st p) (Val.typedZero t)) hndr
      refine ⟨?_, ih.2.1, ih.2.2⟩
      rw [ih.1]
      have hmapeq : (rest.zip ts).map (fun pt =>
          if (lookupIncomings (push (erasePhi st p) (Val.typedZero t)) pt.1).getD [] = []
          then Val.typedZero pt.2 else Val.phi pt.1)
          = (rest.zip ts).map (fun pt =>
            if (lookupIncomings st pt.1).getD [] = [] then Val.typedZero pt.2
            else Val.phi pt.1) := by
        refine List.map_congr_left ?_
        intro pt hpt
        obtain ⟨a, b⟩ := pt
        dsimp only
        have hq : a ∈ rest := (List.of_mem_zip hpt).1
        have hneq : ¬a = p := fun hh => hnotmem (hh ▸ hq)
        rw [lookupIncomings_push, lookupIncomings_erasePhi, if_neg hneq]
      rw [hmapeq, List.zip_cons_cons, List.map_cons]
      show st.stack ++ [Val.typedZero t] ++ _ = _
      rw [List.append_assoc]
      simp [hc]
    · rw [if_pos hc]
      have ih := pushEndPHIs_stack_frames rest ts (push st (Val.phi p)) hndr
      refine ⟨?_, ih.2.1, ih.2.2⟩
      rw [ih.1]
      have hmapeq : (rest.zip ts).map (fun pt =>
          if (lookupIncomings (push st (Val.phi p)) pt.1).getD [] = []
          then Val.typedZero pt.2 else Val.phi pt.1)
          = (rest.zip ts).map (fun pt =>
            if (lookupIncomings st pt.1).getD [] = [] then Val.typedZero pt.2
            else Val.phi pt.1) := rfl
      rw [hmapeq, List.zip_cons_cons, List.map_cons]
      show st.stack ++ [Val.phi p] ++ _ = _
      rw [List.append_assoc]
      simp [hc]

theorem pushEndPHIs_erased :
    ∀ (phis : List Nat) (ts : List WasmType) (st : EmitState), phis.Nodup →
    phis.length = ts.length →
    ∀ p, p ∈ phis → (lookupIncomings st p).getD [] = [] →
    lookupIncomings (pushEndPHIs st phis ts) p = none
  | [], _, _, _, _, p, hp, _ => absurd hp (List.not_mem_nil p)
  | q :: rest, [], _, _, hlen, _, _, _ => by simp at hlen
  | q :: rest, t :: ts, st, hnd, hlen, p, hp, hz => by
    obtain ⟨hnotmem, hndr⟩ := List.nodup_cons.1 hnd
    rcases List.mem_cons.1 hp with heq | hmem
    · subst heq
      unfold pushEndPHIs
      rw [if_neg (fun hcontra => hcontra hz)]
      refine pushEndPHIs_lookup_none rest ts _ p ?_
      rw [lookupIncomings_push, lookupIncomings_erasePhi, if_pos rfl]
    · have hpq : ¬p = q := fun hh => hnotmem (hh ▸ hmem)
      unfold pushEndPHIs
      by_cases hc : (lookupIncomings st q).getD [] = []
      · rw [if_neg (fun hcontra => hcontra hc)]
        refine pushEndPHIs_erased rest ts _ hndr (by simpa using hlen) p hmem ?_
        rw [lookupIncomings_push, lookupIncomings_erasePhi, if_neg hpq]
        exact hz
      · rw [if_pos hc]
        refine pushEndPHIs_erased rest ts _ hndr (by simpa using hlen) p hmem ?_
        rw [lookupIncomings_push]
        exact hz

theorem branchToEnd_spec (st st1 : EmitState) (f : ControlContext)
    (hf : st.controlStack.getLast? = some f)
    (h : branchToEndOfControlContext st = some st1) :
    st1.controlStack = st.controlStack ∧
    st1.branchTargetStack = st.branchTargetStack ∧
    st1.stack.length = f.outerStackSize ∧
    st1.functionResultTypes = st.functionResultTypes := by
  unfold branchToEndOfControlContext at h
  rw [hf] at h
  simp only [bind, Option.bind_eq_some, Option.some.injEq] at h
  obtain ⟨f2, hf2, h⟩ := h
  subst hf2
  split at h
  · rw [Option.bind_eq_some] at h
    obtain ⟨st2, hst2, hguard⟩ := h
    split at hguard
    · rename_i hlen
      simp only [Option.some.injEq] at hguard
      subst hguard
      have hfr := popAndAddIncomingsRev_frames _ _ _ hst2
      exact ⟨hfr.1, hfr.2.1, hlen, hfr.2.2.1⟩
    · exact absurd hguard (by simp)
  · simp only [Option.some_bind] at h
    split at h
    · rename_i hlen
      simp only [Option.some.injEq] at h
      subst h
      exact ⟨rfl, rfl, hlen, rfl⟩
    · exact absurd h (by simp)

end Emit

namespace Emit

/-- **C7**: at every `end`, after the fallthrough branch (`stB`) and the
missing-else fixup (`stF`), each phi in the closing frame's `endPHIs` list
is pushed onto the operand stack if it has incoming values, and otherwise
is erased and replaced by the typed zero constant of the corresponding
result type; afterwards the branch-target stack is truncated to the frame's
recorded outer branch-target depth and the control frame is popped. -/
theorem C7_end_spec (st st2 : EmitState) (f : ControlContext)
    (hf : st.controlStack.getLast? = some f)
    (hnodup : f.endPHIs.Nodup)
    (h : end_ st = some st2) :
    ∃ stB stF,
      branchToEndOfControlContext st = some stB ∧
      ((f.elseBlock = none ∧ stF = stB) ∨
        (f.elseBlock ≠ none ∧ f.elseArgs.length = f.endPHIs.length ∧
          stF = addIncomingList stB f.endPHIs f.elseArgs)) ∧
      stF.controlStack = st.controlStack ∧
      stF.branchTargetStack = st.branchTargetStack ∧
      stF.stack.length = f.outerStackSize ∧
      (f.endPHIs.length = 0 ∨ f.endPHIs.length = f.resultTypes.length) ∧
      st2.stack = stF.stack ++ (f.endPHIs.zip f.resultTypes).map (fun pt =>
          if (lookupIncomings stF pt.1).getD [] = [] then Val.typedZero pt.2
          else Val.phi pt.1) ∧
      (∀ p ∈ f.endPHIs, (lookupIncomings stF p).getD [] = [] →
          lookupIncomings st2 p = none) ∧
      st2.branchTargetStack = st.branchTargetStack.take f.outerBranchTargetStackSize ∧
      st2.controlStack = st.controlStack.dropLast := by
  unfold end_ at h
  rw [hf] at h
  simp only [bind, Option.bind_eq_some, Option.some.injEq] at h
  obtain ⟨f2, hf2, h⟩ := h
  subst hf2
  obtain ⟨stB, hB, h⟩ := h
  obtain ⟨hctrlB, hbtB, hlenB, -⟩ := branchToEnd_spec st stB f hf hB
  split at h
  case h_2 helse =>
    simp only [Option.some_bind] at h
    split at h
    · exact absurd h (by simp)
    · rename_i hguard
      split at h
      · rename_i hbts
        simp only [Option.some.injEq] at h
        subst h
        have hlen01 : f.endPHIs.length = 0 ∨ f.endPHIs.length = f.resultTypes.length := by
          by_cases h0 : f.endPHIs.length = 0
          · exact Or.inl h0
          · right
            by_contra hne
            exact hguard ⟨h0, hne⟩
        have hpush := pushEndPHIs_stack_frames f.endPHIs f.resultTypes stB hnodup
        refine ⟨stB, stB, hB, Or.inl ⟨helse, rfl⟩, hctrlB, hbtB, hlenB, hlen01,
          hpush.1, ?_, ?_, ?_⟩
        · intro p hp hz
          rcases hlen01 with h0 | hrt
          · rw [List.length_eq_zero] at h0
            rw [h0] at hp
            exact absurd hp (List.not_mem_nil p)
          · have := pushEndPHIs_erased f.endPHIs f.resultTypes stB hnodup hrt p hp hz
            rw [← this]
            exact lookupIncomings_eq_of_phiIncomings_eq (pushEndPHIs stB f.endPHIs f.resultTypes) _ rfl p
        · rw [hpush.2.2, hbtB]
        · rw [hpush.2.1, hctrlB]
      · exact absurd h (by simp)
  case h_1 eb helse =>
    split at h
    · rename_i helen
      simp only [Option.some_bind] at h
      split at h
      · exact absurd h (by simp)
      · rename_i hguard
        split at h
        · rename_i hbts
          simp only [Option.some.injEq] at h
          subst h
          have hflds := addIncomingList_fields f.endPHIs f.elseArgs stB
          have hlen01 : f.endPHIs.length = 0 ∨ f.endPHIs.length = f.resultTypes.length := by
            by_cases h0 : f.endPHIs.length = 0
            · exact Or.inl h0
            · right
              by_contra hne
              exact hguard ⟨h0, hne⟩
          have hpush := pushEndPHIs_stack_frames f.endPHIs f.resultTypes
            (addIncomingList stB f.endPHIs f.elseArgs) hnodup
          refine ⟨stB, addIncomingList stB f.endPHIs f.elseArgs, hB,
            Or.inr ⟨by simp [helse], helen, rfl⟩,
            hflds.2.1.trans hctrlB, hflds.2.2.trans hbtB, by rw [hflds.1]; exact hlenB,
            hlen01, hpush.1, ?_, ?_, ?_⟩
          · intro p hp hz
            rcases hlen01 with h0 | hrt
            · rw [List.length_eq_zero] at h0
              rw [h0] at hp
              exact absurd hp (List.not_mem_nil p)
            · have := pushEndPHIs_erased f.endPHIs f.resultTypes
                (addIncomingList stB f.endPHIs f.elseArgs) hnodup hrt p hp hz
              rw [← this]
              exact lookupIncomings_eq_of_phiIncomings_eq
                (pushEndPHIs (addIncomingList stB f.endPHIs f.elseArgs) f.endPHIs f.resultTypes) _ rfl p
          · rw [hpush.2.2, hflds.2.2, hbtB]
          · rw [hpush.2.1, hflds.2.1, hctrlB]
        · exact absurd h (by simp)
    · exact absurd h (by simp)

end Emit

namespace Emit

theorem C7_end_witness :
    lookupIncomings (⟨[Val.phi 0, Val.typedZero WasmType.i64], [], [],
        [(0, [Val.ssa 5])], [], 20⟩ : EmitState) 1 = none ∧
    (⟨[Val.phi 0, Val.typedZero WasmType.i64], [], [], [(0, [Val.ssa 5])], [], 20⟩
        : EmitState).stack = [Val.phi 0, Val.typedZero WasmType.i64] := by
  have h := C7_end_spec
    ⟨[], [⟨CtrlType.block, 9, [0, 1], none, [], [WasmType.i32, WasmType.i64], 0, 0, false⟩],
      [⟨[], 9, []⟩], [(0, [Val.ssa 5]), (1, [])], [], 20⟩
    ⟨[Val.phi 0, Val.typedZero WasmType.i64], [], [], [(0, [Val.ssa 5])], [], 20⟩
    ⟨CtrlType.block, 9, [0, 1], none, [], [WasmType.i32, WasmType.i64], 0, 0, false⟩
    rfl (by decide) rfl
  obtain ⟨stB, stF, hB, hfix, -, -, -, -, -, herase, -, -⟩ := h
  have hstB : stB =
      (⟨[], [⟨CtrlType.block, 9, [0, 1], none, [], [WasmType.i32, WasmType.i64], 0, 0, false⟩],
        [⟨[], 9, []⟩], [(0, [Val.ssa 5]), (1, [])], [], 20⟩ : EmitState) :=
    (Option.some.inj hB).symm
  rcases hfix with ⟨-, hstF⟩ | ⟨habs, -⟩
  · subst hstF
    subst hstB
    refine ⟨herase 1 (by decide) rfl, rfl⟩
  · exact absurd rfl habs

end Emit

namespace Emit

theorem getLast?_take_eq {α : Type} (l : List α) (n : Nat) (h1 : 1 ≤ n) (h2 : n ≤ l.length) :
    (l.take n).getLast? = l[n - 1]? := by
  have hlen : (l.take n).length = n := by rw [List.length_take]; omega
  rw [List.getLast?_eq_getElem?, hlen, List.getElem?_take, if_pos (by omega)]

theorem forall2_concat_iff {α β : Type} (R : α → β → Prop) :
    ∀ (l1 : List α) (l2 : List β) (a : α) (b : β),
    List.Forall₂ R (l1 ++ [a]) (l2 ++ [b]) ↔ (List.Forall₂ R l1 l2 ∧ R a b)
  | [], [], a, b => by simp [List.forall₂_cons]
  | [], c :: l2, a, b => by
    simp only [List.nil_append, List.forall₂_cons, List.cons_append]
    constructor
    · rintro ⟨hac, hrest⟩
      rw [List.forall₂_nil_left_iff] at hrest
      exact absurd hrest (by simp)
    · rintro ⟨hnil, -⟩
      exact absurd hnil (by simp [List.forall₂_cons])
  | x :: l1, [], a, b => by
    simp only [List.cons_append, List.nil_append, List.forall₂_cons]
    constructor
    · rintro ⟨hxb, hrest⟩
      rw [List.forall₂_nil_right_iff] at hrest
      exact absurd hrest (by simp)
    · rintro ⟨hnil, -⟩
      exact absurd hnil (by simp [List.forall₂_cons])
  | x :: l1, y :: l2, a, b => by
    simp only [List.cons_append, List.forall₂_cons, forall2_concat_iff R l1 l2 a b]
    tauto

theorem popVal_ctrls (vs : VState) (r : Option WasmType × VState)
    (h : popVal vs = some r) : r.2.ctrls = vs.ctrls := by
  unfold popVal at h
  cases hf : vs.ctrls.getLast? with
  | none => rw [hf] at h; simp [bind] at h
  | some f =>
    rw [hf] at h
    simp only [bind, Option.some_bind] at h
    split at h
    · split at h
      · simp only [Option.some.injEq] at h
        subst h
        rfl
      · simp at h
    · cases hl : vs.vals.getLast? with
      | none => rw [hl] at h; simp at h
      | some t =>
        rw [hl] at h
        simp only [Option.some.injEq] at h
        subst h
        rfl

theorem popValExpect_ctrls (vs vs2 : VState) (t : WasmType)
    (h : popValExpect vs t = some vs2) : vs2.ctrls = vs.ctrls := by
  unfold popValExpect at h
  simp only [bind, Option.bind_eq_some] at h
  obtain ⟨⟨actual, vs1⟩, hpop, h⟩ := h
  have hc := popVal_ctrls vs (actual, vs1) hpop
  have hv : vs2 = vs1 := by
    cases actual with
    | none =>
      replace h : some vs1 = some vs2 := h
      exact (Option.some.inj h).symm
    | some a =>
      replace h : (if a = t then some vs1 else none) = some vs2 := h
      split at h
      · exact (Option.some.inj h).symm
      · simp at h
  subst hv
  exact hc

theorem popExpectFold_ctrls :
    ∀ (L : List WasmType) (vs vs2 : VState),
    L.foldlM popValExpect vs = some vs2 → vs2.ctrls = vs.ctrls
  | [], vs, vs2, h => by
    replace h : some vs = some vs2 := h
    rw [← Option.some.inj h]
  | t :: L, vs, vs2, h => by
    rw [List.foldlM_cons] at h
    simp only [bind, Option.bind_eq_some] at h
    obtain ⟨vs1, hpop, h⟩ := h
    exact (popExpectFold_ctrls L vs1 vs2 h).trans (popValExpect_ctrls vs vs1 t hpop)

theorem popVals_ctrls (vs vs2 : VState) (ts : List WasmType)
    (h : popVals vs ts = some vs2) : vs2.ctrls = vs.ctrls :=
  popExpectFold_ctrls ts.reverse vs vs2 h

theorem popVal_reach (vs : VState) (r : Option WasmType × VState) (f : VCtrl)
    (hf : vs.ctrls.getLast? = some f) (hr : f.unreachable = false)
    (h : popVal vs = some r) :
    vs.vals.length ≠ f.height ∧ vs.vals ≠ [] ∧ r.2.vals = vs.vals.dropLast := by
  unfold popVal at h
  rw [hf] at h
  simp only [bind, Option.some_bind] at h
  split at h
  · rw [hr] at h
    simp at h
  · rename_i hne
    cases hl : vs.vals.getLast? with
    | none => rw [hl] at h; simp at h
    | some t =>
      rw [hl] at h
      simp only [Option.some.injEq] at h
      subst h
      refine ⟨hne, ?_, rfl⟩
      intro hnil
      rw [hnil] at hl
      simp at hl

theorem popValExpect_reach (vs vs2 : VState) (t : WasmType) (f : VCtrl)
    (hf : vs.ctrls.getLast? = some f) (hr : f.unreachable = false)
    (h : popValExpect vs t = some vs2) :
    vs.vals.length ≠ f.height ∧ vs.vals ≠ [] ∧ vs2.vals = vs.vals.dropLast := by
  unfold popValExpect at h
  simp only [bind, Option.bind_eq_some] at h
  obtain ⟨⟨actual, vs1⟩, hpop, h⟩ := h
  have hspec := popVal_reach vs (actual, vs1) f hf hr hpop
  have hv : vs2 = vs1 := by
    cases actual with
    | none =>
      replace h : some vs1 = some vs2 := h
      exact (Option.some.inj h).symm
    | some a =>
      replace h : (if a = t then some vs1 else none) = some vs2 := h
      split at h
      · exact (Option.some.inj h).symm
      · simp at h
  subst hv
  exact hspec

theorem popExpectFold_reach :
    ∀ (L : List WasmType) (vs vs2 : VState) (f : VCtrl),
    vs.ctrls.getLast? = some f → f.unreachable = false →
    f.height ≤ vs.vals.length →
    L.foldlM popValExpect vs = some vs2 →
    f.height + L.length ≤ vs.vals.length ∧
    vs2.vals.length = vs.vals.length - L.length
  | [], vs, vs2, f, hf, hr, hht, h => by
    replace h : some vs = some vs2 := h
    rw [← Option.some.inj h]
    simp [hht]
  | t :: L, vs, vs2, f, hf, hr, hht, h => by
    rw [List.foldlM_cons] at h
    simp only [bind, Option.bind_eq_some] at h
    obtain ⟨vs1, hpop, h⟩ := h
    obtain ⟨hne, hnil, hvals⟩ := popValExpect_reach vs vs1 t f hf hr hpop
    have hc := popValExpect_ctrls vs vs1 t hpop
    have h1 : vs1.vals.length = vs.vals.length - 1 := by rw [hvals, List.length_dropLast]
    have h0 : 1 ≤ vs.vals.length := List.length_pos.2 hnil
    obtain ⟨hge, hlen⟩ := popExpectFold_reach L vs1 vs2 f (by rw [hc]; exact hf) hr
      (by omega) h
    simp only [List.length_cons]
    constructor
    · omega
    · omega

end Emit

namespace Emit

theorem popVals_reach (vs vs2 : VState) (ts : List WasmType) (f : VCtrl)
    (hf : vs.ctrls.getLast? = some f) (hr : f.unreachable = false)
    (hht : f.height ≤ vs.vals.length)
    (h : popVals vs ts = some vs2) :
    f.height + ts.length ≤ vs.vals.length ∧
    vs2.vals.length = vs.vals.length - ts.length ∧ vs2.ctrls = vs.ctrls := by
  have hh := popExpectFold_reach ts.reverse vs vs2 f hf hr hht h
  rw [List.length_reverse] at hh
  exact ⟨hh.1, hh.2, popVals_ctrls vs vs2 ts h⟩

theorem pushVals_spec (vs : VState) (ts : List WasmType) :
    (pushVals vs ts).vals.length = vs.vals.length + ts.length ∧
    (pushVals vs ts).ctrls = vs.ctrls :=
  ⟨by simp [pushVals], rfl⟩

theorem pushCtrl_spec (vs : VState) (kind : CtrlType) (ins outs : List WasmType) :
    (pushCtrl vs kind ins outs).ctrls
        = vs.ctrls ++ [⟨kind, ins, outs, vs.vals.length, false⟩] ∧
    (pushCtrl vs kind ins outs).vals.length = vs.vals.length + ins.length :=
  ⟨rfl, by simp [pushCtrl, pushVals]⟩

theorem popCtrl_spec (vs vs2 : VState) (f : VCtrl)
    (h : popCtrl vs = some (f, vs2)) :
    vs.ctrls.getLast? = some f ∧
    vs2.ctrls = vs.ctrls.dropLast ∧
    vs2.vals.length = f.height ∧
    (f.unreachable = false → f.height ≤ vs.vals.length →
        vs.vals.length = f.height + f.endTypes.length) := by
  unfold popCtrl at h
  cases hf : vs.ctrls.getLast? with
  | none => rw [hf] at h; simp [bind] at h
  | some g =>
    rw [hf] at h
    simp only [bind, Option.some_bind, Option.bind_eq_some] at h
    obtain ⟨vs1, hpop, h⟩ := h
    split at h
    · rename_i hlen
      simp only [Option.some.injEq, Prod.mk.injEq] at h
      obtain ⟨hfg, hvs⟩ := h
      subst hfg
      subst hvs
      refine ⟨rfl, ?_, hlen, ?_⟩
      · show vs1.ctrls.dropLast = vs.ctrls.dropLast
        rw [popVals_ctrls vs vs1 _ hpop]
      · intro hr hht
        obtain ⟨hge, hlen2, -⟩ := popVals_reach vs vs1 _ g hf hr hht hpop
        omega
    · simp at h

theorem setUnreachable_spec (vs vs2 : VState) (f : VCtrl)
    (hf : vs.ctrls.getLast? = some f)
    (h : setUnreachable vs = some vs2) :
    vs2.ctrls = vs.ctrls.dropLast ++ [{ f with unreachable := true }] ∧
    vs2.vals.length = f.height ∧ f.height ≤ vs.vals.length := by
  unfold setUnreachable at h
  rw [hf] at h
  simp only [bind, Option.some_bind] at h
  split at h
  · rename_i hle
    simp only [Option.some.injEq] at h
    subst h
    refine ⟨rfl, ?_, hle⟩
    simp only [List.length_take]
    omega
  · simp at h

theorem getCtrlByDepth_spec (vs : VState) (depth : Nat) (f : VCtrl)
    (h : getCtrlByDepth vs depth = some f) :
    depth < vs.ctrls.length ∧ vs.ctrls[vs.ctrls.length - depth - 1]? = some f := by
  unfold getCtrlByDepth at h
  split at h
  · rename_i hd
    simp only [Option.some.injEq] at h
    refine ⟨hd, ?_⟩
    rw [List.getElem?_eq_getElem (by omega)]
    exact congrArg some h
  · simp at h

theorem pop_succ (st : EmitState) (f : ControlContext)
    (hf : st.controlStack.getLast? = some f)
    (hne : st.stack.length ≠ f.outerStackSize) (hpos : 1 ≤ st.stack.length) :
    ∃ v, pop st = some (v, { st with stack := st.stack.dropLast }) := by
  have hnil : st.stack ≠ [] := by
    intro h0
    rw [h0] at hpos
    simp at hpos
  unfold pop
  have hio : innerOuterStackSize st = f.outerStackSize := by
    unfold innerOuterStackSize
    rw [hf]
    rfl
  rw [hio, if_neg hne]
  cases hl : st.stack.getLast? with
  | none =>
    rw [List.getLast?_eq_none_iff] at hl
    exact absurd hl hnil
  | some v => exact ⟨v, rfl⟩

theorem popAdd_succ :
    ∀ (phis : List Nat) (st : EmitState) (f : ControlContext),
    st.controlStack.getLast? = some f →
    st.stack.length ≥ f.outerStackSize + phis.length →
    ∃ st2, popAndAddIncomingsRev st phis = some st2 ∧
      st2.stack.length = st.stack.length - phis.length ∧
      st2.controlStack = st.controlStack ∧
      st2.branchTargetStack = st.branchTargetStack ∧
      st2.functionResultTypes = st.functionResultTypes ∧
      st2.nextId = st.nextId
  | [], st, f, hf, hge => ⟨st, rfl, by simp, rfl, rfl, rfl, rfl⟩
  | p :: rest, st, f, hf, hge => by
    obtain ⟨v, hpop⟩ := pop_succ st f hf (by simp only [List.length_cons] at hge; omega)
      (by simp only [List.length_cons] at hge; omega)
    have hstep : popAndAddIncomingsRev st (p :: rest)
        = popAndAddIncomingsRev
            (addIncoming { st with stack := st.stack.dropLast } p v) rest := by
      conv_lhs => rw [popAndAddIncomingsRev]
      rw [hpop]
      rfl
    obtain ⟨st2, hrec, hlen, hctrl, hbt, hfr, hid⟩ :=
      popAdd_succ rest (addIncoming { st with stack := st.stack.dropLast } p v) f hf
        (by simp only [addIncoming, List.length_dropLast]
            simp only [List.length_cons] at hge
            omega)
    refine ⟨st2, hstep.trans hrec, ?_, hctrl, hbt, hfr, hid⟩
    simp only [addIncoming, List.length_dropLast] at hlen
    simp only [List.length_cons]
    simp only [List.length_cons] at hge
    omega

theorem popMultiple_succ (st : EmitState) (f : ControlContext) (num : Nat)
    (hf : st.controlStack.getLast? = some f)
    (hge : st.stack.length ≥ f.outerStackSize + num) :
    popMultiple st num = some (st.stack.drop (st.stack.length - num),
      { st with stack := st.stack.take (st.stack.length - num) }) := by
  unfold popMultiple
  have hio : innerOuterStackSize st = f.outerStackSize := by
    unfold innerOuterStackSize
    rw [hf]
    rfl
  rw [hio, if_neg (by omega), if_neg (by omega)]

theorem enterUnreachable_succ (st : EmitState) (f : ControlContext)
    (hf : st.controlStack.getLast? = some f)
    (hle : f.outerStackSize ≤ st.stack.length) :
    enterUnreachable st = some { st with
      stack := st.stack.take f.outerStackSize,
      controlStack := st.controlStack.dropLast ++ [{ f with isReachable := false }] } := by
  unfold enterUnreachable
  rw [hf]
  simp only [bind, Option.some_bind]
  rw [if_pos hle]

theorem pushControlStack_succ (st : EmitState) (f : ControlContext)
    (hf : st.controlStack.getLast? = some f) (hr : f.isReachable = true)
    (ty : CtrlType) (rts : List WasmType) (eb : Nat) (phis : List Nat)
    (elseB : Option Nat) (elseA : List Val) :
    pushControlStack st ty rts eb phis elseB elseA
      = some { st with
          controlStack := st.controlStack ++
            [⟨ty, eb, phis, elseB, elseA, rts, st.stack.length,
              st.branchTargetStack.length, true⟩] } := by
  unfold pushControlStack
  rw [hf]
  simp [hr]

theorem createPHIs_spec (st : EmitState) (types : List WasmType) :
    (createPHIs st types).1.length = types.length ∧
    (createPHIs st types).2.stack = st.stack ∧
    (createPHIs st types).2.controlStack = st.controlStack ∧
    (createPHIs st types).2.branchTargetStack = st.branchTargetStack ∧
    (createPHIs st types).2.functionResultTypes = st.functionResultTypes :=
  ⟨by simp [createPHIs], rfl, rfl, rfl, rfl⟩

theorem getBranchTargetByDepth_succ (st : EmitState) (depth : Nat)
    (hd : depth < st.branchTargetStack.length) :
    ∃ bt, getBranchTargetByDepth st depth = some bt ∧
      st.branchTargetStack[st.branchTargetStack.length - depth - 1]? = some bt := by
  unfold getBranchTargetByDepth
  rw [dif_pos hd]
  exact ⟨_, rfl, List.getElem?_eq_getElem (by omega)⟩

end Emit

namespace Emit

theorem forall2_last {α β : Type} {R : α → β → Prop} {l1 : List α} {l2 : List β}
    (h : List.Forall₂ R l1 l2) : ∀ {a : α} {b : β},
    l1.getLast? = some a → l2.getLast? = some b → R a b := by
  induction h with
  | nil =>
    intro a b ha _
    simp at ha
  | cons hR hF ih =>
    rename_i x y l1b l2b
    intro a b ha hb
    cases l1b with
    | nil =>
      rw [List.forall₂_nil_left_iff] at hF
      subst hF
      simp only [List.getLast?_singleton, Option.some.injEq] at ha hb
      rw [← ha, ← hb]
      exact hR
    | cons z t =>
      cases l2b with
      | nil => exact absurd hF (by simp [List.forall₂_nil_right_iff])
      | cons w u =>
        rw [List.getLast?_cons_cons] at ha hb
        exact ih ha hb

theorem all_of_dropLast_last {α : Type} {P : α → Prop} {l : List α}
    (hd : ∀ x ∈ l.dropLast, P x) (hl : ∀ x, l.getLast? = some x → P x) :
    ∀ x ∈ l, P x := by
  intro x hx
  rcases List.eq_nil_or_concat l with rfl | ⟨l2, a, rfl⟩
  · simp at hx
  · rw [List.concat_eq_append] at hx
    rcases List.mem_append.1 hx with h1 | h2
    · refine hd x ?_
      rw [List.concat_eq_append, List.dropLast_concat]
      exact h1
    · have hxa : x = a := by simpa using h2
      subst hxa
      refine hl x ?_
      rw [List.concat_eq_append, List.getLast?_concat]

theorem forall2_dropLast {α β : Type} {R : α → β → Prop} {l1 : List α} {l2 : List β}
    (h : List.Forall₂ R l1 l2) : List.Forall₂ R l1.dropLast l2.dropLast := by
  rcases List.eq_nil_or_concat l1 with rfl | ⟨m1, a, rfl⟩
  · rw [List.forall₂_nil_left_iff] at h
    subst h
    exact List.Forall₂.nil
  · rcases List.eq_nil_or_concat l2 with rfl | ⟨m2, b, rfl⟩
    · rw [List.forall₂_nil_right_iff] at h
      exact absurd h (by simp)
    · rw [List.concat_eq_append] at h ⊢
      rw [List.concat_eq_append] at h ⊢
      rw [List.dropLast_concat, List.dropLast_concat]
      exact ((forall2_concat_iff R m1 m2 a b).1 h).1

theorem dropLast_head? {α : Type} (l : List α) (h : 2 ≤ l.length) :
    l.dropLast.head? = l.head? := by
  match l, h with
  | a :: b :: t, _ => rfl

theorem sim_reach_destruct {st : EmitState} {vs : VState} {d : Nat} (hs : Sim st vs d)
    {etop : ControlContext} (he : st.controlStack.getLast? = some etop)
    (hr : etop.isReachable = true) :
    d = 0 ∧ vs.ctrls.take st.controlStack.length = vs.ctrls ∧
    vs.ctrls.length = st.controlStack.length ∧
    ∃ vtop, vs.ctrls.getLast? = some vtop ∧ framesMatch etop vtop ∧
      vtop.unreachable = false ∧ st.stack.length = vs.vals.length := by
  have hn : 0 < st.controlStack.length := List.length_pos.2 hs.hne
  have hlen2 := hs.hmatch.length_eq
  rw [List.length_take] at hlen2
  have hvlen : st.controlStack.length ≤ vs.ctrls.length := by omega
  have htake : (vs.ctrls.take st.controlStack.length).getLast?
      = vs.ctrls[st.controlStack.length - 1]? := getLast?_take_eq _ _ (by omega) hvlen
  obtain ⟨vtop, hvtop⟩ : ∃ vtop, vs.ctrls[st.controlStack.length - 1]? = some vtop := by
    rw [List.getElem?_eq_getElem (by omega)]
    exact ⟨_, rfl⟩
  have hfm : framesMatch etop vtop := forall2_last hs.hmatch he (by rw [htake]; exact hvtop)
  have hdis := hs.htop etop he vtop (by rw [htake]; exact hvtop)
  rcases hdis with ⟨-, hd0, hlenv, hvun, hsl⟩ | ⟨hfalse, -⟩
  · subst hd0
    have htl : vs.ctrls.take st.controlStack.length = vs.ctrls :=
      List.take_of_length_le (by omega)
    refine ⟨rfl, htl, hlenv, vtop, ?_, hfm, hvun, hsl⟩
    rw [← htl, htake]
    exact hvtop
  · rw [hr] at hfalse
    simp at hfalse

theorem sim_unreach_destruct {st : EmitState} {vs : VState} {d : Nat} (hs : Sim st vs d)
    {etop : ControlContext} (he : st.controlStack.getLast? = some etop)
    (hr : etop.isReachable = false) :
    vs.ctrls.length = st.controlStack.length + d ∧
    st.stack.length = etop.outerStackSize ∧
    ∃ vtop, vs.ctrls[st.controlStack.length - 1]? = some vtop ∧
      framesMatch etop vtop ∧ vtop.unreachable = true := by
  have hn : 0 < st.controlStack.length := List.length_pos.2 hs.hne
  have hlen2 := hs.hmatch.length_eq
  rw [List.length_take] at hlen2
  have hvlen : st.controlStack.length ≤ vs.ctrls.length := by omega
  have htake : (vs.ctrls.take st.controlStack.length).getLast?
      = vs.ctrls[st.controlStack.length - 1]? := getLast?_take_eq _ _ (by omega) hvlen
  obtain ⟨vtop, hvtop⟩ : ∃ vtop, vs.ctrls[st.controlStack.length - 1]? = some vtop := by
    rw [List.getElem?_eq_getElem (by omega)]
    exact ⟨_, rfl⟩
  have hfm : framesMatch etop vtop := forall2_last hs.hmatch he (by rw [htake]; exact hvtop)
  have hdis := hs.htop etop he vtop (by rw [htake]; exact hvtop)
  rcases hdis with ⟨htrue, -⟩ | ⟨-, hvun, hlenv, hsl⟩
  · rw [hr] at htrue
    simp at htrue
  · exact ⟨hlenv, hsl, vtop, hvtop, hfm, hvun⟩

theorem sim_same_frames {st : EmitState} {vs : VState} (hs : Sim st vs 0)
    {etop : ControlContext} (he : st.controlStack.getLast? = some etop)
    (hr : etop.isReachable = true)
    (st2 : EmitState) (vs2 : VState)
    (hctrl : st2.controlStack = st.controlStack)
    (hbt : st2.branchTargetStack = st.branchTargetStack)
    (hfr : st2.functionResultTypes = st.functionResultTypes)
    (hvc : vs2.ctrls = vs.ctrls)
    (hlen : st2.stack.length = vs2.vals.length)
    (hht2 : ∀ g, vs.ctrls.getLast? = some g → g.height ≤ vs2.vals.length) :
    Sim st2 vs2 0 := by
  obtain ⟨-, htl, hlenv, vtop, hvt, hfm, hvun, -⟩ := sim_reach_destruct hs he hr
  refine ⟨?_, ?_, ?_, ?_, ?_, ?_, ?_, ?_, ?_, ?_⟩
  · rw [hctrl]
    exact hs.hne
  · rw [hctrl, hvc]
    exact hs.hmatch
  · rw [hbt, hctrl, hvc]
    exact hs.hbt
  · rw [hctrl]
    exact hs.hbtss
  · rw [hctrl]
    exact hs.hinner
  · rw [hctrl, hvc]
    exact hs.hlow
  · intro vc0 h0
    rw [hvc] at h0
    rw [hfr]
    exact hs.hfres vc0 h0
  · intro g hg
    rw [hvc] at hg
    exact hht2 g hg
  · rw [hvc]
    exact hs.hchain
  · intro etop2 he2 vtop2 hvt2
    rw [hctrl] at he2
    have he3 : etop2 = etop := Option.some.inj (he2.symm.trans he)
    subst he3
    rw [hvc, hctrl, htl] at hvt2
    have hvt3 : vtop2 = vtop := Option.some.inj (hvt2.symm.trans hvt)
    subst hvt3
    left
    refine ⟨hr, rfl, ?_, hvun, hlen⟩
    rw [hvc, hctrl]
    exact hlenv

end Emit

namespace Emit

theorem sim_push_frame {st : EmitState} {vs : VState} (hs : Sim st vs 0)
    {etop : ControlContext} (he : st.controlStack.getLast? = some etop)
    (hr : etop.isReachable = true)
    (st2 : EmitState) (vs2 : VState)
    (newE : ControlContext) (newBT : BranchTarget) (newV : VCtrl)
    (hctrl : st2.controlStack = st.controlStack ++ [newE])
    (hbt2 : st2.branchTargetStack = st.branchTargetStack ++ [newBT])
    (hvc : vs2.ctrls = vs.ctrls ++ [newV])
    (hfm : framesMatch newE newV)
    (hbm : btMatch newBT newV)
    (hE : newE.outerBranchTargetStackSize = st.branchTargetStack.length)
    (hEr : newE.isReachable = true)
    (hVr : newV.unreachable = false)
    (hfr : st2.functionResultTypes = st.functionResultTypes)
    (hlen : st2.stack.length = vs2.vals.length)
    (hhtN : newV.height ≤ vs2.vals.length)
    (hlink : ∀ g, vs.ctrls.getLast? = some g → g.height ≤ newV.height) :
    Sim st2 vs2 0 := by
  obtain ⟨-, htl, hlenv, vtop, hvt, hfm0, hvun0, -⟩ := sim_reach_destruct hs he hr
  have hm0 : List.Forall₂ framesMatch st.controlStack vs.ctrls := by
    have hm := hs.hmatch
    rw [htl] at hm
    exact hm
  have hb0 : List.Forall₂ btMatch st.branchTargetStack vs.ctrls := by
    have hb := hs.hbt
    rw [htl] at hb
    exact hb
  have hnpos : 0 < st.controlStack.length := List.length_pos.2 hs.hne
  have hbtlen : st.branchTargetStack.length = st.controlStack.length := by
    have h1 := hm0.length_eq
    have h2 := hb0.length_eq
    omega
  have hn2 : st2.controlStack.length = st.controlStack.length + 1 := by
    rw [hctrl]
    simp
  have htake2 : vs2.ctrls.take st2.controlStack.length = vs.ctrls ++ [newV] := by
    rw [hvc, hn2]
    refine List.take_of_length_le ?_
    simp [hlenv]
  refine ⟨?_, ?_, ?_, ?_, ?_, ?_, ?_, ?_, ?_, ?_⟩
  · rw [hctrl]
    simp
  · rw [htake2, hctrl]
    exact (forall2_concat_iff _ _ _ _ _).2 ⟨hm0, hfm⟩
  · rw [htake2, hbt2]
    exact (forall2_concat_iff _ _ _ _ _).2 ⟨hb0, hbm⟩
  · rw [hctrl, List.map_append, hs.hbtss, List.length_append]
    simp only [List.map_cons, List.map_nil, List.length_cons, List.length_nil]
    rw [hE, hbtlen, List.range_succ]
  · rw [hctrl, List.dropLast_concat]
    refine all_of_dropLast_last hs.hinner ?_
    intro x hx
    have hxe : x = etop := Option.some.inj (hx.symm.trans he)
    rw [hxe]
    exact hr
  · have htk : vs2.ctrls.take (st2.controlStack.length - 1) = vs.ctrls := by
      rw [hvc, hn2, Nat.add_sub_cancel, ← hlenv]
      exact List.take_left _ _
    rw [htk]
    have hdl : vs.ctrls.take (st.controlStack.length - 1) = vs.ctrls.dropLast := by
      rw [List.dropLast_eq_take, hlenv]
    refine all_of_dropLast_last ?_ ?_
    · intro vc hvc2
      refine hs.hlow vc ?_
      rw [hdl]
      exact hvc2
    · intro x hx
      have hxv : x = vtop := Option.some.inj (hx.symm.trans hvt)
      rw [hxv]
      exact hvun0
  · intro vc0 h0
    rw [hvc] at h0
    cases hv0 : vs.ctrls with
    | nil =>
      rw [hv0] at hlenv
      simp at hlenv
      omega
    | cons c t =>
      rw [hv0] at h0
      simp only [List.cons_append, List.head?_cons, Option.some.injEq] at h0
      rw [hfr]
      refine hs.hfres vc0 ?_
      rw [hv0]
      simp only [List.head?_cons, h0]
  · intro g hg
    rw [hvc, List.getLast?_concat] at hg
    rw [← Option.some.inj hg]
    exact hhtN
  · rw [hvc, List.chain'_append]
    refine ⟨hs.hchain, List.chain'_singleton _, ?_⟩
    intro x hx y hy
    simp only [List.head?_cons, Option.mem_def, Option.some.injEq] at hy
    rw [← hy]
    exact hlink x hx
  · intro etop2 he2 vtop2 hvt2
    rw [hctrl, List.getLast?_concat] at he2
    rw [htake2, List.getLast?_concat] at hvt2
    left
    refine ⟨?_, rfl, ?_, ?_, hlen⟩
    · rw [← Option.some.inj he2]
      exact hEr
    · rw [hvc, hn2]
      simp [hlenv]
    · rw [← Option.some.inj hvt2]
      exact hVr

end Emit

namespace Emit

theorem sim_pop_frame {st : EmitState} {vs : VState} {d : Nat} (hs : Sim st vs d)
    (st2 : EmitState) (vs2 : VState)
    (hn2 : 2 ≤ st.controlStack.length)
    (hd0 : vs.ctrls.length = st.controlStack.length)
    (hctrl : st2.controlStack = st.controlStack.dropLast)
    (hbt2 : st2.branchTargetStack = st.branchTargetStack.take (st.controlStack.length - 1))
    (hvc : vs2.ctrls = vs.ctrls.dropLast)
    (hfr : st2.functionResultTypes = st.functionResultTypes)
    (hlen : st2.stack.length = vs2.vals.length)
    (hht2 : ∀ g, vs2.ctrls.getLast? = some g → g.height ≤ vs2.vals.length) :
    Sim st2 vs2 0 := by
  have hnpos : 0 < st.controlStack.length := by omega
  have htl : vs.ctrls.take st.controlStack.length = vs.ctrls :=
    List.take_of_length_le (by omega)
  have hm0 : List.Forall₂ framesMatch st.controlStack vs.ctrls := by
    have hm := hs.hmatch
    rw [htl] at hm
    exact hm
  have hb0 : List.Forall₂ btMatch st.branchTargetStack vs.ctrls := by
    have hb := hs.hbt
    rw [htl] at hb
    exact hb
  have hbtlen : st.branchTargetStack.length = st.controlStack.length := by
    have h1 := hm0.length_eq
    have h2 := hb0.length_eq
    omega
  have hvnil : vs.ctrls ≠ [] := by
    intro h0
    rw [h0] at hd0
    simp at hd0
    omega
  have hctlen : st2.controlStack.length = st.controlStack.length - 1 := by
    rw [hctrl, List.length_dropLast]
  have hvclen : vs2.ctrls.length = st.controlStack.length - 1 := by
    rw [hvc, List.length_dropLast, hd0]
  have hdltake : vs.ctrls.dropLast = vs.ctrls.take (st.controlStack.length - 1) := by
    rw [List.dropLast_eq_take, hd0]
  have htake2 : vs2.ctrls.take st2.controlStack.length = vs2.ctrls := by
    refine List.take_of_length_le ?_
    omega
  refine ⟨?_, ?_, ?_, ?_, ?_, ?_, ?_, ?_, ?_, ?_⟩
  · rw [hctrl]
    intro h0
    have := congrArg List.length h0
    rw [List.length_dropLast] at this
    simp at this
    omega
  · rw [htake2, hctrl, hvc]
    exact forall2_dropLast hm0
  · rw [htake2, hbt2, hvc]
    have : st.branchTargetStack.take (st.controlStack.length - 1)
        = st.branchTargetStack.dropLast := by
      rw [List.dropLast_eq_take, hbtlen]
    rw [this]
    exact forall2_dropLast hb0
  · rw [hctrl, List.map_dropLast, hs.hbtss, List.length_dropLast]
    obtain ⟨m, hm⟩ : ∃ m, st.controlStack.length = m + 1 :=
      ⟨st.controlStack.length - 1, by omega⟩
    rw [hm, List.range_succ, List.dropLast_concat, Nat.add_sub_cancel]
  · intro ec hec
    rw [hctrl] at hec
    exact hs.hinner ec (List.mem_of_mem_dropLast hec)
  · intro vc hvc3
    rw [hvc, hdltake] at hvc3
    exact hs.hlow vc (List.take_subset _ _ hvc3)
  · intro vc0 h0
    rw [hvc, dropLast_head? vs.ctrls (by omega)] at h0
    rw [hfr]
    exact hs.hfres vc0 h0
  · exact hht2
  · have hc := hs.hchain
    rw [← List.dropLast_append_getLast hvnil] at hc
    rw [hvc]
    exact hc.left_of_append
  · intro etop2 he2 vtop2 hvt2
    left
    refine ⟨?_, rfl, ?_, ?_, hlen⟩
    · rw [hctrl] at he2
      exact hs.hinner etop2 (List.mem_of_mem_getLast? he2)
    · omega
    · rw [htake2, hvc] at hvt2
      have hmem : vtop2 ∈ vs.ctrls.take (st.controlStack.length - 1) := by
        rw [← hdltake]
        exact List.mem_of_mem_getLast? hvt2
      exact hs.hlow vtop2 hmem

end Emit

namespace Emit

theorem obtss_last {st : EmitState} {vs : VState} {d : Nat} (hs : Sim st vs d)
    {etop : ControlContext} (he : st.controlStack.getLast? = some etop) :
    etop.outerBranchTargetStackSize = st.controlStack.length - 1 := by
  have hmap := congrArg List.getLast? hs.hbtss
  rw [List.getLast?_map, he] at hmap
  have hnpos : 0 < st.controlStack.length := List.length_pos.2 hs.hne
  obtain ⟨m, hm⟩ : ∃ m, st.controlStack.length = m + 1 :=
    ⟨st.controlStack.length - 1, by omega⟩
  rw [hm, List.range_succ, List.getLast?_concat] at hmap
  simp at hmap
  omega

theorem sim_replace_top {st : EmitState} {vs : VState} {d : Nat} (hs : Sim st vs d)
    {etop : ControlContext} (he : st.controlStack.getLast? = some etop)
    {vtop : VCtrl} (hvt : vs.ctrls.getLast? = some vtop)
    (hd0 : vs.ctrls.length = st.controlStack.length)
    (st2 : EmitState) (vs2 : VState) (newE : ControlContext) (newV : VCtrl)
    (hctrl : st2.controlStack = st.controlStack.dropLast ++ [newE])
    (hbt2 : st2.branchTargetStack = st.branchTargetStack)
    (hvc : vs2.ctrls = vs.ctrls.dropLast ++ [newV])
    (hfm : framesMatch newE newV)
    (hbtm : ∀ btl, st.branchTargetStack.getLast? = some btl → btMatch btl newV)
    (hobtss : newE.outerBranchTargetStackSize = etop.outerBranchTargetStackSize)
    (hheight : newV.height = vtop.height)
    (hres : newE.resultTypes = etop.resultTypes)
    (hfr : st2.functionResultTypes = st.functionResultTypes)
    (hnew : (newE.isReachable = true ∧ newV.unreachable = false ∧
              st2.stack.length = vs2.vals.length ∧ newV.height ≤ vs2.vals.length)
          ∨ (newE.isReachable = false ∧ newV.unreachable = true ∧
              st2.stack.length = newE.outerStackSize ∧ vs2.vals.length = newV.height)) :
    Sim st2 vs2 0 := by
  have hnpos : 0 < st.controlStack.length := List.length_pos.2 hs.hne
  have htl : vs.ctrls.take st.controlStack.length = vs.ctrls :=
    List.take_of_length_le (by omega)
  have hm0 : List.Forall₂ framesMatch st.controlStack vs.ctrls := by
    have hm := hs.hmatch
    rw [htl] at hm
    exact hm
  have hb0 : List.Forall₂ btMatch st.branchTargetStack vs.ctrls := by
    have hb := hs.hbt
    rw [htl] at hb
    exact hb
  have hbtlen : st.branchTargetStack.length = st.controlStack.length := by
    have h1 := hm0.length_eq
    have h2 := hb0.length_eq
    omega
  have hvnil : vs.ctrls ≠ [] := by
    intro h0
    rw [h0] at hd0
    simp at hd0
    omega
  have hbnil : st.branchTargetStack ≠ [] := by
    intro h0
    rw [h0] at hbtlen
    simp at hbtlen
    omega
  have hctlen : st2.controlStack.length = st.controlStack.length := by
    rw [hctrl]
    simp only [List.length_append, List.length_dropLast, List.length_cons, List.length_nil]
    omega
  have hvclen : vs2.ctrls.length = st.controlStack.length := by
    rw [hvc]
    simp only [List.length_append, List.length_dropLast, List.length_cons, List.length_nil]
    omega
  have htake2 : vs2.ctrls.take st2.controlStack.length = vs2.ctrls := by
    refine List.take_of_length_le ?_
    omega
  have hvdecomp : vs.ctrls = vs.ctrls.dropLast ++ [vtop] := by
    have hh := List.dropLast_append_getLast hvnil
    have hgl : vs.ctrls.getLast hvnil = vtop :=
      Option.some.inj ((List.getLast?_eq_getLast vs.ctrls hvnil).symm.trans hvt)
    rw [hgl] at hh
    exact hh.symm
  have hedecomp : st.controlStack = st.controlStack.dropLast ++ [etop] := by
    have hh := List.dropLast_append_getLast hs.hne
    have hgl : st.controlStack.getLast hs.hne = etop :=
      Option.some.inj ((List.getLast?_eq_getLast st.controlStack hs.hne).symm.trans he)
    rw [hgl] at hh
    exact hh.symm
  have hbdecomp : ∃ btl, st.branchTargetStack = st.branchTargetStack.dropLast ++ [btl] ∧
      st.branchTargetStack.getLast? = some btl := by
    refine ⟨st.branchTargetStack.getLast hbnil, ?_, (List.getLast?_eq_getLast _ hbnil)⟩
    exact (List.dropLast_append_getLast hbnil).symm
  obtain ⟨btl, hbdec, hbl⟩ := hbdecomp
  refine ⟨?_, ?_, ?_, ?_, ?_, ?_, ?_, ?_, ?_, ?_⟩
  · rw [hctrl]
    simp
  · rw [htake2, hctrl, hvc]
    refine (forall2_concat_iff _ _ _ _ _).2 ⟨?_, hfm⟩
    exact forall2_dropLast hm0
  · rw [htake2, hbt2, hvc]
    conv_lhs => rw [hbdec]
    refine (forall2_concat_iff _ _ _ _ _).2 ⟨?_, hbtm btl hbl⟩
    have := forall2_dropLast hb0
    rw [hbdec, List.dropLast_concat] at this
    exact this
  · rw [hctrl, List.map_append]
    simp only [List.map_cons, List.map_nil]
    rw [List.map_dropLast, hs.hbtss, hobtss, obtss_last hs he]
    rw [show (st.controlStack.dropLast ++ [newE]).length = st.controlStack.length by
      simp only [List.length_append, List.length_dropLast, List.length_cons,
        List.length_nil]
      omega]
    obtain ⟨m, hm⟩ : ∃ m, st.controlStack.length = m + 1 :=
      ⟨st.controlStack.length - 1, by omega⟩
    rw [hm, List.range_succ, List.dropLast_concat, Nat.add_sub_cancel]
  · intro ec hec
    rw [hctrl, List.dropLast_concat] at hec
    exact hs.hinner ec hec
  · intro vc hvc3
    rw [hvc, hctlen] at hvc3
    have hdl : vs.ctrls.dropLast.take (st.controlStack.length - 1) = vs.ctrls.dropLast := by
      refine List.take_of_length_le ?_
      simp only [List.length_dropLast]
      omega
    rw [List.take_append_of_le_length (by simp [List.length_dropLast]; omega), hdl] at hvc3
    refine hs.hlow vc ?_
    rw [List.dropLast_eq_take, hd0] at hvc3
    exact hvc3
  · intro vc0 h0
    rw [hfr]
    rw [hvc] at h0
    cases hv0 : vs.ctrls with
    | nil => exact absurd hv0 hvnil
    | cons c t =>
      cases t with
      | nil =>
        rw [hv0] at h0
        simp only [List.dropLast_single, List.nil_append, List.head?_cons,
          Option.some.injEq] at h0
        have hcv : vtop = c := by
          rw [hv0] at hvt
          simp only [List.getLast?_singleton, Option.some.injEq] at hvt
          exact hvt.symm
        have hfm0 : framesMatch etop vtop := forall2_last hm0 he hvt
        have hfmv : newV.endTypes = vtop.endTypes := by
          obtain ⟨-, -, h3, -⟩ := hfm
          obtain ⟨-, -, h3e, -⟩ := hfm0
          rw [← h3, hres, h3e]
        rw [← h0, hfmv, hcv]
        exact hs.hfres c (by rw [hv0]; rfl)
      | cons c2 t2 =>
        rw [hv0] at h0
        have : ((c :: c2 :: t2).dropLast ++ [newV]).head? = some c := by
          rfl
        rw [this] at h0
        refine hs.hfres vc0 ?_
        rw [hv0]
        rw [← h0]
        rfl
  · intro g hg
    rw [hvc, List.getLast?_concat] at hg
    rw [← Option.some.inj hg]
    rcases hnew with ⟨-, -, -, hle⟩ | ⟨-, -, -, heq⟩
    · exact hle
    · omega
  · rw [hvc, List.chain'_append]
    have hcfull := hs.hchain
    rw [hvdecomp, List.chain'_append] at hcfull
    obtain ⟨hcd, -, hlink⟩ := hcfull
    refine ⟨hcd, List.chain'_singleton _, ?_⟩
    intro x hx y hy
    simp only [List.head?_cons, Option.mem_def, Option.some.injEq] at hy
    rw [← hy, hheight]
    exact hlink x hx vtop rfl
  · intro etop2 he2 vtop2 hvt2
    rw [hctrl, List.getLast?_concat] at he2
    rw [htake2, hvc, List.getLast?_concat] at hvt2
    have he3 : etop2 = newE := (Option.some.inj he2).symm
    have hv3 : vtop2 = newV := (Option.some.inj hvt2).symm
    subst he3
    subst hv3
    rcases hnew with ⟨h1, h2, h3, -⟩ | ⟨h1, h2, h3, h4⟩
    · left
      exact ⟨h1, rfl, by omega, h2, h3⟩
    · right
      exact ⟨h1, h2, by omega, h3⟩

end Emit

namespace Emit

theorem step_const {st : EmitState} {vs : VState} (hs : Sim st vs 0)
    {etop : ControlContext} (he : st.controlStack.getLast? = some etop)
    (hr : etop.isReachable = true) (t : WasmType) {vs2 : VState}
    (hv : validateOp vs (Op.const t) = some vs2) :
    ∃ st2, emitOp st (Op.const t) = some st2 ∧ Sim st2 vs2 0 := by
  obtain ⟨-, htl, hlenv, vtop, hvt, hfm0, hvun0, hsl⟩ := sim_reach_destruct hs he hr
  have hv2 : vs2 = pushVal vs (some t) := by
    simp only [validateOp, Option.some.injEq] at hv
    exact hv.symm
  subst hv2
  refine ⟨pushNewSSA st, rfl, ?_⟩
  refine sim_same_frames hs he hr _ _ rfl rfl rfl rfl ?_ ?_
  · simp only [pushNewSSA, pushVal, List.length_append, List.length_cons, List.length_nil]
    omega
  · intro g hg
    have := hs.hht g hg
    simp only [pushVal, List.length_append, List.length_cons, List.length_nil]
    omega

theorem step_unary {st : EmitState} {vs : VState} (hs : Sim st vs 0)
    {etop : ControlContext} (he : st.controlStack.getLast? = some etop)
    (hr : etop.isReachable = true) (t : WasmType) {vs2 : VState}
    (hv : validateOp vs (Op.unary t) = some vs2) :
    ∃ st2, emitOp st (Op.unary t) = some st2 ∧ Sim st2 vs2 0 := by
  obtain ⟨-, htl, hlenv, vtop, hvt, hfm0, hvun0, hsl⟩ := sim_reach_destruct hs he hr
  simp only [validateOp, bind, Option.bind_eq_some, Option.some.injEq] at hv
  obtain ⟨vs1, h1, hv⟩ := hv
  obtain ⟨hne1, hnil1, hvals1⟩ := popValExpect_reach vs vs1 t vtop hvt hvun0 h1
  have hc1 := popValExpect_ctrls vs vs1 t h1
  obtain ⟨v1, hpop1⟩ := pop_succ st etop he
    (by rw [hsl, hfm0.2.1]; exact hne1) (by rw [hsl]; exact List.length_pos.2 hnil1)
  refine ⟨pushNewSSA { st with stack := st.stack.dropLast }, ?_, ?_⟩
  · show unaryOp st = _
    unfold unaryOp
    rw [hpop1]
    rfl
  · rw [← hv]
    refine sim_same_frames hs he hr _ _ rfl rfl rfl (by exact hc1) ?_ ?_
    · simp only [pushNewSSA, pushVal, List.length_append, List.length_cons,
        List.length_nil, List.length_dropLast, hvals1]
      have h0 : 1 ≤ vs.vals.length := List.length_pos.2 hnil1
      omega
    · intro g hg
      have hgv : g = vtop := Option.some.inj (hg.symm.trans hvt)
      rw [hgv]
      simp only [pushVal, List.length_append, List.length_cons, List.length_nil, hvals1,
        List.length_dropLast]
      have hfmh := hfm0.2.1
      have h0 : 1 ≤ vs.vals.length := List.length_pos.2 hnil1
      have hhh := hs.hht vtop hvt
      omega

theorem step_binary {st : EmitState} {vs : VState} (hs : Sim st vs 0)
    {etop : ControlContext} (he : st.controlStack.getLast? = some etop)
    (hr : etop.isReachable = true) (t : WasmType) {vs2 : VState}
    (hv : validateOp vs (Op.binary t) = some vs2) :
    ∃ st2, emitOp st (Op.binary t) = some st2 ∧ Sim st2 vs2 0 := by
  obtain ⟨-, htl, hlenv, vtop, hvt, hfm0, hvun0, hsl⟩ := sim_reach_destruct hs he hr
  simp only [validateOp, bind, Option.bind_eq_some, Option.some.injEq] at hv
  obtain ⟨vs1, h1, hv⟩ := hv
  obtain ⟨vsb, h2, hv⟩ := hv
  obtain ⟨hne1, hnil1, hvals1⟩ := popValExpect_reach vs vs1 t vtop hvt hvun0 h1
  have hc1 := popValExpect_ctrls vs vs1 t h1
  obtain ⟨hne2, hnil2, hvals2⟩ := popValExpect_reach vs1 vsb t vtop
    (by rw [hc1]; exact hvt) hvun0 h2
  have hc2 := popValExpect_ctrls vs1 vsb t h2
  obtain ⟨v1, hpop1⟩ := pop_succ st etop he
    (by rw [hsl, hfm0.2.1]; exact hne1) (by rw [hsl]; exact List.length_pos.2 hnil1)
  have hlen1 : st.stack.dropLast.length = vs1.vals.length := by
    rw [List.length_dropLast, hvals1, List.length_dropLast, hsl]
  obtain ⟨v2, hpop2⟩ := pop_succ { st with stack := st.stack.dropLast } etop he
    (by rw [hlen1, hfm0.2.1]; exact hne2)
    (by rw [hlen1]; exact List.length_pos.2 hnil2)
  refine ⟨pushNewSSA { st with stack := st.stack.dropLast.dropLast }, ?_, ?_⟩
  · show binaryOp st = _
    unfold binaryOp
    rw [hpop1]
    show (do
      let x ← pop { st with stack := st.stack.dropLast }
      match x with
      | (_left, st2) => some (pushNewSSA st2)) = _
    rw [hpop2]
    rfl
  · rw [← hv]
    refine sim_same_frames hs he hr _ _ rfl rfl rfl (by rw [show (pushVal vsb (some t)).ctrls = vsb.ctrls from rfl, hc2, hc1]) ?_ ?_
    · simp only [pushNewSSA, pushVal, List.length_append, List.length_cons,
        List.length_nil, List.length_dropLast, hvals2, hvals1]
      omega
    · intro g hg
      have hgv : g = vtop := Option.some.inj (hg.symm.trans hvt)
      rw [hgv]
      simp only [pushVal, List.length_append, List.length_cons, List.length_nil, hvals2,
        hvals1, List.length_dropLast]
      have hfmh := hfm0.2.1
      have h0 : 1 ≤ vs.vals.length := List.length_pos.2 hnil1
      have h02 : 1 ≤ vs1.vals.length := List.length_pos.2 hnil2
      have hhh := hs.hht vtop hvt
      omega

end Emit

namespace Emit

theorem step_drop {st : EmitState} {vs : VState} (hs : Sim st vs 0)
    {etop : ControlContext} (he : st.controlStack.getLast? = some etop)
    (hr : etop.isReachable = true) {vs2 : VState}
    (hv : validateOp vs Op.dropV = some vs2) :
    ∃ st2, emitOp st Op.dropV = some st2 ∧ Sim st2 vs2 0 := by
  obtain ⟨-, htl, hlenv, vtop, hvt, hfm0, hvun0, hsl⟩ := sim_reach_destruct hs he hr
  simp only [validateOp, bind, Option.bind_eq_some, Option.some.injEq] at hv
  obtain ⟨⟨t1, vs1⟩, h1, hv⟩ := hv
  replace hv : vs1 = vs2 := hv
  obtain ⟨hne1, hnil1, hvals1⟩ := popVal_reach vs (t1, vs1) vtop hvt hvun0 h1
  have hc1 := popVal_ctrls vs (t1, vs1) h1
  have h0 : 1 ≤ vs.vals.length := List.length_pos.2 hnil1
  have hnil : st.stack ≠ [] := by
    intro hz
    rw [hz] at hsl
    simp at hsl
    omega
  cases hl : st.stack.getLast? with
  | none =>
    rw [List.getLast?_eq_none_iff] at hl
    exact absurd hl hnil
  | some v =>
    refine ⟨{ st with stack := st.stack.dropLast }, ?_, ?_⟩
    · show dropOp st = _
      unfold dropOp
      rw [hl]
    · rw [← hv]
      refine sim_same_frames hs he hr _ _ rfl rfl rfl (by exact hc1) ?_ ?_
      · show st.stack.dropLast.length = vs1.vals.length
        rw [List.length_dropLast, hvals1, List.length_dropLast, hsl]
      · intro g hg
        have hgv : g = vtop := Option.some.inj (hg.symm.trans hvt)
        rw [hgv, hvals1, List.length_dropLast]
        have hhh := hs.hht vtop hvt
        omega

theorem step_select {st : EmitState} {vs : VState} (hs : Sim st vs 0)
    {etop : ControlContext} (he : st.controlStack.getLast? = some etop)
    (hr : etop.isReachable = true) {vs2 : VState}
    (hv : validateOp vs Op.selectV = some vs2) :
    ∃ st2, emitOp st Op.selectV = some st2 ∧ Sim st2 vs2 0 := by
  obtain ⟨-, htl, hlenv, vtop, hvt, hfm0, hvun0, hsl⟩ := sim_reach_destruct hs he hr
  simp only [validateOp, bind, Option.bind_eq_some, Option.some.injEq] at hv
  obtain ⟨vs1, h1, hv⟩ := hv
  obtain ⟨⟨t1, vsB⟩, h2, hv⟩ := hv
  obtain ⟨⟨t2, vsC⟩, h3, hv⟩ := hv
  obtain ⟨hne1, hnil1, hvals1⟩ := popValExpect_reach vs vs1 _ vtop hvt hvun0 h1
  have hc1 := popValExpect_ctrls vs vs1 _ h1
  obtain ⟨hne2, hnil2, hvals2⟩ := popVal_reach vs1 (t1, vsB) vtop
    (by rw [hc1]; exact hvt) hvun0 h2
  have hc2 := popVal_ctrls vs1 (t1, vsB) h2
  obtain ⟨hne3, hnil3, hvals3⟩ := popVal_reach vsB (t2, vsC) vtop
    (by rw [hc2, hc1]; exact hvt) hvun0 h3
  have hc3 := popVal_ctrls vsB (t2, vsC) h3
  have hres : vs2.vals.length = vsC.vals.length + 1 ∧ vs2.ctrls = vsC.ctrls := by
    rcases t1 with _ | a <;> rcases t2 with _ | b
    · replace hv : some (pushVal vsC none) = some vs2 := hv
      rw [← Option.some.inj hv]
      exact ⟨by simp [pushVal], rfl⟩
    · replace hv : some (pushVal vsC (some b)) = some vs2 := hv
      rw [← Option.some.inj hv]
      exact ⟨by simp [pushVal], rfl⟩
    · replace hv : some (pushVal vsC (some a)) = some vs2 := hv
      rw [← Option.some.inj hv]
      exact ⟨by simp [pushVal], rfl⟩
    · replace hv : (if a = b then some (pushVal vsC (some a)) else none) = some vs2 := hv
      split at hv
      · rw [← Option.some.inj hv]
        exact ⟨by simp [pushVal], rfl⟩
      · simp at hv
  have h0 : 1 ≤ vs.vals.length := List.length_pos.2 hnil1
  have h02 : 1 ≤ vs1.vals.length := List.length_pos.2 hnil2
  have h03 : 1 ≤ vsB.vals.length := List.length_pos.2 hnil3
  obtain ⟨v1, hpop1⟩ := pop_succ st etop he
    (by rw [hsl, hfm0.2.1]; exact hne1) (by omega)
  have hlen1 : st.stack.dropLast.length = vs1.vals.length := by
    rw [List.length_dropLast, hvals1, List.length_dropLast, hsl]
  obtain ⟨v2, hpop2⟩ := pop_succ { st with stack := st.stack.dropLast } etop he
    (by rw [hlen1, hfm0.2.1]; exact hne2) (by rw [hlen1]; omega)
  have hlen2 : st.stack.dropLast.dropLast.length = vsB.vals.length := by
    rw [List.length_dropLast, hlen1, hvals2, List.length_dropLast]
  obtain ⟨v3, hpop3⟩ := pop_succ { st with stack := st.stack.dropLast.dropLast } etop he
    (by rw [hlen2, hfm0.2.1]; exact hne3) (by rw [hlen2]; omega)
  refine ⟨pushNewSSA { st with stack := st.stack.dropLast.dropLast.dropLast }, ?_, ?_⟩
  · show selectOp st = _
    unfold selectOp
    rw [hpop1]
    show (do
      let x ← pop { st with stack := st.stack.dropLast }
      match x with
      | (_falseValue, stb) => do
        let y ← pop stb
        match y with
        | (_trueValue, stc) => some (pushNewSSA stc)) = _
    rw [hpop2]
    show (do
      let y ← pop { st with stack := st.stack.dropLast.dropLast }
      match y with
      | (_trueValue, stc) => some (pushNewSSA stc)) = _
    rw [hpop3]
    rfl
  · refine sim_same_frames hs he hr _ _ rfl rfl rfl
      (by rw [hres.2, hc3, hc2, hc1]) ?_ ?_
    · have hL : (pushNewSSA { st with
          stack := st.stack.dropLast.dropLast.dropLast }).stack.length
          = st.stack.dropLast.dropLast.dropLast.length + 1 := by
        simp [pushNewSSA]
      rw [hL, hres.1, hvals3, hvals2, hvals1]
      simp only [List.length_dropLast]
      omega
    · intro g hg
      have hgv : g = vtop := Option.some.inj (hg.symm.trans hvt)
      rw [hgv, hres.1, hvals3, hvals2, hvals1]
      simp only [List.length_dropLast]
      have hhh := hs.hht vtop hvt
      have k1 : vs1.vals.length = vs.vals.length - 1 := by
        rw [hvals1, List.length_dropLast]
      have k2 : vsB.vals.length = vs.vals.length - 2 := by
        rw [show vsB.vals = vs1.vals.dropLast from hvals2, List.length_dropLast, k1]
        omega
      omega

theorem step_call {st : EmitState} {vs : VState} (hs : Sim st vs 0)
    {etop : ControlContext} (he : st.controlStack.getLast? = some etop)
    (hr : etop.isReachable = true) (ps rs : List WasmType) {vs2 : VState}
    (hv : validateOp vs (Op.callOp ps rs) = some vs2) :
    ∃ st2, emitOp st (Op.callOp ps rs) = some st2 ∧ Sim st2 vs2 0 := by
  obtain ⟨-, htl, hlenv, vtop, hvt, hfm0, hvun0, hsl⟩ := sim_reach_destruct hs he hr
  simp only [validateOp, bind, Option.bind_eq_some, Option.some.injEq] at hv
  obtain ⟨vs1, h1, hv⟩ := hv
  obtain ⟨hge, hlen1, hc1⟩ := popVals_reach vs vs1 ps vtop hvt hvun0 (hs.hht vtop hvt) h1
  have hpm := popMultiple_succ st etop ps.length he (by rw [hsl, hfm0.2.1]; omega)
  refine ⟨pushNewSSAs { st with stack := st.stack.take (st.stack.length - ps.length) }
    rs.length, ?_, ?_⟩
  · show call st ps rs = _
    unfold call
    rw [hpm]
    rfl
  · rw [← hv]
    refine sim_same_frames hs he hr _ _ rfl rfl rfl
      (by rw [show (pushVals vs1 rs).ctrls = vs1.ctrls from rfl, hc1]) ?_ ?_
    · simp only [pushNewSSAs, pushVals, List.length_append, List.length_take,
        List.length_map, List.length_range]
      omega
    · intro g hg
      have hgv : g = vtop := Option.some.inj (hg.symm.trans hvt)
      rw [hgv]
      simp only [pushVals, List.length_append, List.length_map]
      omega

end Emit

namespace Emit

theorem block_succ (st : EmitState) (etop : ControlContext) (ps rs : List WasmType)
    (he : st.controlStack.getLast? = some etop) (hr : etop.isReachable = true)
    (hge : st.stack.length ≥ etop.outerStackSize + ps.length)
    (hple : ps.length ≤ st.stack.length) :
    ∃ st2 eb endPHIs, block st ps rs = some st2 ∧ endPHIs.length = rs.length ∧
      st2.controlStack = st.controlStack ++ [⟨CtrlType.block, eb, endPHIs, none, [], rs,
          st.stack.length - ps.length, st.branchTargetStack.length, true⟩] ∧
      st2.branchTargetStack = st.branchTargetStack ++ [⟨rs, eb, endPHIs⟩] ∧
      st2.stack.length = st.stack.length ∧
      st2.functionResultTypes = st.functionResultTypes := by
  have h2 := popMultiple_succ (createPHIs { st with nextId := st.nextId + 1 } rs).2
    etop ps.length he hge
  have h3 := pushControlStack_succ
    { (createPHIs { st with nextId := st.nextId + 1 } rs).2 with
      stack := st.stack.take (st.stack.length - ps.length) }
    etop he hr CtrlType.block rs st.nextId
    (createPHIs { st with nextId := st.nextId + 1 } rs).1 none []
  have htk : (st.stack.take (st.stack.length - ps.length)).length
      = st.stack.length - ps.length := by
    rw [List.length_take]
    omega
  refine ⟨{ st with
      stack := st.stack.take (st.stack.length - ps.length) ++
        st.stack.drop (st.stack.length - ps.length),
      controlStack := st.controlStack ++ [⟨CtrlType.block, st.nextId,
        (createPHIs { st with nextId := st.nextId + 1 } rs).1, none, [], rs,
        (st.stack.take (st.stack.length - ps.length)).length,
        st.branchTargetStack.length, true⟩],
      branchTargetStack := st.branchTargetStack ++
        [⟨rs, st.nextId, (createPHIs { st with nextId := st.nextId + 1 } rs).1⟩],
      phiIncomings := st.phiIncomings ++
        ((createPHIs { st with nextId := st.nextId + 1 } rs).1).map (fun i => (i, [])),
      nextId := st.nextId + 1 + rs.length },
    st.nextId, (createPHIs { st with nextId := st.nextId + 1 } rs).1, ?_,
    by simp [createPHIs], ?_, rfl, ?_, rfl⟩
  · show (do
      let x ← popMultiple (createPHIs { st with nextId := st.nextId + 1 } rs).2 ps.length
      match x with
      | (blockArgs, st3) => do
        let st4 ← pushControlStack st3 CtrlType.block rs st.nextId
          (createPHIs { st with nextId := st.nextId + 1 } rs).1 none []
        some (pushMultiple (pushBranchTarget st4 rs st.nextId
          (createPHIs { st with nextId := st.nextId + 1 } rs).1) blockArgs)) = _
    rw [h2]
    show (do
      let st4 ← pushControlStack
        { (createPHIs { st with nextId := st.nextId + 1 } rs).2 with
          stack := st.stack.take (st.stack.length - ps.length) }
        CtrlType.block rs st.nextId
        (createPHIs { st with nextId := st.nextId + 1 } rs).1 none []
      some (pushMultiple (pushBranchTarget st4 rs st.nextId
        (createPHIs { st with nextId := st.nextId + 1 } rs).1)
        (st.stack.drop (st.stack.length - ps.length)))) = _
    rw [h3]
    rfl
  · show st.controlStack ++ [_] = st.controlStack ++ [_]
    rw [htk]
  · show (st.stack.take (st.stack.length - ps.length) ++
      st.stack.drop (st.stack.length - ps.length)).length = st.stack.length
    rw [List.take_append_drop]

end Emit

namespace Emit

theorem loop_succ (st : EmitState) (etop : ControlContext) (ps rs : List WasmType)
    (he : st.controlStack.getLast? = some etop) (hr : etop.isReachable = true)
    (hge : st.stack.length ≥ etop.outerStackSize + ps.length) :
    ∃ st2 bodyBlock eb parameterPHIs endPHIs, loop st ps rs = some st2 ∧
      parameterPHIs.length = ps.length ∧ endPHIs.length = rs.length ∧
      st2.controlStack = st.controlStack ++ [⟨CtrlType.loop, eb, endPHIs, none, [], rs,
          st.stack.length - ps.length, st.branchTargetStack.length, true⟩] ∧
      st2.branchTargetStack = st.branchTargetStack ++ [⟨ps, bodyBlock, parameterPHIs⟩] ∧
      st2.stack.length = st.stack.length ∧
      st2.functionResultTypes = st.functionResultTypes := by
  have hpl : (createPHIs { st with nextId := st.nextId + 2 } ps).1.length = ps.length := by
    simp [createPHIs]
  obtain ⟨st4, h4, hlen4, hctrl4, hbt4, hfr4, hid4⟩ :=
    popAdd_succ (createPHIs { st with nextId := st.nextId + 2 } ps).1.reverse
      (createPHIs (createPHIs { st with nextId := st.nextId + 2 } ps).2 rs).2 etop
      (show _ = some etop from he)
      (by rw [List.length_reverse, hpl]; exact hge)
  have h5 := pushControlStack_succ st4 etop (by rw [hctrl4]; exact he) hr
    CtrlType.loop rs (st.nextId + 1)
    (createPHIs (createPHIs { st with nextId := st.nextId + 2 } ps).2 rs).1 none []
  have hsl4 : st4.stack.length = st.stack.length - ps.length := by
    rw [hlen4, List.length_reverse, hpl]
    rfl
  refine ⟨pushMultiple (pushBranchTarget { st4 with
      controlStack := st4.controlStack ++ [⟨CtrlType.loop, st.nextId + 1,
        (createPHIs (createPHIs { st with nextId := st.nextId + 2 } ps).2 rs).1, none, [],
        rs, st4.stack.length, st4.branchTargetStack.length, true⟩] }
      ps st.nextId (createPHIs { st with nextId := st.nextId + 2 } ps).1)
      ((createPHIs { st with nextId := st.nextId + 2 } ps).1.map Val.phi),
    st.nextId, st.nextId + 1, (createPHIs { st with nextId := st.nextId + 2 } ps).1,
    (createPHIs (createPHIs { st with nextId := st.nextId + 2 } ps).2 rs).1,
    ?_, hpl, by simp [createPHIs], ?_, ?_, ?_, ?_⟩
  · show (do
      let st4b ← popAndAddIncomingsRev
        (createPHIs (createPHIs { st with nextId := st.nextId + 2 } ps).2 rs).2
        (createPHIs { st with nextId := st.nextId + 2 } ps).1.reverse
      let st5 ← pushControlStack st4b CtrlType.loop rs (st.nextId + 1)
        (createPHIs (createPHIs { st with nextId := st.nextId + 2 } ps).2 rs).1 none []
      some (pushMultiple (pushBranchTarget st5 ps st.nextId
        (createPHIs { st with nextId := st.nextId + 2 } ps).1)
        ((createPHIs { st with nextId := st.nextId + 2 } ps).1.map Val.phi))) = _
    rw [h4]
    show (do
      let st5 ← pushControlStack st4 CtrlType.loop rs (st.nextId + 1)
        (createPHIs (createPHIs { st with nextId := st.nextId + 2 } ps).2 rs).1 none []
      some (pushMultiple (pushBranchTarget st5 ps st.nextId
        (createPHIs { st with nextId := st.nextId + 2 } ps).1)
        ((createPHIs { st with nextId := st.nextId + 2 } ps).1.map Val.phi))) = _
    rw [h5]
    rfl
  · show st4.controlStack ++ [_] = _
    rw [hctrl4, hsl4, hbt4]
    rfl
  · show st4.branchTargetStack ++ [_] = _
    rw [hbt4]
    rfl
  · show (st4.stack ++ _).length = _
    rw [List.length_append, List.length_map, hsl4, hpl]
    omega
  · show st4.functionResultTypes = _
    rw [hfr4]
    rfl

theorem if_succ (st : EmitState) (etop : ControlContext) (ps rs : List WasmType)
    (he : st.controlStack.getLast? = some etop) (hr : etop.isReachable = true)
    (hne : st.stack.length ≠ etop.outerStackSize)
    (hpos : 1 ≤ st.stack.length)
    (hge2 : st.stack.length - 1 ≥ etop.outerStackSize + ps.length) :
    ∃ st2 eb endPHIs args, if_ st ps rs = some st2 ∧
      endPHIs.length = rs.length ∧ args.length = ps.length ∧
      st2.controlStack = st.controlStack ++ [⟨CtrlType.ifThen, eb, endPHIs,
          some (st.nextId + 1), args, rs,
          st.stack.length - 1 - ps.length, st.branchTargetStack.length, true⟩] ∧
      st2.branchTargetStack = st.branchTargetStack ++ [⟨rs, eb, endPHIs⟩] ∧
      st2.stack.length = st.stack.length - 1 ∧
      st2.functionResultTypes = st.functionResultTypes := by
  obtain ⟨v1, hpop1⟩ := pop_succ (createPHIs { st with nextId := st.nextId + 3 } rs).2
    etop he hne hpos
  have hdll : st.stack.dropLast.length = st.stack.length - 1 := List.length_dropLast _
  have hge2x : ({ (createPHIs { st with nextId := st.nextId + 3 } rs).2 with
      stack := st.stack.dropLast } : EmitState).stack.length
      ≥ etop.outerStackSize + ps.length := by
    show st.stack.dropLast.length ≥ _
    rw [hdll]
    exact hge2
  have h2 := popMultiple_succ
    { (createPHIs { st with nextId := st.nextId + 3 } rs).2 with
      stack := st.stack.dropLast }
    etop ps.length he hge2x
  have h3 := pushControlStack_succ
    { (createPHIs { st with nextId := st.nextId + 3 } rs).2 with
      stack := st.stack.dropLast.take (st.stack.dropLast.length - ps.length) }
    etop he hr CtrlType.ifThen rs (st.nextId + 2)
    (createPHIs { st with nextId := st.nextId + 3 } rs).1 (some (st.nextId + 1))
    (st.stack.dropLast.drop (st.stack.dropLast.length - ps.length))
  have htk : (st.stack.dropLast.take (st.stack.dropLast.length - ps.length)).length
      = st.stack.length - 1 - ps.length := by
    rw [List.length_take]
    omega
  have hdr : (st.stack.dropLast.drop (st.stack.dropLast.length - ps.length)).length
      = ps.length := by
    rw [List.length_drop]
    omega
  refine ⟨pushMultiple (pushBranchTarget
      { (createPHIs { st with nextId := st.nextId + 3 } rs).2 with
        stack := st.stack.dropLast.take (st.stack.dropLast.length - ps.length),
        controlStack := st.controlStack ++ [⟨CtrlType.ifThen, st.nextId + 2,
          (createPHIs { st with nextId := st.nextId + 3 } rs).1, some (st.nextId + 1),
          st.stack.dropLast.drop (st.stack.dropLast.length - ps.length), rs,
          (st.stack.dropLast.take (st.stack.dropLast.length - ps.length)).length,
          st.branchTargetStack.length, true⟩] }
      rs (st.nextId + 2) (createPHIs { st with nextId := st.nextId + 3 } rs).1)
      (st.stack.dropLast.drop (st.stack.dropLast.length - ps.length)),
    st.nextId + 2, (createPHIs { st with nextId := st.nextId + 3 } rs).1,
    st.stack.dropLast.drop (st.stack.dropLast.length - ps.length),
    ?_, by simp [createPHIs], hdr, ?_, rfl, ?_, rfl⟩
  · show (do
      let x ← pop (createPHIs { st with nextId := st.nextId + 3 } rs).2
      match x with
      | (_condition, st3) =>
        if st3.stack.length < ps.length then none
        else do
          let y ← popMultiple st3 ps.length
          match y with
          | (args, st4) => do
            let st5 ← pushControlStack st4 CtrlType.ifThen rs (st.nextId + 2)
              (createPHIs { st with nextId := st.nextId + 3 } rs).1
              (some (st.nextId + 1)) args
            some (pushMultiple (pushBranchTarget st5 rs (st.nextId + 2)
              (createPHIs { st with nextId := st.nextId + 3 } rs).1) args)) = _
    rw [hpop1]
    show (if st.stack.dropLast.length < ps.length then none
      else do
        let y ← popMultiple
          { (createPHIs { st with nextId := st.nextId + 3 } rs).2 with
            stack := st.stack.dropLast } ps.length
        match y with
        | (args, st4) => do
          let st5 ← pushControlStack st4 CtrlType.ifThen rs (st.nextId + 2)
            (createPHIs { st with nextId := st.nextId + 3 } rs).1
            (some (st.nextId + 1)) args
          some (pushMultiple (pushBranchTarget st5 rs (st.nextId + 2)
            (createPHIs { st with nextId := st.nextId + 3 } rs).1) args)) = _
    rw [if_neg (by rw [hdll]; omega), h2]
    show (do
      let st5 ← pushControlStack
        { (createPHIs { st with nextId := st.nextId + 3 } rs).2 with
          stack := st.stack.dropLast.take (st.stack.dropLast.length - ps.length) }
        CtrlType.ifThen rs (st.nextId + 2)
        (createPHIs { st with nextId := st.nextId + 3 } rs).1 (some (st.nextId + 1))
        (st.stack.dropLast.drop (st.stack.dropLast.length - ps.length))
      some (pushMultiple (pushBranchTarget st5 rs (st.nextId + 2)
        (createPHIs { st with nextId := st.nextId + 3 } rs).1)
        (st.stack.dropLast.drop (st.stack.dropLast.length - ps.length)))) = _
    rw [h3]
    rfl
  · show st.controlStack ++ [_] = st.controlStack ++ [_]
    rw [htk]
  · show (st.stack.dropLast.take (st.stack.dropLast.length - ps.length) ++
      st.stack.dropLast.drop (st.stack.dropLast.length - ps.length)).length
      = st.stack.length - 1
    rw [List.take_append_drop, hdll]

end Emit

namespace Emit

theorem step_block {st : EmitState} {vs : VState} (hs : Sim st vs 0)
    {etop : ControlContext} (he : st.controlStack.getLast? = some etop)
    (hr : etop.isReachable = true) (ps rs : List WasmType) {vs2 : VState}
    (hv : validateOp vs (Op.blockOp ps rs) = some vs2) :
    ∃ st2, emitOp st (Op.blockOp ps rs) = some st2 ∧ Sim st2 vs2 0 := by
  obtain ⟨-, htl, hlenv, vtop, hvt, hfm0, hvun0, hsl⟩ := sim_reach_destruct hs he hr
  simp only [validateOp, bind, Option.bind_eq_some, Option.some.injEq] at hv
  obtain ⟨vs1, h1, hv⟩ := hv
  obtain ⟨hge, hlen1, hc1⟩ := popVals_reach vs vs1 ps vtop hvt hvun0 (hs.hht vtop hvt) h1
  obtain ⟨st2, eb, phis, heq, hplen, hctrl2, hbt2, hsl2, hfr2⟩ :=
    block_succ st etop ps rs he hr (by rw [hsl, hfm0.2.1]; omega) (by omega)
  refine ⟨st2, heq, ?_⟩
  rw [← hv]
  refine sim_push_frame hs he hr st2 (pushCtrl vs1 CtrlType.block ps rs)
    ⟨CtrlType.block, eb, phis, none, [], rs, st.stack.length - ps.length,
      st.branchTargetStack.length, true⟩
    ⟨rs, eb, phis⟩ ⟨CtrlType.block, ps, rs, vs1.vals.length, false⟩
    hctrl2 hbt2 (by rw [(pushCtrl_spec vs1 CtrlType.block ps rs).1, hc1])
    ?_ ?_ rfl rfl rfl hfr2 ?_ ?_ ?_
  · refine ⟨rfl, ?_, rfl, hplen, ?_, fun _ => rfl⟩
    · show st.stack.length - ps.length = vs1.vals.length
      omega
    · intro hcontra
      simp at hcontra
  · refine ⟨?_, ?_⟩
    · show rs = labelTypes ⟨CtrlType.block, ps, rs, vs1.vals.length, false⟩
      simp [labelTypes]
    · show phis.length = rs.length
      exact hplen
  · rw [hsl2, (pushCtrl_spec vs1 CtrlType.block ps rs).2]
    omega
  · rw [(pushCtrl_spec vs1 CtrlType.block ps rs).2]
    show vs1.vals.length ≤ vs1.vals.length + ps.length
    omega
  · intro g hg
    have hgv : g = vtop := Option.some.inj (hg.symm.trans hvt)
    rw [hgv]
    show vtop.height ≤ vs1.vals.length
    omega

theorem step_loop {st : EmitState} {vs : VState} (hs : Sim st vs 0)
    {etop : ControlContext} (he : st.controlStack.getLast? = some etop)
    (hr : etop.isReachable = true) (ps rs : List WasmType) {vs2 : VState}
    (hv : validateOp vs (Op.loopOp ps rs) = some vs2) :
    ∃ st2, emitOp st (Op.loopOp ps rs) = some st2 ∧ Sim st2 vs2 0 := by
  obtain ⟨-, htl, hlenv, vtop, hvt, hfm0, hvun0, hsl⟩ := sim_reach_destruct hs he hr
  simp only [validateOp, bind, Option.bind_eq_some, Option.some.injEq] at hv
  obtain ⟨vs1, h1, hv⟩ := hv
  obtain ⟨hge, hlen1, hc1⟩ := popVals_reach vs vs1 ps vtop hvt hvun0 (hs.hht vtop hvt) h1
  obtain ⟨st2, bodyBlock, eb, pphis, ephis, heq, hpplen, heplen, hctrl2, hbt2, hsl2, hfr2⟩ :=
    loop_succ st etop ps rs he hr (by rw [hsl, hfm0.2.1]; omega)
  refine ⟨st2, heq, ?_⟩
  rw [← hv]
  refine sim_push_frame hs he hr st2 (pushCtrl vs1 CtrlType.loop ps rs)
    ⟨CtrlType.loop, eb, ephis, none, [], rs, st.stack.length - ps.length,
      st.branchTargetStack.length, true⟩
    ⟨ps, bodyBlock, pphis⟩ ⟨CtrlType.loop, ps, rs, vs1.vals.length, false⟩
    hctrl2 hbt2 (by rw [(pushCtrl_spec vs1 CtrlType.loop ps rs).1, hc1])
    ?_ ?_ rfl rfl rfl hfr2 ?_ ?_ ?_
  · refine ⟨rfl, ?_, rfl, heplen, ?_, fun _ => rfl⟩
    · show st.stack.length - ps.length = vs1.vals.length
      omega
    · intro hcontra
      simp at hcontra
  · refine ⟨?_, ?_⟩
    · show ps = labelTypes ⟨CtrlType.loop, ps, rs, vs1.vals.length, false⟩
      simp [labelTypes]
    · show pphis.length = ps.length
      exact hpplen
  · rw [hsl2, (pushCtrl_spec vs1 CtrlType.loop ps rs).2]
    omega
  · rw [(pushCtrl_spec vs1 CtrlType.loop ps rs).2]
    show vs1.vals.length ≤ vs1.vals.length + ps.length
    omega
  · intro g hg
    have hgv : g = vtop := Option.some.inj (hg.symm.trans hvt)
    rw [hgv]
    show vtop.height ≤ vs1.vals.length
    omega

theorem step_if {st : EmitState} {vs : VState} (hs : Sim st vs 0)
    {etop : ControlContext} (he : st.controlStack.getLast? = some etop)
    (hr : etop.isReachable = true) (ps rs : List WasmType) {vs2 : VState}
    (hv : validateOp vs (Op.ifOp ps rs) = some vs2) :
    ∃ st2, emitOp st (Op.ifOp ps rs) = some st2 ∧ Sim st2 vs2 0 := by
  obtain ⟨-, htl, hlenv, vtop, hvt, hfm0, hvun0, hsl⟩ := sim_reach_destruct hs he hr
  simp only [validateOp, bind, Option.bind_eq_some, Option.some.injEq] at hv
  obtain ⟨vs1, h1, hv⟩ := hv
  obtain ⟨vsB, h2, hv⟩ := hv
  obtain ⟨hne1, hnil1, hvals1⟩ := popValExpect_reach vs vs1 _ vtop hvt hvun0 h1
  have hc1 := popValExpect_ctrls vs vs1 _ h1
  have k1 : vs1.vals.length = vs.vals.length - 1 := by
    rw [hvals1, List.length_dropLast]
  obtain ⟨hge, hlen2, hc2⟩ := popVals_reach vs1 vsB ps vtop (by rw [hc1]; exact hvt)
    hvun0 (by rw [k1]; have := hs.hht vtop hvt; omega) h2
  have h0 : 1 ≤ vs.vals.length := List.length_pos.2 hnil1
  obtain ⟨st2, eb, ephis, args, heq, heplen, harglen, hctrl2, hbt2, hsl2, hfr2⟩ :=
    if_succ st etop ps rs he hr (by rw [hsl, hfm0.2.1]; exact hne1) (by omega)
      (by rw [hsl, hfm0.2.1]; omega)
  refine ⟨st2, heq, ?_⟩
  rw [← hv]
  refine sim_push_frame hs he hr st2 (pushCtrl vsB CtrlType.ifThen ps rs)
    ⟨CtrlType.ifThen, eb, ephis, some (st.nextId + 1), args, rs,
      st.stack.length - 1 - ps.length, st.branchTargetStack.length, true⟩
    ⟨rs, eb, ephis⟩ ⟨CtrlType.ifThen, ps, rs, vsB.vals.length, false⟩
    hctrl2 hbt2 (by rw [(pushCtrl_spec vsB CtrlType.ifThen ps rs).1, hc2, hc1])
    ?_ ?_ rfl rfl rfl hfr2 ?_ ?_ ?_
  · refine ⟨rfl, ?_, rfl, heplen, ?_, ?_⟩
    · show st.stack.length - 1 - ps.length = vsB.vals.length
      omega
    · intro hcontra
      refine ⟨by simp, ?_⟩
      show args.length = ps.length
      exact harglen
    · intro hcontra
      exact absurd rfl hcontra
  · refine ⟨?_, ?_⟩
    · show rs = labelTypes ⟨CtrlType.ifThen, ps, rs, vsB.vals.length, false⟩
      simp [labelTypes]
    · show ephis.length = rs.length
      exact heplen
  · rw [hsl2, (pushCtrl_spec vsB CtrlType.ifThen ps rs).2]
    omega
  · rw [(pushCtrl_spec vsB CtrlType.ifThen ps rs).2]
    show vsB.vals.length ≤ vsB.vals.length + ps.length
    omega
  · intro g hg
    have hgv : g = vtop := Option.some.inj (hg.symm.trans hvt)
    rw [hgv]
    show vtop.height ≤ vsB.vals.length
    omega

end Emit

namespace Emit

theorem forall2_getElem? {α β : Type} {R : α → β → Prop} {l1 : List α} {l2 : List β}
    (h : List.Forall₂ R l1 l2) {i : Nat} {a : α} {b : β}
    (h1 : l1[i]? = some a) (h2 : l2[i]? = some b) : R a b := by
  obtain ⟨hlen, hget⟩ := List.forall₂_iff_get.1 h
  have hi1 : i < l1.length := by
    by_contra hc
    push_neg at hc
    rw [List.getElem?_eq_none hc] at h1
    simp at h1
  have hi2 : i < l2.length := by omega
  have hh := hget i hi1 hi2
  rw [List.get_eq_getElem, List.get_eq_getElem] at hh
  rw [List.getElem?_eq_getElem hi1] at h1
  rw [List.getElem?_eq_getElem hi2] at h2
  rw [Option.some.inj h1, Option.some.inj h2] at hh
  exact hh

theorem forall2_head {α β : Type} {R : α → β → Prop} {l1 : List α} {l2 : List β}
    (h : List.Forall₂ R l1 l2) {a : α} {b : β}
    (h1 : l1.head? = some a) (h2 : l2.head? = some b) : R a b := by
  cases h with
  | nil => simp at h1
  | cons hR hF =>
    simp only [List.head?_cons, Option.some.injEq] at h1 h2
    rw [← h1, ← h2]
    exact hR

theorem sim_bt_of_ctrl {st : EmitState} {vs : VState} {d : Nat} (hs : Sim st vs d)
    (hd0 : vs.ctrls.length = st.controlStack.length)
    (dep : Nat) (f : VCtrl) (hf : getCtrlByDepth vs dep = some f) :
    ∃ bt, getBranchTargetByDepth st dep = some bt ∧ btMatch bt f := by
  have hnpos : 0 < st.controlStack.length := List.length_pos.2 hs.hne
  have htl : vs.ctrls.take st.controlStack.length = vs.ctrls :=
    List.take_of_length_le (by omega)
  have hb0 : List.Forall₂ btMatch st.branchTargetStack vs.ctrls := by
    have hb := hs.hbt
    rw [htl] at hb
    exact hb
  have hm0 : List.Forall₂ framesMatch st.controlStack vs.ctrls := by
    have hm := hs.hmatch
    rw [htl] at hm
    exact hm
  have hbtlen : st.branchTargetStack.length = st.controlStack.length := by
    have h1 := hm0.length_eq
    have h2 := hb0.length_eq
    omega
  obtain ⟨hdep, hidx⟩ := getCtrlByDepth_spec vs dep f hf
  obtain ⟨bt, hbt, hbtidx⟩ := getBranchTargetByDepth_succ st dep (by omega)
  have hix : st.branchTargetStack.length - dep - 1 = vs.ctrls.length - dep - 1 := by
    omega
  rw [hix] at hbtidx
  exact ⟨bt, hbt, forall2_getElem? hb0 hbtidx hidx⟩

theorem step_brIf {st : EmitState} {vs : VState} (hs : Sim st vs 0)
    {etop : ControlContext} (he : st.controlStack.getLast? = some etop)
    (hr : etop.isReachable = true) (dep : Nat) {vs2 : VState}
    (hv : validateOp vs (Op.brIfOp dep) = some vs2) :
    ∃ st2, emitOp st (Op.brIfOp dep) = some st2 ∧ Sim st2 vs2 0 := by
  obtain ⟨-, htl, hlenv, vtop, hvt, hfm0, hvun0, hsl⟩ := sim_reach_destruct hs he hr
  simp only [validateOp, bind, Option.bind_eq_some, Option.some.injEq] at hv
  obtain ⟨f, hf, hv⟩ := hv
  obtain ⟨vs1, h1, hv⟩ := hv
  obtain ⟨vsB, h2, hv⟩ := hv
  obtain ⟨hne1, hnil1, hvals1⟩ := popValExpect_reach vs vs1 _ vtop hvt hvun0 h1
  have hc1 := popValExpect_ctrls vs vs1 _ h1
  have k1 : vs1.vals.length = vs.vals.length - 1 := by
    rw [hvals1, List.length_dropLast]
  have h0 : 1 ≤ vs.vals.length := List.length_pos.2 hnil1
  obtain ⟨hge, hlenB, hcB⟩ := popVals_reach vs1 vsB (labelTypes f) vtop
    (by rw [hc1]; exact hvt) hvun0
    (by rw [k1]; have := hs.hht vtop hvt; omega) h2
  obtain ⟨v1, hpop1⟩ := pop_succ st etop he (by rw [hsl, hfm0.2.1]; exact hne1) (by omega)
  obtain ⟨bt, hbt, hbm⟩ := sim_bt_of_ctrl hs hlenv dep f hf
  have hbt1 : getBranchTargetByDepth { st with stack := st.stack.dropLast } dep
      = some bt := by
    rw [getBranchTargetByDepth_congr st { st with stack := st.stack.dropLast } rfl]
    exact hbt
  have hfold := brIfFold_fields bt.phis bt.params.length
    (List.range bt.params.length) { st with stack := st.stack.dropLast }
  refine ⟨(List.range bt.params.length).foldl
      (fun acc argIndex => addIncoming acc (bt.phis.getD argIndex 0)
        (getValueFromTop acc (bt.params.length - argIndex - 1)))
      { st with stack := st.stack.dropLast }, ?_, ?_⟩
  · show (do
      let x ← pop st
      match x with
      | (_condition, st1) => do
        let target ← getBranchTargetByDepth st1 dep
        if target.params.length ≠ target.phis.length then none
        else some ((List.range target.params.length).foldl
          (fun acc argIndex => addIncoming acc (target.phis.getD argIndex 0)
            (getValueFromTop acc (target.params.length - argIndex - 1))) st1)) = _
    rw [hpop1]
    show (do
      let target ← getBranchTargetByDepth { st with stack := st.stack.dropLast } dep
      if target.params.length ≠ target.phis.length then none
      else some ((List.range target.params.length).foldl
        (fun acc argIndex => addIncoming acc (target.phis.getD argIndex 0)
          (getValueFromTop acc (target.params.length - argIndex - 1)))
        { st with stack := st.stack.dropLast })) = _
    rw [hbt1]
    show (if bt.params.length ≠ bt.phis.length then none else _) = _
    rw [if_neg (fun hno => hno hbm.2.symm)]
  · rw [← hv]
    refine sim_same_frames hs he hr _ _ (hfold.2.1.trans rfl) (hfold.2.2.1.trans rfl)
      (hfold.2.2.2.trans rfl)
      (by rw [show (pushVals vsB (labelTypes f)).ctrls = vsB.ctrls from rfl, hcB, hc1]) ?_ ?_
    · rw [show ((List.range bt.params.length).foldl
        (fun acc argIndex => addIncoming acc (bt.phis.getD argIndex 0)
          (getValueFromTop acc (bt.params.length - argIndex - 1)))
        { st with stack := st.stack.dropLast }).stack = st.stack.dropLast from hfold.1]
      rw [List.length_dropLast]
      rw [show (pushVals vsB (labelTypes f)).vals.length
        = vsB.vals.length + (labelTypes f).length from by simp [pushVals]]
      omega
    · intro g hg
      have hgv : g = vtop := Option.some.inj (hg.symm.trans hvt)
      rw [hgv]
      rw [show (pushVals vsB (labelTypes f)).vals.length
        = vsB.vals.length + (labelTypes f).length from by simp [pushVals]]
      have hhh := hs.hht vtop hvt
      omega

end Emit

namespace Emit

theorem step_unreachable {st : EmitState} {vs : VState} (hs : Sim st vs 0)
    {etop : ControlContext} (he : st.controlStack.getLast? = some etop)
    (hr : etop.isReachable = true) {vs2 : VState}
    (hv : validateOp vs Op.unreachableOp = some vs2) :
    ∃ st2, emitOp st Op.unreachableOp = some st2 ∧ Sim st2 vs2 0 := by
  obtain ⟨-, htl, hlenv, vtop, hvt, hfm0, hvun0, hsl⟩ := sim_reach_destruct hs he hr
  have hv2 : setUnreachable vs = some vs2 := hv
  obtain ⟨hvc2, hv2len, hhle⟩ := setUnreachable_spec vs vs2 vtop hvt hv2
  have heu := enterUnreachable_succ st etop he (by rw [hsl, hfm0.2.1]; exact hhle)
  refine ⟨_, heu, ?_⟩
  refine sim_replace_top hs he hvt hlenv _ vs2
    { etop with isReachable := false } { vtop with unreachable := true }
    rfl rfl hvc2 hfm0 ?_ rfl rfl rfl rfl ?_
  · intro btl hbl
    have hb0 : List.Forall₂ btMatch st.branchTargetStack vs.ctrls := by
      have hb := hs.hbt
      rw [htl] at hb
      exact hb
    have hbm2 : btMatch btl vtop := forall2_last hb0 hbl hvt
    exact hbm2
  · right
    refine ⟨rfl, rfl, ?_, ?_⟩
    · show (st.stack.take etop.outerStackSize).length = etop.outerStackSize
      rw [List.length_take]
      rw [hsl, hfm0.2.1]
      omega
    · exact hv2len

theorem step_br {st : EmitState} {vs : VState} (hs : Sim st vs 0)
    {etop : ControlContext} (he : st.controlStack.getLast? = some etop)
    (hr : etop.isReachable = true) (dep : Nat)
    (hv : validateOp vs (Op.brOp dep) = some hv2t) :
    ∃ st2, emitOp st (Op.brOp dep) = some st2 ∧ Sim st2 hv2t 0 := by
  obtain ⟨-, htl, hlenv, vtop, hvt, hfm0, hvun0, hsl⟩ := sim_reach_destruct hs he hr
  simp only [validateOp, bind, Option.bind_eq_some, Option.some.injEq] at hv
  obtain ⟨f, hf, hv⟩ := hv
  obtain ⟨vs1, h1, hv⟩ := hv
  obtain ⟨hge, hlen1, hc1⟩ := popVals_reach vs vs1 (labelTypes f) vtop hvt hvun0
    (hs.hht vtop hvt) h1
  obtain ⟨hvc2, hv2len, hhle⟩ := setUnreachable_spec vs1 hv2t vtop
    (by rw [hc1]; exact hvt) hv
  rw [hc1] at hvc2
  obtain ⟨bt, hbt, hbm⟩ := sim_bt_of_ctrl hs hlenv dep f hf
  have hphlen : bt.phis.length = (labelTypes f).length := by
    rw [hbm.2, hbm.1]
  obtain ⟨st4, h4, hlen4, hctrl4, hbt4, hfr4, hid4⟩ :=
    popAdd_succ bt.phis.reverse st etop he
      (by rw [List.length_reverse, hphlen, hsl, hfm0.2.1]; omega)
  have heu := enterUnreachable_succ st4 etop (by rw [hctrl4]; exact he)
    (by rw [hlen4, List.length_reverse, hphlen, hsl, hfm0.2.1]; omega)
  refine ⟨{ st4 with
      stack := st4.stack.take etop.outerStackSize,
      controlStack := st4.controlStack.dropLast ++ [{ etop with isReachable := false }] },
    ?_, ?_⟩
  · show (do
      let target ← getBranchTargetByDepth st dep
      if target.params.length ≠ target.phis.length then none
      else do
        let st2 ← popAndAddIncomingsRev st target.phis.reverse
        enterUnreachable st2) = _
    rw [hbt]
    show (if bt.params.length ≠ bt.phis.length then none else _) = _
    rw [if_neg (fun hno => hno hbm.2.symm)]
    show (do
      let st2 ← popAndAddIncomingsRev st bt.phis.reverse
      enterUnreachable st2) = _
    rw [h4]
    show enterUnreachable st4 = _
    rw [heu]
  · refine sim_replace_top hs he hvt hlenv _ hv2t
      { etop with isReachable := false } { vtop with unreachable := true }
      (by rw [hctrl4]) (by rw [hbt4]) hvc2 hfm0 ?_ rfl rfl rfl
      (by rw [hfr4]) ?_
    · intro btl hbl
      have hb0 : List.Forall₂ btMatch st.branchTargetStack vs.ctrls := by
        have hb := hs.hbt
        rw [htl] at hb
        exact hb
      have hbm2 : btMatch btl vtop := forall2_last hb0 hbl hvt
      exact hbm2
    · right
      refine ⟨rfl, rfl, ?_, ?_⟩
      · show (st4.stack.take etop.outerStackSize).length = etop.outerStackSize
        rw [List.length_take, hlen4, List.length_reverse, hphlen, hsl, hfm0.2.1]
        omega
      · exact hv2len

theorem step_return {st : EmitState} {vs : VState} (hs : Sim st vs 0)
    {etop : ControlContext} (he : st.controlStack.getLast? = some etop)
    (hr : etop.isReachable = true) {vs2 : VState}
    (hv : validateOp vs Op.returnOp = some vs2) :
    ∃ st2, emitOp st Op.returnOp = some st2 ∧ Sim st2 vs2 0 := by
  obtain ⟨-, htl, hlenv, vtop, hvt, hfm0, hvun0, hsl⟩ := sim_reach_destruct hs he hr
  simp only [validateOp, bind, Option.bind_eq_some, Option.some.injEq] at hv
  obtain ⟨f0, hf0, hv⟩ := hv
  obtain ⟨vs1, h1, hv⟩ := hv
  obtain ⟨hge, hlen1, hc1⟩ := popVals_reach vs vs1 f0.endTypes vtop hvt hvun0
    (hs.hht vtop hvt) h1
  obtain ⟨hvc2, hv2len, hhle⟩ := setUnreachable_spec vs1 vs2 vtop
    (by rw [hc1]; exact hvt) hv
  rw [hc1] at hvc2
  have hm0 : List.Forall₂ framesMatch st.controlStack vs.ctrls := by
    have hm := hs.hmatch
    rw [htl] at hm
    exact hm
  obtain ⟨f0e, hf0e⟩ : ∃ f0e, st.controlStack.head? = some f0e := by
    cases hcs : st.controlStack with
    | nil => exact absurd hcs hs.hne
    | cons c t => exact ⟨c, rfl⟩
  obtain ⟨f0v, hf0v⟩ : ∃ f0v, vs.ctrls.head? = some f0v := by
    cases hcs : vs.ctrls with
    | nil =>
      rw [hcs] at hlenv
      simp at hlenv
      have hnp := List.length_pos.2 hs.hne
      omega
    | cons c t => exact ⟨c, rfl⟩
  have hff : f0v = f0 := Option.some.inj (hf0v.symm.trans hf0)
  subst hff
  have hfm00 : framesMatch f0e f0v := forall2_head hm0 hf0e hf0v
  have hguard : f0e.endPHIs.length = st.functionResultTypes.length := by
    rw [hfm00.2.2.2.1, hs.hfres f0v hf0v]
  obtain ⟨st4, h4, hlen4, hctrl4, hbt4, hfr4, hid4⟩ :=
    popAdd_succ f0e.endPHIs.reverse st etop he
      (by rw [List.length_reverse, hguard, hs.hfres f0v hf0v, hsl, hfm0.2.1]; omega)
  have heu := enterUnreachable_succ st4 etop (by rw [hctrl4]; exact he)
    (by rw [hlen4, List.length_reverse, hguard, hs.hfres f0v hf0v, hsl, hfm0.2.1]; omega)
  refine ⟨{ st4 with
      stack := st4.stack.take etop.outerStackSize,
      controlStack := st4.controlStack.dropLast ++ [{ etop with isReachable := false }] },
    ?_, ?_⟩
  · show (do
      let f0b ← st.controlStack.head?
      if f0b.endPHIs.length ≠ st.functionResultTypes.length then none
      else do
        let st2 ← popAndAddIncomingsRev st f0b.endPHIs.reverse
        enterUnreachable st2) = _
    rw [hf0e]
    show (if f0e.endPHIs.length ≠ st.functionResultTypes.length then none else _) = _
    rw [if_neg (fun hno => hno hguard)]
    show (do
      let st2 ← popAndAddIncomingsRev st f0e.endPHIs.reverse
      enterUnreachable st2) = _
    rw [h4]
    show enterUnreachable st4 = _
    rw [heu]
  · refine sim_replace_top hs he hvt hlenv _ vs2
      { etop with isReachable := false } { vtop with unreachable := true }
      (by rw [hctrl4]) (by rw [hbt4]) hvc2 hfm0 ?_ rfl rfl rfl
      (by rw [hfr4]) ?_
    · intro btl hbl
      have hb0 : List.Forall₂ btMatch st.branchTargetStack vs.ctrls := by
        have hb := hs.hbt
        rw [htl] at hb
        exact hb
      have hbm2 : btMatch btl vtop := forall2_last hb0 hbl hvt
      exact hbm2
    · right
      refine ⟨rfl, rfl, ?_, ?_⟩
      · show (st4.stack.take etop.outerStackSize).length = etop.outerStackSize
        rw [List.length_take, hlen4, List.length_reverse, hguard,
          hs.hfres f0v hf0v, hsl, hfm0.2.1]
        omega
      · exact hv2len

end Emit

namespace Emit

theorem addIncomingList_fields2 :
    ∀ (ps : List Nat) (vs : List Val) (st : EmitState),
    (addIncomingList st ps vs).functionResultTypes = st.functionResultTypes ∧
    (addIncomingList st ps vs).nextId = st.nextId
  | [], vs, st => by cases vs <;> exact ⟨rfl, rfl⟩
  | _ :: _, [], st => ⟨rfl, rfl⟩
  | p :: ps, v :: vs, st => addIncomingList_fields2 ps vs (addIncoming st p v)

theorem brTableFold_succ (numArgs : Nat) (args : List Val) :
    ∀ (ds : List Nat) (st : EmitState),
    (∀ dd ∈ ds, ∃ bt2, getBranchTargetByDepth st dd = some bt2 ∧
      bt2.phis.length = numArgs) →
    ∃ st2, ds.foldlM (fun acc d => do
        let target ← getBranchTargetByDepth acc d
        if target.phis.length ≠ numArgs then none
        else some (addIncomingList acc target.phis args)) st = some st2 ∧
      st2.stack = st.stack ∧ st2.controlStack = st.controlStack ∧
      st2.branchTargetStack = st.branchTargetStack ∧
      st2.functionResultTypes = st.functionResultTypes ∧ st2.nextId = st.nextId
  | [], st, _ => ⟨st, rfl, rfl, rfl, rfl, rfl, rfl⟩
  | dd :: ds, st, hall => by
    obtain ⟨bt2, hbt2, hlen2⟩ := hall dd (List.mem_cons_self dd ds)
    have hf := addIncomingList_fields bt2.phis args st
    have hf2 := addIncomingList_fields2 bt2.phis args st
    have hall2 : ∀ dd2 ∈ ds, ∃ bt3,
        getBranchTargetByDepth (addIncomingList st bt2.phis args) dd2 = some bt3 ∧
        bt3.phis.length = numArgs := by
      intro dd2 hmem
      obtain ⟨bt3, hbt3, hlen3⟩ := hall dd2 (List.mem_cons_of_mem dd hmem)
      refine ⟨bt3, ?_, hlen3⟩
      rw [getBranchTargetByDepth_congr st (addIncomingList st bt2.phis args) hf.2.2]
      exact hbt3
    obtain ⟨st2, hrec, hstk, hctrl, hbt, hfr, hid⟩ :=
      brTableFold_succ numArgs args ds (addIncomingList st bt2.phis args) hall2
    refine ⟨st2, ?_, hstk.trans hf.1, hctrl.trans hf.2.1, hbt.trans hf.2.2,
      hfr.trans hf2.1, hid.trans hf2.2⟩
    rw [List.foldlM_cons, hbt2]
    simp only [bind, Option.some_bind]
    rw [if_neg (fun hno => hno hlen2)]
    simp only [Option.some_bind]
    exact hrec

theorem step_brTable {st : EmitState} {vs : VState} (hs : Sim st vs 0)
    {etop : ControlContext} (he : st.controlStack.getLast? = some etop)
    (hr : etop.isReachable = true) (ds : List Nat) (dep : Nat) {vs2 : VState}
    (hv : validateOp vs (Op.brTableOp ds dep) = some vs2) :
    ∃ st2, emitOp st (Op.brTableOp ds dep) = some st2 ∧ Sim st2 vs2 0 := by
  obtain ⟨-, htl, hlenv, vtop, hvt, hfm0, hvun0, hsl⟩ := sim_reach_destruct hs he hr
  simp only [validateOp, bind, Option.bind_eq_some] at hv
  obtain ⟨fd, hfd, hv⟩ := hv
  split at hv
  · rename_i hall
    simp only [bind, Option.bind_eq_some] at hv
    obtain ⟨vs1, h1, hv⟩ := hv
    obtain ⟨vsB, h2, hv⟩ := hv
    obtain ⟨hne1, hnil1, hvals1⟩ := popValExpect_reach vs vs1 _ vtop hvt hvun0 h1
    have hc1 := popValExpect_ctrls vs vs1 _ h1
    have k1 : vs1.vals.length = vs.vals.length - 1 := by
      rw [hvals1, List.length_dropLast]
    have h0 : 1 ≤ vs.vals.length := List.length_pos.2 hnil1
    obtain ⟨hge, hlenB, hcB⟩ := popVals_reach vs1 vsB (labelTypes fd) vtop
      (by rw [hc1]; exact hvt) hvun0
      (by rw [k1]; have := hs.hht vtop hvt; omega) h2
    obtain ⟨hvc2, hv2len, hhle⟩ := setUnreachable_spec vsB vs2 vtop
      (by rw [hcB, hc1]; exact hvt) hv
    rw [hcB, hc1] at hvc2
    obtain ⟨v1, hpop1⟩ := pop_succ st etop he (by rw [hsl, hfm0.2.1]; exact hne1)
      (by omega)
    obtain ⟨bt, hbt, hbm⟩ := sim_bt_of_ctrl hs hlenv dep fd hfd
    have hbt1 : getBranchTargetByDepth { st with stack := st.stack.dropLast } dep
        = some bt := by
      rw [getBranchTargetByDepth_congr st { st with stack := st.stack.dropLast } rfl]
      exact hbt
    have hnum : bt.params.length = (labelTypes fd).length := by rw [hbm.1]
    have hst1len : ({ st with stack := st.stack.dropLast } : EmitState).stack.length
        = vs1.vals.length := by
      show st.stack.dropLast.length = _
      rw [List.length_dropLast, hsl, k1]
    have hpm := popMultiple_succ { st with stack := st.stack.dropLast } etop
      bt.params.length he (by rw [hst1len, hnum, hfm0.2.1]; omega)
    have hf3 := addIncomingList_fields bt.phis
      (({ st with stack := st.stack.dropLast } : EmitState).stack.drop
        (({ st with stack := st.stack.dropLast } : EmitState).stack.length
          - bt.params.length))
      { { st with stack := st.stack.dropLast } with
        stack := ({ st with stack := st.stack.dropLast } : EmitState).stack.take
          (({ st with stack := st.stack.dropLast } : EmitState).stack.length
            - bt.params.length) }
    have hf3b := addIncomingList_fields2 bt.phis
      (({ st with stack := st.stack.dropLast } : EmitState).stack.drop
        (({ st with stack := st.stack.dropLast } : EmitState).stack.length
          - bt.params.length))
      { { st with stack := st.stack.dropLast } with
        stack := ({ st with stack := st.stack.dropLast } : EmitState).stack.take
          (({ st with stack := st.stack.dropLast } : EmitState).stack.length
            - bt.params.length) }
    have hfold_hyp : ∀ dd ∈ ds, ∃ bt2,
        getBranchTargetByDepth (addIncomingList
          { { st with stack := st.stack.dropLast } with
            stack := ({ st with stack := st.stack.dropLast } : EmitState).stack.take
              (({ st with stack := st.stack.dropLast } : EmitState).stack.length
                - bt.params.length) }
          bt.phis
          (({ st with stack := st.stack.dropLast } : EmitState).stack.drop
            (({ st with stack := st.stack.dropLast } : EmitState).stack.length
              - bt.params.length))) dd = some bt2 ∧
        bt2.phis.length = bt.params.length := by
      intro dd hmem
      have hdd := List.all_eq_true.1 hall dd hmem
      have hex : ∃ f2, getCtrlByDepth vs dd = some f2 ∧
          labelTypes f2 = labelTypes fd := by
        cases hgc : getCtrlByDepth vs dd with
        | none => rw [hgc] at hdd; simp at hdd
        | some f2 =>
          rw [hgc] at hdd
          simp only [Option.elim] at hdd
          exact ⟨f2, rfl, of_decide_eq_true hdd⟩
      obtain ⟨f2, hf2, hlab⟩ := hex
      obtain ⟨bt2, hbt2, hbm2⟩ := sim_bt_of_ctrl hs hlenv dd f2 hf2
      refine ⟨bt2, ?_, ?_⟩
      · rw [getBranchTargetByDepth_congr st _ hf3.2.2]
        exact hbt2
      · rw [hbm2.2, hbm2.1, hlab, ← hbm.1]
    obtain ⟨st4, hfold, hstk4, hctrl4, hbt4, hfr4, hid4⟩ :=
      brTableFold_succ bt.params.length
        (({ st with stack := st.stack.dropLast } : EmitState).stack.drop
          (({ st with stack := st.stack.dropLast } : EmitState).stack.length
            - bt.params.length)) ds _ hfold_hyp
    have he4 : st4.controlStack.getLast? = some etop := by
      rw [hctrl4, hf3.2.1]
      exact he
    have hlen4 : st4.stack.length = vs1.vals.length - bt.params.length := by
      rw [hstk4, hf3.1]
      show (st.stack.dropLast.take (st.stack.dropLast.length - bt.params.length)).length
        = _
      rw [List.length_take, List.length_dropLast, hsl]
      omega
    have heu := enterUnreachable_succ st4 etop he4
      (by rw [hlen4, hfm0.2.1]; omega)
    refine ⟨{ st4 with
        stack := st4.stack.take etop.outerStackSize,
        controlStack := st4.controlStack.dropLast ++ [{ etop with isReachable := false }] },
      ?_, ?_⟩
    · show (do
        let x ← pop st
        match x with
        | (_index, st1) => do
          let defaultTarget ← getBranchTargetByDepth st1 dep
          let y ← popMultiple st1 defaultTarget.params.length
          match y with
          | (args, st2) => do
            let st4x ← ds.foldlM (fun acc d2 => do
                let target ← getBranchTargetByDepth acc d2
                if target.phis.length ≠ defaultTarget.params.length then none
                else some (addIncomingList acc target.phis args))
              (addIncomingList st2 defaultTarget.phis args)
            enterUnreachable st4x) = _
      rw [hpop1]
      show (do
        let defaultTarget ← getBranchTargetByDepth { st with stack := st.stack.dropLast } dep
        let y ← popMultiple { st with stack := st.stack.dropLast }
          defaultTarget.params.length
        match y with
        | (args, st2) => do
          let st4x ← ds.foldlM (fun acc d2 => do
              let target ← getBranchTargetByDepth acc d2
              if target.phis.length ≠ defaultTarget.params.length then none
              else some (addIncomingList acc target.phis args))
            (addIncomingList st2 defaultTarget.phis args)
          enterUnreachable st4x) = _
      rw [hbt1]
      show (do
        let y ← popMultiple { st with stack := st.stack.dropLast } bt.params.length
        match y with
        | (args, st2) => do
          let st4x ← ds.foldlM (fun acc d2 => do
              let target ← getBranchTargetByDepth acc d2
              if target.phis.length ≠ bt.params.length then none
              else some (addIncomingList acc target.phis args))
            (addIncomingList st2 bt.phis args)
          enterUnreachable st4x) = _
      rw [hpm]
      show (do
        let st4x ← ds.foldlM (fun acc d2 => do
            let target ← getBranchTargetByDepth acc d2
            if target.phis.length ≠ bt.params.length then none
            else some (addIncomingList acc target.phis
              (({ st with stack := st.stack.dropLast } : EmitState).stack.drop
                (({ st with stack := st.stack.dropLast } : EmitState).stack.length
                  - bt.params.length))))
          (addIncomingList
            { { st with stack := st.stack.dropLast } with
              stack := ({ st with stack := st.stack.dropLast } : EmitState).stack.take
                (({ st with stack := st.stack.dropLast } : EmitState).stack.length
                  - bt.params.length) }
            bt.phis
            (({ st with stack := st.stack.dropLast } : EmitState).stack.drop
              (({ st with stack := st.stack.dropLast } : EmitState).stack.length
                - bt.params.length)))
        enterUnreachable st4x) = _
      rw [hfold]
      show enterUnreachable st4 = _
      rw [heu]
    · refine sim_replace_top hs he hvt hlenv _ vs2
        { etop with isReachable := false } { vtop with unreachable := true }
        (by rw [hctrl4, hf3.2.1]) (by rw [hbt4, hf3.2.2]) hvc2 hfm0 ?_ rfl rfl rfl
        (by rw [hfr4, hf3b.1]) ?_
      · intro btl hbl
        have hb0 : List.Forall₂ btMatch st.branchTargetStack vs.ctrls := by
          have hb := hs.hbt
          rw [htl] at hb
          exact hb
        have hbm2 : btMatch btl vtop := forall2_last hb0 hbl hvt
        exact hbm2
      · right
        refine ⟨rfl, rfl, ?_, ?_⟩
        · show (st4.stack.take etop.outerStackSize).length = etop.outerStackSize
          rw [List.length_take, hlen4, hfm0.2.1]
          omega
        · exact hv2len
  · simp at hv

end Emit

namespace Emit

theorem chain'_last_le {l : List VCtrl}
    (hc : List.Chain' (fun a b => a.height ≤ b.height) l)
    {vtop g : VCtrl} (hvt : l.getLast? = some vtop)
    (hg : l.dropLast.getLast? = some g) :
    g.height ≤ vtop.height := by
  have hnil : l ≠ [] := by
    intro h0
    rw [h0] at hvt
    simp at hvt
  have hdec : l = l.dropLast ++ [vtop] := by
    have hh := List.dropLast_append_getLast hnil
    have hgl : l.getLast hnil = vtop :=
      Option.some.inj ((List.getLast?_eq_getLast l hnil).symm.trans hvt)
    rw [hgl] at hh
    exact hh.symm
  rw [hdec, List.chain'_append] at hc
  obtain ⟨-, -, hlink⟩ := hc
  exact hlink g hg vtop rfl

theorem pushEndPHIs_fields :
    ∀ (phis : List Nat) (ts : List WasmType) (st : EmitState),
    (pushEndPHIs st phis ts).stack.length
        = st.stack.length + min phis.length ts.length ∧
    (pushEndPHIs st phis ts).controlStack = st.controlStack ∧
    (pushEndPHIs st phis ts).branchTargetStack = st.branchTargetStack ∧
    (pushEndPHIs st phis ts).functionResultTypes = st.functionResultTypes ∧
    (pushEndPHIs st phis ts).nextId = st.nextId
  | [], ts, st => by simp [pushEndPHIs]
  | p :: rest, [], st => by simp [pushEndPHIs]
  | p :: rest, t :: ts, st => by
    unfold pushEndPHIs
    split
    · have ih := pushEndPHIs_fields rest ts (push st (Val.phi p))
      refine ⟨?_, ih.2.1, ih.2.2.1, ih.2.2.2.1, ih.2.2.2.2⟩
      rw [ih.1]
      show (st.stack ++ [Val.phi p]).length + min rest.length ts.length = _
      rw [List.length_append]
      simp only [List.length_cons, List.length_nil]
      omega
    · have ih := pushEndPHIs_fields rest ts (push (erasePhi st p) (Val.typedZero t))
      refine ⟨?_, ih.2.1, ih.2.2.1, ih.2.2.2.1, ih.2.2.2.2⟩
      rw [ih.1]
      show (st.stack ++ [Val.typedZero t]).length + min rest.length ts.length = _
      rw [List.length_append]
      simp only [List.length_cons, List.length_nil]
      omega

theorem branchToEnd_succ (st : EmitState) (f : ControlContext)
    (hf : st.controlStack.getLast? = some f)
    (hcase : (f.isReachable = true ∧
        st.stack.length = f.outerStackSize + f.endPHIs.length)
      ∨ (f.isReachable = false ∧ st.stack.length = f.outerStackSize)) :
    ∃ st1, branchToEndOfControlContext st = some st1 ∧
      st1.controlStack = st.controlStack ∧
      st1.branchTargetStack = st.branchTargetStack ∧
      st1.stack.length = f.outerStackSize ∧
      st1.functionResultTypes = st.functionResultTypes := by
  unfold branchToEndOfControlContext
  rw [hf]
  simp only [bind, Option.some_bind]
  rcases hcase with ⟨hr, hlen⟩ | ⟨hr, hlen⟩
  · obtain ⟨st2, hpop, hlen2, hctrl, hbt, hfr, hid⟩ :=
      popAdd_succ f.endPHIs.reverse st f hf (by rw [List.length_reverse]; omega)
    rw [if_pos hr, hpop]
    simp only [Option.some_bind]
    rw [if_pos (by rw [hlen2, List.length_reverse]; omega)]
    exact ⟨st2, rfl, hctrl, hbt, by rw [hlen2, List.length_reverse]; omega, hfr⟩
  · rw [if_neg (fun hcontra => by rw [hr] at hcontra; simp at hcontra)]
    refine ⟨st, ?_, rfl, rfl, hlen, rfl⟩
    show (if st.stack.length = f.outerStackSize then some st else none) = some st
    rw [if_pos hlen]

theorem sim_top_destruct {st : EmitState} {vs : VState} (hs : Sim st vs 0)
    {etop : ControlContext} (he : st.controlStack.getLast? = some etop) :
    vs.ctrls.take st.controlStack.length = vs.ctrls ∧
    vs.ctrls.length = st.controlStack.length ∧
    ∃ vtop, vs.ctrls.getLast? = some vtop ∧ framesMatch etop vtop ∧
      ((etop.isReachable = true ∧ vtop.unreachable = false ∧
          st.stack.length = vs.vals.length)
        ∨ (etop.isReachable = false ∧ vtop.unreachable = true ∧
          st.stack.length = etop.outerStackSize)) := by
  cases hrc : etop.isReachable with
  | true =>
    obtain ⟨-, htl, hlenv, vtop, hvt, hfm, hvun, hsl⟩ := sim_reach_destruct hs he hrc
    exact ⟨htl, hlenv, vtop, hvt, hfm, Or.inl ⟨rfl, hvun, hsl⟩⟩
  | false =>
    obtain ⟨hlenv, hsl, vtop, hvtop, hfm, hvun⟩ := sim_unreach_destruct hs he hrc
    have hn : 0 < st.controlStack.length := List.length_pos.2 hs.hne
    have hlenv2 : vs.ctrls.length = st.controlStack.length := by omega
    have htl : vs.ctrls.take st.controlStack.length = vs.ctrls :=
      List.take_of_length_le (by omega)
    have hvt : vs.ctrls.getLast? = some vtop := by
      have htake := getLast?_take_eq vs.ctrls st.controlStack.length (by omega) (by omega)
      rw [htl] at htake
      rw [htake]
      exact hvtop
    exact ⟨htl, hlenv2, vtop, hvt, hfm, Or.inr ⟨rfl, hvun, hsl⟩⟩

end Emit

namespace Emit

theorem else_core {st : EmitState} {vs : VState} (hs : Sim st vs 0)
    {etop : ControlContext} (he : st.controlStack.getLast? = some etop)
    {vs2 : VState} (hv : validateOp vs Op.elseOp = some vs2) :
    ∃ st2, else_ st = some st2 ∧ Sim st2 vs2 0 := by
  obtain ⟨htl, hlenv, vtop, hvt, hfm0, hmode⟩ := sim_top_destruct hs he
  simp only [validateOp, bind, Option.bind_eq_some] at hv
  obtain ⟨⟨f, vs1⟩, hpc, hv⟩ := hv
  replace hv : (if f.kind = CtrlType.ifThen
      then some (pushCtrl vs1 CtrlType.ifElse f.startTypes f.endTypes)
      else none) = some vs2 := hv
  obtain ⟨hcl, hc1, hh1, himpl⟩ := popCtrl_spec vs vs1 f hpc
  have hfv : f = vtop := Option.some.inj (hcl.symm.trans hvt)
  rw [hfv] at hh1 himpl hv
  split at hv
  · rename_i hkind
    replace hv := Option.some.inj hv
    have htype : etop.type = CtrlType.ifThen := by rw [hfm0.1, hkind]
    obtain ⟨helseB, hargslen⟩ := hfm0.2.2.2.2.1 htype
    have hBcase : (etop.isReachable = true ∧
        st.stack.length = etop.outerStackSize + etop.endPHIs.length)
      ∨ (etop.isReachable = false ∧ st.stack.length = etop.outerStackSize) := by
      rcases hmode with ⟨hr, hvun, hsl⟩ | ⟨hr, hvun, hsl⟩
      · left
        refine ⟨hr, ?_⟩
        have hexact := himpl hvun (hs.hht vtop hvt)
        rw [hsl, hexact, hfm0.2.1, hfm0.2.2.2.1]
      · exact Or.inr ⟨hr, hsl⟩
    obtain ⟨stB, hB, hctrlB, hbtB, hlenB, hfrB⟩ := branchToEnd_succ st etop he hBcase
    obtain ⟨eb, heb⟩ : ∃ eb, etop.elseBlock = some eb := by
      cases hebc : etop.elseBlock with
      | none => exact absurd hebc helseB
      | some x => exact ⟨x, rfl⟩
    refine ⟨{ stB with
        stack := stB.stack ++ etop.elseArgs,
        controlStack := stB.controlStack.dropLast ++
          [{ etop with type := CtrlType.ifElse, isReachable := true, elseBlock := none }] },
      ?_, ?_⟩
    · show (do
        let f2 ← st.controlStack.getLast?
        let st2 ← branchToEndOfControlContext st
        match f2.elseBlock with
        | none => none
        | some _ =>
          if f2.type = CtrlType.ifThen then
            some { st2 with
              stack := st2.stack ++ f2.elseArgs,
              controlStack := st2.controlStack.dropLast ++
                [{ f2 with type := CtrlType.ifElse, isReachable := true, elseBlock := none }] }
          else none) = _
      rw [he]
      show (do
        let st2 ← branchToEndOfControlContext st
        match etop.elseBlock with
        | none => none
        | some _ =>
          if etop.type = CtrlType.ifThen then
            some { st2 with
              stack := st2.stack ++ etop.elseArgs,
              controlStack := st2.controlStack.dropLast ++
                [{ etop with type := CtrlType.ifElse, isReachable := true, elseBlock := none }] }
          else none) = _
      rw [hB]
      show (match etop.elseBlock with
        | none => none
        | some _ =>
          if etop.type = CtrlType.ifThen then
            some { stB with
              stack := stB.stack ++ etop.elseArgs,
              controlStack := stB.controlStack.dropLast ++
                [{ etop with type := CtrlType.ifElse, isReachable := true, elseBlock := none }] }
          else none) = _
      rw [heb]
      show (if etop.type = CtrlType.ifThen then
          some { stB with
            stack := stB.stack ++ etop.elseArgs,
            controlStack := stB.controlStack.dropLast ++
              [{ etop with type := CtrlType.ifElse, isReachable := true, elseBlock := none }] }
        else none) = _
      rw [if_pos htype]
    · rw [← hv]
      have hkv : vtop.kind = CtrlType.ifThen := hfm0.1.symm.trans htype
      have h5 : ({ etop with type := CtrlType.ifElse, isReachable := true, elseBlock := none } : ControlContext).type ≠ CtrlType.ifThen := by
        show CtrlType.ifElse ≠ CtrlType.ifThen
        simp
      refine sim_replace_top hs he hvt hlenv _ _
        { etop with type := CtrlType.ifElse, isReachable := true, elseBlock := none }
        ⟨CtrlType.ifElse, vtop.startTypes, vtop.endTypes, vtop.height, false⟩
        (by rw [hctrlB]) (by rw [hbtB]) ?_ ?_ ?_ rfl rfl rfl (by rw [hfrB]) ?_
      · show vs1.ctrls ++ [⟨CtrlType.ifElse, vtop.startTypes, vtop.endTypes,
          vs1.vals.length, false⟩] = _
        rw [hc1, hh1]
      · exact ⟨rfl, hfm0.2.1, hfm0.2.2.1, hfm0.2.2.2.1,
          fun hcontra => absurd hcontra h5, fun _ => rfl⟩
      · intro btl hbl
        have hb0 : List.Forall₂ btMatch st.branchTargetStack vs.ctrls := by
          have hb := hs.hbt
          rw [htl] at hb
          exact hb
        have hbm2 : btMatch btl vtop := forall2_last hb0 hbl hvt
        have hlabv : labelTypes vtop = vtop.endTypes := by
          unfold labelTypes
          rw [hkv]
          simp
        have hlabn : labelTypes ⟨CtrlType.ifElse, vtop.startTypes, vtop.endTypes,
            vtop.height, false⟩ = vtop.endTypes := by
          unfold labelTypes
          simp
        refine ⟨?_, hbm2.2⟩
        rw [hlabn, ← hlabv]
        exact hbm2.1
      · left
        refine ⟨rfl, rfl, ?_, ?_⟩
        · show (stB.stack ++ etop.elseArgs).length
            = (pushCtrl vs1 CtrlType.ifElse vtop.startTypes vtop.endTypes).vals.length
          rw [List.length_append, hlenB, hargslen, hfm0.2.1,
            (pushCtrl_spec vs1 CtrlType.ifElse vtop.startTypes vtop.endTypes).2, hh1]
        · show vtop.height
            ≤ (pushCtrl vs1 CtrlType.ifElse vtop.startTypes vtop.endTypes).vals.length
          rw [(pushCtrl_spec vs1 CtrlType.ifElse vtop.startTypes vtop.endTypes).2, hh1]
          omega
  · simp at hv

end Emit


namespace Emit

theorem end_succ (st : EmitState) (f : ControlContext)
    (hf : st.controlStack.getLast? = some f)
    (hBcase : (f.isReachable = true ∧
        st.stack.length = f.outerStackSize + f.endPHIs.length)
      ∨ (f.isReachable = false ∧ st.stack.length = f.outerStackSize))
    (helse : f.elseBlock = none ∨ f.elseArgs.length = f.endPHIs.length)
    (hg4 : ¬(f.endPHIs.length ≠ 0 ∧ f.endPHIs.length ≠ f.resultTypes.length))
    (hg6 : f.outerBranchTargetStackSize ≤ st.branchTargetStack.length) :
    ∃ st2, end_ st = some st2 ∧
      st2.stack.length = f.outerStackSize + min f.endPHIs.length f.resultTypes.length ∧
      st2.controlStack = st.controlStack.dropLast ∧
      st2.branchTargetStack = st.branchTargetStack.take f.outerBranchTargetStackSize ∧
      st2.functionResultTypes = st.functionResultTypes := by
  obtain ⟨stB, hB, hctrlB, hbtB, hlenB, hfrB⟩ := branchToEnd_succ st f hf hBcase
  cases hec : f.elseBlock with
  | none =>
    have hpf := pushEndPHIs_fields f.endPHIs f.resultTypes stB
    refine ⟨{ pushEndPHIs stB f.endPHIs f.resultTypes with
        branchTargetStack := (pushEndPHIs stB f.endPHIs
          f.resultTypes).branchTargetStack.take f.outerBranchTargetStackSize,
        controlStack := (pushEndPHIs stB f.endPHIs f.resultTypes).controlStack.dropLast },
      ?_, ?_, ?_, ?_, ?_⟩
    · show (do
        let f2 ← st.controlStack.getLast?
        let st1 ← branchToEndOfControlContext st
        let st2 ←
          match f2.elseBlock with
          | some _ =>
            if f2.elseArgs.length = f2.endPHIs.length then
              some (addIncomingList st1 f2.endPHIs f2.elseArgs)
            else none
          | none => some st1
        if f2.endPHIs.length ≠ 0 ∧ f2.endPHIs.length ≠ f2.resultTypes.length then none
        else
          let st3 := pushEndPHIs st2 f2.endPHIs f2.resultTypes
          if f2.outerBranchTargetStackSize ≤ st3.branchTargetStack.length then
            some { st3 with
              branchTargetStack :=
                st3.branchTargetStack.take f2.outerBranchTargetStackSize,
              controlStack := st3.controlStack.dropLast }
          else none) = _
      rw [hf]
      show (do
        let st1 ← branchToEndOfControlContext st
        let st2 ←
          match f.elseBlock with
          | some _ =>
            if f.elseArgs.length = f.endPHIs.length then
              some (addIncomingList st1 f.endPHIs f.elseArgs)
            else none
          | none => some st1
        if f.endPHIs.length ≠ 0 ∧ f.endPHIs.length ≠ f.resultTypes.length then none
        else
          let st3 := pushEndPHIs st2 f.endPHIs f.resultTypes
          if f.outerBranchTargetStackSize ≤ st3.branchTargetStack.length then
            some { st3 with
              branchTargetStack :=
                st3.branchTargetStack.take f.outerBranchTargetStackSize,
              controlStack := st3.controlStack.dropLast }
          else none) = _
      rw [hB]
      show (do
        let st2 ←
          match f.elseBlock with
          | some _ =>
            if f.elseArgs.length = f.endPHIs.length then
              some (addIncomingList stB f.endPHIs f.elseArgs)
            else none
          | none => some stB
        if f.endPHIs.length ≠ 0 ∧ f.endPHIs.length ≠ f.resultTypes.length then none
        else
          let st3 := pushEndPHIs st2 f.endPHIs f.resultTypes
          if f.outerBranchTargetStackSize ≤ st3.branchTargetStack.length then
            some { st3 with
              branchTargetStack :=
                st3.branchTargetStack.take f.outerBranchTargetStackSize,
              controlStack := st3.controlStack.dropLast }
          else none) = _
      rw [hec]
      simp only [bind, Option.some_bind, Option.none_bind]
      rw [if_neg hg4, if_pos (by rw [hpf.2.2.1, hbtB]; exact hg6)]
    · show (pushEndPHIs stB f.endPHIs f.resultTypes).stack.length = _
      rw [hpf.1, hlenB]
    · show (pushEndPHIs stB f.endPHIs f.resultTypes).controlStack.dropLast = _
      rw [hpf.2.1, hctrlB]
    · show (pushEndPHIs stB f.endPHIs f.resultTypes).branchTargetStack.take
        f.outerBranchTargetStackSize = _
      rw [hpf.2.2.1, hbtB]
    · show (pushEndPHIs stB f.endPHIs f.resultTypes).functionResultTypes = _
      rw [hpf.2.2.2.1, hfrB]
  | some eb =>
    have hlenel : f.elseArgs.length = f.endPHIs.length := by
      rcases helse with h0 | h1
      · exact absurd (hec.symm.trans h0) (by simp)
      · exact h1
    have hfa := addIncomingList_fields f.endPHIs f.elseArgs stB
    have hfa2 := addIncomingList_fields2 f.endPHIs f.elseArgs stB
    have hpf := pushEndPHIs_fields f.endPHIs f.resultTypes
      (addIncomingList stB f.endPHIs f.elseArgs)
    refine ⟨{ pushEndPHIs (addIncomingList stB f.endPHIs f.elseArgs) f.endPHIs
          f.resultTypes with
        branchTargetStack := (pushEndPHIs (addIncomingList stB f.endPHIs f.elseArgs)
          f.endPHIs f.resultTypes).branchTargetStack.take f.outerBranchTargetStackSize,
        controlStack := (pushEndPHIs (addIncomingList stB f.endPHIs f.elseArgs)
          f.endPHIs f.resultTypes).controlStack.dropLast },
      ?_, ?_, ?_, ?_, ?_⟩
    · show (do
        let f2 ← st.controlStack.getLast?
        let st1 ← branchToEndOfControlContext st
        let st2 ←
          match f2.elseBlock with
          | some _ =>
            if f2.elseArgs.length = f2.endPHIs.length then
              some (addIncomingList st1 f2.endPHIs f2.elseArgs)
            else none
          | none => some st1
        if f2.endPHIs.length ≠ 0 ∧ f2.endPHIs.length ≠ f2.resultTypes.length then none
        else
          let st3 := pushEndPHIs st2 f2.endPHIs f2.resultTypes
          if f2.outerBranchTargetStackSize ≤ st3.branchTargetStack.length then
            some { st3 with
              branchTargetStack :=
                st3.branchTargetStack.take f2.outerBranchTargetStackSize,
              controlStack := st3.controlStack.dropLast }
          else none) = _
      rw [hf]
      show (do
        let st1 ← branchToEndOfControlContext st
        let st2 ←
          match f.elseBlock with
          | some _ =>
            if f.elseArgs.length = f.endPHIs.length then
              some (addIncomingList st1 f.endPHIs f.elseArgs)
            else none
          | none => some st1
        if f.endPHIs.length ≠ 0 ∧ f.endPHIs.length ≠ f.resultTypes.length then none
        else
          let st3 := pushEndPHIs st2 f.endPHIs f.resultTypes
          if f.outerBranchTargetStackSize ≤ st3.branchTargetStack.length then
            some { st3 with
              branchTargetStack :=
                st3.branchTargetStack.take f.outerBranchTargetStackSize,
              controlStack := st3.controlStack.dropLast }
          else none) = _
      rw [hB]
      show (do
        let st2 ←
          match f.elseBlock with
          | some _ =>
            if f.elseArgs.length = f.endPHIs.length then
              some (addIncomingList stB f.endPHIs f.elseArgs)
            else none
          | none => some stB
        if f.endPHIs.length ≠ 0 ∧ f.endPHIs.length ≠ f.resultTypes.length then none
        else
          let st3 := pushEndPHIs st2 f.endPHIs f.resultTypes
          if f.outerBranchTargetStackSize ≤ st3.branchTargetStack.length then
            some { st3 with
              branchTargetStack :=
                st3.branchTargetStack.take f.outerBranchTargetStackSize,
              controlStack := st3.controlStack.dropLast }
          else none) = _
      rw [hec]
      simp only [bind, Option.some_bind, Option.none_bind]
      rw [if_pos hlenel, if_neg hg4, if_pos (by rw [hpf.2.2.1, hfa.2.2, hbtB]; exact hg6)]
    · show (pushEndPHIs (addIncomingList stB f.endPHIs f.elseArgs) f.endPHIs
        f.resultTypes).stack.length = _
      rw [hpf.1, hfa.1, hlenB]
    · show (pushEndPHIs (addIncomingList stB f.endPHIs f.elseArgs) f.endPHIs
        f.resultTypes).controlStack.dropLast = _
      rw [hpf.2.1, hfa.2.1, hctrlB]
    · show (pushEndPHIs (addIncomingList stB f.endPHIs f.elseArgs) f.endPHIs
        f.resultTypes).branchTargetStack.take f.outerBranchTargetStackSize = _
      rw [hpf.2.2.1, hfa.2.2, hbtB]
    · show (pushEndPHIs (addIncomingList stB f.endPHIs f.elseArgs) f.endPHIs
        f.resultTypes).functionResultTypes = _
      rw [hpf.2.2.2.1, hfa2.1, hfrB]

end Emit

namespace Emit

theorem end_core {st : EmitState} {vs : VState} (hs : Sim st vs 0)
    {etop : ControlContext} (he : st.controlStack.getLast? = some etop)
    {vs2 : VState} (hv : validateOp vs Op.endOp = some vs2) :
    ∃ st2, end_ st = some st2 ∧ (st2.controlStack = [] ∨ Sim st2 vs2 0) := by
  obtain ⟨htl, hlenv, vtop, hvt, hfm0, hmode⟩ := sim_top_destruct hs he
  simp only [validateOp, bind, Option.bind_eq_some] at hv
  obtain ⟨⟨f, vs1⟩, hpc, hv⟩ := hv
  replace hv : (if f.kind = CtrlType.ifThen ∧ f.startTypes ≠ f.endTypes then none
      else some (pushVals vs1 f.endTypes)) = some vs2 := hv
  obtain ⟨hcl, hc1, hh1, himpl⟩ := popCtrl_spec vs vs1 f hpc
  have hfv : f = vtop := Option.some.inj (hcl.symm.trans hvt)
  rw [hfv] at hh1 himpl hv
  split at hv
  · simp at hv
  · rename_i hguard
    replace hv := Option.some.inj hv
    have hBcase : (etop.isReachable = true ∧
        st.stack.length = etop.outerStackSize + etop.endPHIs.length)
      ∨ (etop.isReachable = false ∧ st.stack.length = etop.outerStackSize) := by
      rcases hmode with ⟨hr, hvun, hsl⟩ | ⟨hr, hvun, hsl⟩
      · left
        refine ⟨hr, ?_⟩
        have hexact := himpl hvun (hs.hht vtop hvt)
        rw [hsl, hexact, hfm0.2.1, hfm0.2.2.2.1]
      · exact Or.inr ⟨hr, hsl⟩
    have helse : etop.elseBlock = none ∨ etop.elseArgs.length = etop.endPHIs.length := by
      cases hebc : etop.elseBlock with
      | none => exact Or.inl rfl
      | some eb =>
        right
        have htype : etop.type = CtrlType.ifThen := by
          by_contra hc
          exact absurd (hebc.symm.trans (hfm0.2.2.2.2.2 hc)) (by simp)
        have hkv : vtop.kind = CtrlType.ifThen := hfm0.1.symm.trans htype
        have hse : vtop.startTypes = vtop.endTypes := by
          by_contra hc
          exact hguard ⟨hkv, hc⟩
        obtain ⟨-, hargs⟩ := hfm0.2.2.2.2.1 htype
        rw [hargs, hse, ← hfm0.2.2.2.1]
    have hguard4 : ¬(etop.endPHIs.length ≠ 0 ∧
        etop.endPHIs.length ≠ etop.resultTypes.length) := by
      intro hcontra
      exact hcontra.2 (by rw [hfm0.2.2.2.1, ← hfm0.2.2.1])
    have hm0 : List.Forall₂ framesMatch st.controlStack vs.ctrls := by
      have hm := hs.hmatch
      rw [htl] at hm
      exact hm
    have hb0 : List.Forall₂ btMatch st.branchTargetStack vs.ctrls := by
      have hb := hs.hbt
      rw [htl] at hb
      exact hb
    have hbtlen : st.branchTargetStack.length = st.controlStack.length := by
      have h1 := hm0.length_eq
      have h2 := hb0.length_eq
      omega
    have hobt := obtss_last hs he
    have hnpos : 0 < st.controlStack.length := List.length_pos.2 hs.hne
    obtain ⟨st2, hend, hstk2, hcs2, hbts2, hfr2⟩ :=
      end_succ st etop he hBcase helse hguard4 (by rw [hbtlen, hobt]; omega)
    refine ⟨st2, hend, ?_⟩
    have e1 : etop.endPHIs.length = vtop.endTypes.length := hfm0.2.2.2.1
    have e2 : etop.resultTypes.length = vtop.endTypes.length := by rw [hfm0.2.2.1]
    have e3 : vs2.vals.length = vs1.vals.length + vtop.endTypes.length := by
      rw [← hv]
      exact (pushVals_spec vs1 vtop.endTypes).1
    by_cases hn : 2 ≤ st.controlStack.length
    · refine Or.inr (sim_pop_frame hs _ _ hn hlenv hcs2 ?_ ?_ ?_ ?_ ?_)
      · rw [hbts2, hobt]
      · show vs2.ctrls = vs.ctrls.dropLast
        rw [← hv]
        show vs1.ctrls = vs.ctrls.dropLast
        exact hc1
      · exact hfr2
      · rw [hstk2, hfm0.2.1, e3, hh1]
        omega
      · intro g hg
        have hg2 : vs.ctrls.dropLast.getLast? = some g := by
          rw [← hc1]
          rw [← hv] at hg
          exact hg
        have hle := chain'_last_le hs.hchain hvt hg2
        rw [e3, hh1]
        omega
    · refine Or.inl ?_
      rw [hcs2]
      have hlen0 : st.controlStack.dropLast.length = 0 := by
        rw [List.length_dropLast]
        omega
      exact List.length_eq_zero.1 hlen0

end Emit

namespace Emit

theorem take_dropLast_append {α : Type} (l : List α) (x : α) (n : Nat)
    (h : n ≤ l.length - 1) :
    (l.dropLast ++ [x]).take n = l.take n := by
  rw [List.take_append_of_le_length (by rw [List.length_dropLast]; omega)]
  rw [List.dropLast_eq_take, List.take_take]
  congr 1
  omega

theorem head?_append_ne_nil {α : Type} (l : List α) (x : α) (h : l ≠ []) :
    (l ++ [x]).head? = l.head? := by
  cases l with
  | nil => exact absurd rfl h
  | cons a t => rfl

theorem head?_dropLast_append {α : Type} (l : List α) (x : α) (h : 2 ≤ l.length) :
    (l.dropLast ++ [x]).head? = l.head? := by
  have h1 : l.dropLast.head? = l.head? := dropLast_head? l h
  have h2 : l.dropLast ≠ [] := by
    intro h0
    have := congrArg List.length h0
    rw [List.length_dropLast] at this
    simp at this
    omega
  rw [head?_append_ne_nil _ _ h2]
  exact h1

theorem popVal_lb (vs : VState) (r : Option WasmType × VState) {g : VCtrl}
    (hg : vs.ctrls.getLast? = some g) (hht : g.height ≤ vs.vals.length)
    (h : popVal vs = some r) :
    r.2.ctrls = vs.ctrls ∧ g.height ≤ r.2.vals.length := by
  unfold popVal at h
  rw [hg] at h
  simp only [bind, Option.some_bind] at h
  split at h
  · split at h
    · simp only [Option.some.injEq] at h
      rw [← h]
      exact ⟨rfl, hht⟩
    · simp at h
  · rename_i hne
    cases hl : vs.vals.getLast? with
    | none => rw [hl] at h; simp at h
    | some t =>
      rw [hl] at h
      simp only [Option.some.injEq] at h
      rw [← h]
      refine ⟨rfl, ?_⟩
      show g.height ≤ vs.vals.dropLast.length
      rw [List.length_dropLast]
      omega

theorem popValExpect_lb (vs vs2 : VState) (t : WasmType) {g : VCtrl}
    (hg : vs.ctrls.getLast? = some g) (hht : g.height ≤ vs.vals.length)
    (h : popValExpect vs t = some vs2) :
    vs2.ctrls = vs.ctrls ∧ g.height ≤ vs2.vals.length := by
  unfold popValExpect at h
  simp only [bind, Option.bind_eq_some] at h
  obtain ⟨⟨actual, vs1⟩, hpop, h⟩ := h
  have hspec := popVal_lb vs (actual, vs1) hg hht hpop
  have hv : vs2 = vs1 := by
    cases actual with
    | none =>
      replace h : some vs1 = some vs2 := h
      exact (Option.some.inj h).symm
    | some a =>
      replace h : (if a = t then some vs1 else none) = some vs2 := h
      split at h
      · exact (Option.some.inj h).symm
      · simp at h
  subst hv
  exact hspec

theorem popExpectFold_lb :
    ∀ (L : List WasmType) (vs vs2 : VState) (g : VCtrl),
    vs.ctrls.getLast? = some g → g.height ≤ vs.vals.length →
    L.foldlM popValExpect vs = some vs2 →
    vs2.ctrls = vs.ctrls ∧ g.height ≤ vs2.vals.length
  | [], vs, vs2, g, hg, hht, h => by
    replace h : some vs = some vs2 := h
    rw [← Option.some.inj h]
    exact ⟨rfl, hht⟩
  | t :: L, vs, vs2, g, hg, hht, h => by
    rw [List.foldlM_cons] at h
    simp only [bind, Option.bind_eq_some] at h
    obtain ⟨vs1, hpop, h⟩ := h
    obtain ⟨hc1, hht1⟩ := popValExpect_lb vs vs1 t hg hht hpop
    obtain ⟨hc2, hht2⟩ := popExpectFold_lb L vs1 vs2 g (by rw [hc1]; exact hg) hht1 h
    exact ⟨hc2.trans hc1, hht2⟩

theorem popVals_lb (vs vs2 : VState) (ts : List WasmType) {g : VCtrl}
    (hg : vs.ctrls.getLast? = some g) (hht : g.height ≤ vs.vals.length)
    (h : popVals vs ts = some vs2) :
    vs2.ctrls = vs.ctrls ∧ g.height ≤ vs2.vals.length :=
  popExpectFold_lb ts.reverse vs vs2 g hg hht h

theorem sim_dead_vals {st : EmitState} {vs : VState} {d : Nat} (hs : Sim st vs d)
    {etop : ControlContext} (he : st.controlStack.getLast? = some etop)
    (hr : etop.isReachable = false) (vs2 : VState)
    (hvc : vs2.ctrls = vs.ctrls)
    (hht2 : ∀ g, vs.ctrls.getLast? = some g → g.height ≤ vs2.vals.length) :
    Sim st vs2 d := by
  refine ⟨hs.hne, ?_, ?_, hs.hbtss, hs.hinner, ?_, ?_, ?_, ?_, ?_⟩
  · rw [hvc]
    exact hs.hmatch
  · rw [hvc]
    exact hs.hbt
  · rw [hvc]
    exact hs.hlow
  · intro vc0 h0
    rw [hvc] at h0
    exact hs.hfres vc0 h0
  · intro g hg
    rw [hvc] at hg
    exact hht2 g hg
  · rw [hvc]
    exact hs.hchain
  · intro etop2 he2 vtop2 hvt2
    rw [hvc] at hvt2
    have hd := hs.htop etop2 he2 vtop2 hvt2
    have he3 : etop2 = etop := Option.some.inj (he2.symm.trans he)
    rcases hd with ⟨htrue, -⟩ | ⟨h1, h2, h3, h4⟩
    · rw [he3, hr] at htrue
      simp at htrue
    · right
      refine ⟨h1, h2, ?_, h4⟩
      rw [hvc]
      exact h3

end Emit

namespace Emit

theorem sim_dead_push {st : EmitState} {vs : VState} {d : Nat} (hs : Sim st vs d)
    {etop : ControlContext} (he : st.controlStack.getLast? = some etop)
    (hr : etop.isReachable = false) (vs1 : VState)
    (hc1 : vs1.ctrls = vs.ctrls)
    (hlb : ∀ g, vs.ctrls.getLast? = some g → g.height ≤ vs1.vals.length)
    (kind : CtrlType) (ps rs : List WasmType) :
    Sim st (pushCtrl vs1 kind ps rs) (d + 1) := by
  have hnpos : 0 < st.controlStack.length := List.length_pos.2 hs.hne
  have hlen2 := hs.hmatch.length_eq
  rw [List.length_take] at hlen2
  have hnle : st.controlStack.length ≤ vs.ctrls.length := by
    by_contra hc
    push_neg at hc
    rw [min_eq_right (by omega)] at hlen2
    omega
  have hvnil : vs.ctrls ≠ [] := by
    intro h0
    have hz : vs.ctrls.length = 0 := by rw [h0]; rfl
    omega
  have hvc : (pushCtrl vs1 kind ps rs).ctrls
      = vs.ctrls ++ [⟨kind, ps, rs, vs1.vals.length, false⟩] := by
    show vs1.ctrls ++ [⟨kind, ps, rs, vs1.vals.length, false⟩] = _
    rw [hc1]
  have hvl : (pushCtrl vs1 kind ps rs).vals.length = vs1.vals.length + ps.length :=
    (pushCtrl_spec vs1 kind ps rs).2
  have htk : ∀ m, m ≤ vs.ctrls.length →
      (pushCtrl vs1 kind ps rs).ctrls.take m = vs.ctrls.take m := by
    intro m hm
    rw [hvc, List.take_append_of_le_length hm]
  refine ⟨hs.hne, ?_, ?_, hs.hbtss, hs.hinner, ?_, ?_, ?_, ?_, ?_⟩
  · rw [htk _ hnle]
    exact hs.hmatch
  · rw [htk _ hnle]
    exact hs.hbt
  · rw [htk _ (by omega)]
    exact hs.hlow
  · intro vc0 h0
    rw [hvc, head?_append_ne_nil _ _ hvnil] at h0
    exact hs.hfres vc0 h0
  · intro g hg
    rw [hvc, List.getLast?_concat] at hg
    rw [← Option.some.inj hg]
    show vs1.vals.length ≤ (pushCtrl vs1 kind ps rs).vals.length
    rw [hvl]
    omega
  · rw [hvc, List.chain'_append]
    refine ⟨hs.hchain, List.chain'_singleton _, ?_⟩
    intro x hx y hy
    simp only [List.head?_cons, Option.mem_def, Option.some.injEq] at hy
    rw [← hy]
    show x.height ≤ vs1.vals.length
    exact hlb x hx
  · intro etop2 he2 vtop2 hvt2
    rw [htk _ hnle] at hvt2
    have hd := hs.htop etop2 he2 vtop2 hvt2
    have he3 : etop2 = etop := Option.some.inj (he2.symm.trans he)
    rcases hd with ⟨htrue, -⟩ | ⟨h1, h2, h3, h4⟩
    · rw [he3, hr] at htrue
      simp at htrue
    · right
      refine ⟨h1, h2, ?_, h4⟩
      rw [hvc, List.length_append]
      simp only [List.length_cons, List.length_nil]
      omega

theorem sim_dead_pop {st : EmitState} {vs : VState} {d : Nat} (hs : Sim st vs (d + 1))
    {etop : ControlContext} (he : st.controlStack.getLast? = some etop)
    (hr : etop.isReachable = false) (vs2 : VState)
    (hvc : vs2.ctrls = vs.ctrls.dropLast)
    (hlb : ∀ g, vs2.ctrls.getLast? = some g → g.height ≤ vs2.vals.length) :
    Sim st vs2 d := by
  have hnpos : 0 < st.controlStack.length := List.length_pos.2 hs.hne
  have hlen2 := hs.hmatch.length_eq
  rw [List.length_take] at hlen2
  have hnle : st.controlStack.length ≤ vs.ctrls.length := by
    by_contra hc
    push_neg at hc
    rw [min_eq_right (by omega)] at hlen2
    omega
  obtain ⟨hlenfull, -, -⟩ :=
    sim_unreach_destruct hs he hr
  have hdl : ∀ m, m ≤ vs.ctrls.length - 1 →
      vs2.ctrls.take m = vs.ctrls.take m := by
    intro m hm
    rw [hvc, List.dropLast_eq_take, List.take_take]
    congr 1
    omega
  refine ⟨hs.hne, ?_, ?_, hs.hbtss, hs.hinner, ?_, ?_, ?_, ?_, ?_⟩
  · rw [hdl _ (by omega)]
    exact hs.hmatch
  · rw [hdl _ (by omega)]
    exact hs.hbt
  · rw [hdl _ (by omega)]
    exact hs.hlow
  · intro vc0 h0
    rw [hvc, dropLast_head? vs.ctrls (by omega)] at h0
    exact hs.hfres vc0 h0
  · exact hlb
  · rw [hvc]
    have hc := hs.hchain
    exact hc.prefix (List.dropLast_prefix vs.ctrls)
  · intro etop2 he2 vtop2 hvt2
    rw [hdl _ (by omega)] at hvt2
    have hd := hs.htop etop2 he2 vtop2 hvt2
    have he3 : etop2 = etop := Option.some.inj (he2.symm.trans he)
    rcases hd with ⟨htrue, -⟩ | ⟨h1, h2, h3, h4⟩
    · rw [he3, hr] at htrue
      simp at htrue
    · right
      refine ⟨h1, h2, ?_, h4⟩
      rw [hvc, List.length_dropLast]
      omega

end Emit

namespace Emit

theorem sim_dead_setU {st : EmitState} {vs : VState} {d : Nat} (hs : Sim st vs d)
    {etop : ControlContext} (he : st.controlStack.getLast? = some etop)
    (hr : etop.isReachable = false) (vsA vs2 : VState)
    (hcA : vsA.ctrls = vs.ctrls)
    (hsu : setUnreachable vsA = some vs2) :
    Sim st vs2 d := by
  have hnpos : 0 < st.controlStack.length := List.length_pos.2 hs.hne
  obtain ⟨hlenfull, hsl, vtop, hvtop, hfm, hvun⟩ := sim_unreach_destruct hs he hr
  have hvnil : vs.ctrls ≠ [] := by
    intro h0
    have hz : vs.ctrls.length = 0 := by rw [h0]; rfl
    omega
  obtain ⟨g, hg⟩ : ∃ g, vs.ctrls.getLast? = some g := by
    cases hgl : vs.ctrls.getLast? with
    | none =>
      rw [List.getLast?_eq_none_iff] at hgl
      exact absurd hgl hvnil
    | some g => exact ⟨g, rfl⟩
  obtain ⟨hvc2, hlen2v, hle2⟩ := setUnreachable_spec vsA vs2 g
    (by rw [hcA]; exact hg) hsu
  rw [hcA] at hvc2
  have hgl2 : vs.ctrls.getLast hvnil = g :=
    Option.some.inj ((List.getLast?_eq_getLast vs.ctrls hvnil).symm.trans hg)
  have hdec : vs.ctrls = vs.ctrls.dropLast ++ [g] := by
    rw [← hgl2]
    exact (List.dropLast_append_getLast hvnil).symm
  cases d with
  | zero =>
    have htl : vs.ctrls.take st.controlStack.length = vs.ctrls :=
      List.take_of_length_le (by omega)
    have hvt : vs.ctrls.getLast? = some vtop := by
      have htake := getLast?_take_eq vs.ctrls st.controlStack.length (by omega) (by omega)
      rw [htl] at htake
      rw [htake]
      exact hvtop
    have hgu : g.unreachable = true := by
      rw [Option.some.inj (hg.symm.trans hvt)]
      exact hvun
    have hfix : ({ g with unreachable := true } : VCtrl) = g := by
      rcases g with ⟨k, s, e, hh, u⟩
      simp only at hgu
      rw [← hgu]
    have hvc3 : vs2.ctrls = vs.ctrls := by
      rw [hvc2, hfix]
      exact hdec.symm
    refine sim_dead_vals hs he hr vs2 hvc3 ?_
    intro g2 hg2
    rw [Option.some.inj (hg2.symm.trans hg)]
    omega
  | succ d0 =>
    have hnle : st.controlStack.length ≤ vs.ctrls.length - 1 := by omega
    have htk : ∀ m, m ≤ vs.ctrls.length - 1 → vs2.ctrls.take m = vs.ctrls.take m := by
      intro m hm
      rw [hvc2, take_dropLast_append _ _ _ hm]
    refine ⟨hs.hne, ?_, ?_, hs.hbtss, hs.hinner, ?_, ?_, ?_, ?_, ?_⟩
    · rw [htk _ hnle]
      exact hs.hmatch
    · rw [htk _ hnle]
      exact hs.hbt
    · rw [htk _ (by omega)]
      exact hs.hlow
    · intro vc0 h0
      rw [hvc2, head?_dropLast_append _ _ (by omega)] at h0
      exact hs.hfres vc0 h0
    · intro g2 hg2
      rw [hvc2, List.getLast?_concat] at hg2
      rw [← Option.some.inj hg2]
      show g.height ≤ vs2.vals.length
      omega
    · rw [hvc2]
      have hc := hs.hchain
      rw [hdec, List.chain'_append] at hc
      obtain ⟨hcd, -, hlink⟩ := hc
      rw [List.chain'_append]
      refine ⟨hcd, List.chain'_singleton _, ?_⟩
      intro x hx y hy
      simp only [List.head?_cons, Option.mem_def, Option.some.injEq] at hy
      rw [← hy]
      show x.height ≤ g.height
      exact hlink x hx g rfl
    · intro etop2 he2 vtop2 hvt2
      rw [htk _ hnle] at hvt2
      have hd := hs.htop etop2 he2 vtop2 hvt2
      have he3 : etop2 = etop := Option.some.inj (he2.symm.trans he)
      rcases hd with ⟨htrue, -⟩ | ⟨h1, h2, h3, h4⟩
      · rw [he3, hr] at htrue
        simp at htrue
      · right
        refine ⟨h1, h2, ?_, h4⟩
        rw [hvc2, List.length_append, List.length_dropLast]
        simp only [List.length_cons, List.length_nil]
        omega

end Emit

namespace Emit

theorem dead_validate_sim {st : EmitState} {vs : VState} {d : Nat} (hs : Sim st vs d)
    {etop : ControlContext} (he : st.controlStack.getLast? = some etop)
    (hr : etop.isReachable = false) (op : Op) {vs2 : VState}
    (hv : validateOp vs op = some vs2)
    (hnotstruct : match op with
      | Op.blockOp _ _ => False
      | Op.loopOp _ _ => False
      | Op.ifOp _ _ => False
      | Op.elseOp => False
      | Op.endOp => False
      | _ => True) :
    Sim st vs2 d := by
  have hnpos : 0 < st.controlStack.length := List.length_pos.2 hs.hne
  have hlen2 := hs.hmatch.length_eq
  rw [List.length_take] at hlen2
  have hnle : st.controlStack.length ≤ vs.ctrls.length := by
    by_contra hc
    push_neg at hc
    rw [min_eq_right (by omega)] at hlen2
    omega
  have hvnil : vs.ctrls ≠ [] := by
    intro h0
    have hz : vs.ctrls.length = 0 := by rw [h0]; rfl
    omega
  obtain ⟨g, hg⟩ : ∃ g, vs.ctrls.getLast? = some g := by
    cases hgl : vs.ctrls.getLast? with
    | none =>
      rw [List.getLast?_eq_none_iff] at hgl
      exact absurd hgl hvnil
    | some g => exact ⟨g, rfl⟩
  have hhtg : g.height ≤ vs.vals.length := hs.hht g hg
  cases op with
  | const t =>
    replace hv : some (pushVal vs (some t)) = some vs2 := hv
    rw [← Option.some.inj hv]
    refine sim_dead_vals hs he hr _ rfl ?_
    intro g2 hg2
    have := hs.hht g2 hg2
    show g2.height ≤ (vs.vals ++ [some t]).length
    rw [List.length_append]
    omega
  | binary t =>
    simp only [validateOp, bind, Option.bind_eq_some] at hv
    obtain ⟨vs1, h1, hv⟩ := hv
    obtain ⟨vsB, h2, hv⟩ := hv
    replace hv : some (pushVal vsB (some t)) = some vs2 := hv
    obtain ⟨hc1, hl1⟩ := popValExpect_lb vs vs1 t hg hhtg h1
    obtain ⟨hc2, hl2⟩ := popValExpect_lb vs1 vsB t (by rw [hc1]; exact hg) hl1 h2
    rw [← Option.some.inj hv]
    refine sim_dead_vals hs he hr _ (by show vsB.ctrls = vs.ctrls; rw [hc2, hc1]) ?_
    intro g2 hg2
    rw [Option.some.inj (hg2.symm.trans hg)]
    show g.height ≤ (vsB.vals ++ [some t]).length
    rw [List.length_append]
    omega
  | unary t =>
    simp only [validateOp, bind, Option.bind_eq_some] at hv
    obtain ⟨vs1, h1, hv⟩ := hv
    replace hv : some (pushVal vs1 (some t)) = some vs2 := hv
    obtain ⟨hc1, hl1⟩ := popValExpect_lb vs vs1 t hg hhtg h1
    rw [← Option.some.inj hv]
    refine sim_dead_vals hs he hr _ (by show vs1.ctrls = vs.ctrls; rw [hc1]) ?_
    intro g2 hg2
    rw [Option.some.inj (hg2.symm.trans hg)]
    show g.height ≤ (vs1.vals ++ [some t]).length
    rw [List.length_append]
    omega
  | dropV =>
    simp only [validateOp, bind, Option.bind_eq_some] at hv
    obtain ⟨⟨tv, vs1⟩, hpop, hv⟩ := hv
    replace hv : some vs1 = some vs2 := hv
    obtain ⟨hc1, hl1⟩ := popVal_lb vs (tv, vs1) hg hhtg hpop
    rw [← Option.some.inj hv]
    refine sim_dead_vals hs he hr _ hc1 ?_
    intro g2 hg2
    rw [Option.some.inj (hg2.symm.trans hg)]
    exact hl1
  | selectV =>
    simp only [validateOp, bind, Option.bind_eq_some] at hv
    obtain ⟨vs1, h1, hv⟩ := hv
    obtain ⟨⟨t1, vsB⟩, h2, hv⟩ := hv
    obtain ⟨⟨t2, vsC⟩, h3, hv⟩ := hv
    obtain ⟨hc1, hl1⟩ := popValExpect_lb vs vs1 WasmType.i32 hg hhtg h1
    obtain ⟨hc2, hl2⟩ := popVal_lb vs1 (t1, vsB) (by rw [hc1]; exact hg) hl1 h2
    obtain ⟨hc3, hl3⟩ := popVal_lb vsB (t2, vsC) (by rw [hc2, hc1]; exact hg) hl2 h3
    have hl3b : g.height ≤ vsC.vals.length := hl3
    have hc3b : vsC.ctrls = vsB.ctrls := hc3
    have hc2b : vsB.ctrls = vs1.ctrls := hc2
    have hshape : ∃ x, vs2 = pushVal vsC x := by
      rcases t1 with _ | a <;> rcases t2 with _ | b
      · replace hv : some (pushVal vsC none) = some vs2 := hv
        exact ⟨none, (Option.some.inj hv).symm⟩
      · replace hv : some (pushVal vsC (some b)) = some vs2 := hv
        exact ⟨some b, (Option.some.inj hv).symm⟩
      · replace hv : some (pushVal vsC (some a)) = some vs2 := hv
        exact ⟨some a, (Option.some.inj hv).symm⟩
      · replace hv : (if a = b then some (pushVal vsC (some a)) else none)
            = some vs2 := hv
        split at hv
        · exact ⟨some a, (Option.some.inj hv).symm⟩
        · simp at hv
    obtain ⟨x, hx⟩ := hshape
    rw [hx]
    refine sim_dead_vals hs he hr _
      (by show vsC.ctrls = vs.ctrls; rw [hc3b, hc2b, hc1]) ?_
    intro g2 hg2
    rw [Option.some.inj (hg2.symm.trans hg)]
    show g.height ≤ (vsC.vals ++ [x]).length
    rw [List.length_append]
    omega
  | callOp ps rs =>
    simp only [validateOp, bind, Option.bind_eq_some] at hv
    obtain ⟨vs1, h1, hv⟩ := hv
    replace hv : some (pushVals vs1 rs) = some vs2 := hv
    obtain ⟨hc1, hl1⟩ := popVals_lb vs vs1 ps hg hhtg h1
    rw [← Option.some.inj hv]
    refine sim_dead_vals hs he hr _ (by show vs1.ctrls = vs.ctrls; rw [hc1]) ?_
    intro g2 hg2
    rw [Option.some.inj (hg2.symm.trans hg)]
    rw [(pushVals_spec vs1 rs).1]
    omega
  | brIfOp dep =>
    simp only [validateOp, bind, Option.bind_eq_some] at hv
    obtain ⟨f, hf, hv⟩ := hv
    obtain ⟨vs1, h1, hv⟩ := hv
    obtain ⟨vsB, h2, hv⟩ := hv
    replace hv : some (pushVals vsB (labelTypes f)) = some vs2 := hv
    obtain ⟨hc1, hl1⟩ := popValExpect_lb vs vs1 WasmType.i32 hg hhtg h1
    obtain ⟨hc2, hl2⟩ := popVals_lb vs1 vsB (labelTypes f) (by rw [hc1]; exact hg) hl1 h2
    rw [← Option.some.inj hv]
    refine sim_dead_vals hs he hr _ (by show vsB.ctrls = vs.ctrls; rw [hc2, hc1]) ?_
    intro g2 hg2
    rw [Option.some.inj (hg2.symm.trans hg)]
    rw [(pushVals_spec vsB (labelTypes f)).1]
    omega
  | brOp dep =>
    simp only [validateOp, bind, Option.bind_eq_some] at hv
    obtain ⟨f, hf, hv⟩ := hv
    obtain ⟨vs1, h1, hv⟩ := hv
    obtain ⟨hc1, hl1⟩ := popVals_lb vs vs1 (labelTypes f) hg hhtg h1
    exact sim_dead_setU hs he hr vs1 vs2 hc1 hv
  | brTableOp ds dep =>
    simp only [validateOp, bind, Option.bind_eq_some] at hv
    obtain ⟨fd, hfd, hv⟩ := hv
    split at hv
    · simp only [bind, Option.bind_eq_some] at hv
      obtain ⟨vs1, h1, hv⟩ := hv
      obtain ⟨vsB, h2, hv⟩ := hv
      obtain ⟨hc1, hl1⟩ := popValExpect_lb vs vs1 WasmType.i32 hg hhtg h1
      obtain ⟨hc2, hl2⟩ := popVals_lb vs1 vsB (labelTypes fd)
        (by rw [hc1]; exact hg) hl1 h2
      exact sim_dead_setU hs he hr vsB vs2 (hc2.trans hc1) hv
    · simp at hv
  | returnOp =>
    simp only [validateOp, bind, Option.bind_eq_some] at hv
    obtain ⟨f0, hf0, hv⟩ := hv
    obtain ⟨vs1, h1, hv⟩ := hv
    obtain ⟨hc1, hl1⟩ := popVals_lb vs vs1 f0.endTypes hg hhtg h1
    exact sim_dead_setU hs he hr vs1 vs2 hc1 hv
  | unreachableOp =>
    exact sim_dead_setU hs he hr vs vs2 rfl hv
  | blockOp ps rs => exact hnotstruct.elim
  | loopOp ps rs => exact hnotstruct.elim
  | ifOp ps rs => exact hnotstruct.elim
  | elseOp => exact hnotstruct.elim
  | endOp => exact hnotstruct.elim

end Emit

namespace Emit

theorem dead_pushctrl_core {st : EmitState} {vs : VState} {d : Nat} (hs : Sim st vs d)
    {etop : ControlContext} (he : st.controlStack.getLast? = some etop)
    (hr : etop.isReachable = false) (kind : CtrlType) (ps rs : List WasmType)
    {vs2 : VState}
    (hv : (do
      let vs1 ← popVals vs ps
      some (pushCtrl vs1 kind ps rs)) = some vs2) :
    Sim st vs2 (d + 1) := by
  simp only [bind, Option.bind_eq_some] at hv
  obtain ⟨vs1, h1, hv⟩ := hv
  replace hv := Option.some.inj hv
  have hnpos : 0 < st.controlStack.length := List.length_pos.2 hs.hne
  have hlen2 := hs.hmatch.length_eq
  rw [List.length_take] at hlen2
  have hnle : st.controlStack.length ≤ vs.ctrls.length := by
    by_contra hc
    push_neg at hc
    rw [min_eq_right (by omega)] at hlen2
    omega
  have hvnil : vs.ctrls ≠ [] := by
    intro h0
    have hz : vs.ctrls.length = 0 := by rw [h0]; rfl
    omega
  obtain ⟨g, hg⟩ : ∃ g, vs.ctrls.getLast? = some g := by
    cases hgl : vs.ctrls.getLast? with
    | none =>
      rw [List.getLast?_eq_none_iff] at hgl
      exact absurd hgl hvnil
    | some g => exact ⟨g, rfl⟩
  obtain ⟨hc1, hl1⟩ := popVals_lb vs vs1 ps hg (hs.hht g hg) h1
  rw [← hv]
  refine sim_dead_push hs he hr vs1 hc1 ?_ kind ps rs
  intro g2 hg2
  rw [Option.some.inj (hg2.symm.trans hg)]
  exact hl1

theorem dead_if_core {st : EmitState} {vs : VState} {d : Nat} (hs : Sim st vs d)
    {etop : ControlContext} (he : st.controlStack.getLast? = some etop)
    (hr : etop.isReachable = false) (ps rs : List WasmType) {vs2 : VState}
    (hv : validateOp vs (Op.ifOp ps rs) = some vs2) :
    Sim st vs2 (d + 1) := by
  simp only [validateOp, bind, Option.bind_eq_some] at hv
  obtain ⟨vs0, h0, hv⟩ := hv
  obtain ⟨vs1, h1, hv⟩ := hv
  replace hv := Option.some.inj hv
  have hnpos : 0 < st.controlStack.length := List.length_pos.2 hs.hne
  have hlen2 := hs.hmatch.length_eq
  rw [List.length_take] at hlen2
  have hnle : st.controlStack.length ≤ vs.ctrls.length := by
    by_contra hc
    push_neg at hc
    rw [min_eq_right (by omega)] at hlen2
    omega
  have hvnil : vs.ctrls ≠ [] := by
    intro h0x
    have hz : vs.ctrls.length = 0 := by rw [h0x]; rfl
    omega
  obtain ⟨g, hg⟩ : ∃ g, vs.ctrls.getLast? = some g := by
    cases hgl : vs.ctrls.getLast? with
    | none =>
      rw [List.getLast?_eq_none_iff] at hgl
      exact absurd hgl hvnil
    | some g => exact ⟨g, rfl⟩
  obtain ⟨hc0, hl0⟩ := popValExpect_lb vs vs0 WasmType.i32 hg (hs.hht g hg) h0
  obtain ⟨hc1, hl1⟩ := popVals_lb vs0 vs1 ps (by rw [hc0]; exact hg) hl0 h1
  rw [← hv]
  refine sim_dead_push hs he hr vs1 (by rw [hc1, hc0]) ?_ CtrlType.ifThen ps rs
  intro g2 hg2
  rw [Option.some.inj (hg2.symm.trans hg)]
  exact hl1

theorem dead_else_core {st : EmitState} {vs : VState} {d : Nat}
    (hs : Sim st vs (d + 1))
    {etop : ControlContext} (he : st.controlStack.getLast? = some etop)
    (hr : etop.isReachable = false) {vs2 : VState}
    (hv : validateOp vs Op.elseOp = some vs2) :
    Sim st vs2 (d + 1) := by
  simp only [validateOp, bind, Option.bind_eq_some] at hv
  obtain ⟨⟨f, vs1⟩, hpc, hv⟩ := hv
  replace hv : (if f.kind = CtrlType.ifThen
      then some (pushCtrl vs1 CtrlType.ifElse f.startTypes f.endTypes)
      else none) = some vs2 := hv
  obtain ⟨hcl, hc1, hh1, -⟩ := popCtrl_spec vs vs1 f hpc
  split at hv
  · replace hv := Option.some.inj hv
    have hc1b : vs1.ctrls = vs.ctrls.dropLast := hc1
    have hh1b : vs1.vals.length = f.height := hh1
    have hlb1 : ∀ g, vs1.ctrls.getLast? = some g → g.height ≤ vs1.vals.length := by
      intro g hg
      rw [hc1b] at hg
      have := chain'_last_le hs.hchain hcl hg
      omega
    have hs1 : Sim st vs1 d := sim_dead_pop hs he hr vs1 hc1b hlb1
    rw [← hv]
    exact sim_dead_push hs1 he hr vs1 rfl hs1.hht CtrlType.ifElse f.startTypes f.endTypes
  · simp at hv

theorem dead_end_core {st : EmitState} {vs : VState} {d : Nat}
    (hs : Sim st vs (d + 1))
    {etop : ControlContext} (he : st.controlStack.getLast? = some etop)
    (hr : etop.isReachable = false) {vs2 : VState}
    (hv : validateOp vs Op.endOp = some vs2) :
    Sim st vs2 d := by
  simp only [validateOp, bind, Option.bind_eq_some] at hv
  obtain ⟨⟨f, vs1⟩, hpc, hv⟩ := hv
  replace hv : (if f.kind = CtrlType.ifThen ∧ f.startTypes ≠ f.endTypes then none
      else some (pushVals vs1 f.endTypes)) = some vs2 := hv
  obtain ⟨hcl, hc1, hh1, -⟩ := popCtrl_spec vs vs1 f hpc
  split at hv
  · simp at hv
  · replace hv := Option.some.inj hv
    have hc1b : vs1.ctrls = vs.ctrls.dropLast := hc1
    have hh1b : vs1.vals.length = f.height := hh1
    rw [← hv]
    refine sim_dead_pop hs he hr (pushVals vs1 f.endTypes) ?_ ?_
    · show vs1.ctrls = vs.ctrls.dropLast
      exact hc1b
    · intro g hg
      have hg2 : vs.ctrls.dropLast.getLast? = some g := by
        rw [← hc1b]
        exact hg
      have hle := chain'_last_le hs.hchain hcl hg2
      rw [(pushVals_spec vs1 f.endTypes).1]
      omega

end Emit

namespace Emit

theorem emitOps_nil_ctrl (st : EmitState) (h : st.controlStack = []) :
    ∀ (d : Nat) (ops : List Op), emitOps st d ops = some st
  | d, [] => rfl
  | d, op :: rest => by
    show (match st.controlStack.getLast? with
      | none => some st
      | some f =>
        if f.isReachable then do
          let st2 ← emitOp st op
          emitOps st2 d rest
        else do
          let (st2, depth2) ← unreachableVisit st d op
          emitOps st2 depth2 rest) = some st
    rw [h]
    rfl

theorem emitOps_total :
    ∀ (ops : List Op) (st : EmitState) (vs : VState) (d : Nat),
    Sim st vs d → ∀ vsF, validateOps vs ops = some vsF →
    ∃ stF, emitOps st d ops = some stF
  | [], st, vs, d, hs, vsF, hv => ⟨st, rfl⟩
  | op :: rest, st, vs, d, hs, vsF, hv => by
    simp only [validateOps, bind, Option.bind_eq_some] at hv
    obtain ⟨vs2, hv1, hv2⟩ := hv
    obtain ⟨etop, he⟩ : ∃ etop, st.controlStack.getLast? = some etop := by
      cases hgl : st.controlStack.getLast? with
      | none =>
        rw [List.getLast?_eq_none_iff] at hgl
        exact absurd hgl hs.hne
      | some f => exact ⟨f, rfl⟩
    cases hrc : etop.isReachable with
    | true =>
      have hd0 : d = 0 := (sim_reach_destruct hs he hrc).1
      subst hd0
      have hstep : ∃ st2, emitOp st op = some st2 ∧
          (st2.controlStack = [] ∨ Sim st2 vs2 0) := by
        cases op with
        | const t =>
          obtain ⟨st2, h1, h2⟩ := step_const hs he hrc t hv1
          exact ⟨st2, h1, Or.inr h2⟩
        | binary t =>
          obtain ⟨st2, h1, h2⟩ := step_binary hs he hrc t hv1
          exact ⟨st2, h1, Or.inr h2⟩
        | unary t =>
          obtain ⟨st2, h1, h2⟩ := step_unary hs he hrc t hv1
          exact ⟨st2, h1, Or.inr h2⟩
        | dropV =>
          obtain ⟨st2, h1, h2⟩ := step_drop hs he hrc hv1
          exact ⟨st2, h1, Or.inr h2⟩
        | selectV =>
          obtain ⟨st2, h1, h2⟩ := step_select hs he hrc hv1
          exact ⟨st2, h1, Or.inr h2⟩
        | callOp ps rs =>
          obtain ⟨st2, h1, h2⟩ := step_call hs he hrc ps rs hv1
          exact ⟨st2, h1, Or.inr h2⟩
        | blockOp ps rs =>
          obtain ⟨st2, h1, h2⟩ := step_block hs he hrc ps rs hv1
          exact ⟨st2, h1, Or.inr h2⟩
        | loopOp ps rs =>
          obtain ⟨st2, h1, h2⟩ := step_loop hs he hrc ps rs hv1
          exact ⟨st2, h1, Or.inr h2⟩
        | ifOp ps rs =>
          obtain ⟨st2, h1, h2⟩ := step_if hs he hrc ps rs hv1
          exact ⟨st2, h1, Or.inr h2⟩
        | elseOp =>
          obtain ⟨st2, h1, h2⟩ := else_core hs he hv1
          exact ⟨st2, h1, Or.inr h2⟩
        | endOp =>
          obtain ⟨st2, h1, h2⟩ := end_core hs he hv1
          exact ⟨st2, h1, h2⟩
        | brOp dep =>
          obtain ⟨st2, h1, h2⟩ := step_br hs he hrc dep hv1
          exact ⟨st2, h1, Or.inr h2⟩
        | brIfOp dep =>
          obtain ⟨st2, h1, h2⟩ := step_brIf hs he hrc dep hv1
          exact ⟨st2, h1, Or.inr h2⟩
        | brTableOp ds dep =>
          obtain ⟨st2, h1, h2⟩ := step_brTable hs he hrc ds dep hv1
          exact ⟨st2, h1, Or.inr h2⟩
        | returnOp =>
          obtain ⟨st2, h1, h2⟩ := step_return hs he hrc hv1
          exact ⟨st2, h1, Or.inr h2⟩
        | unreachableOp =>
          obtain ⟨st2, h1, h2⟩ := step_unreachable hs he hrc hv1
          exact ⟨st2, h1, Or.inr h2⟩
      obtain ⟨st2, hemit, hrest⟩ := hstep
      have hcont : ∃ stF, emitOps st2 0 rest = some stF := by
        rcases hrest with hnil | hsim2
        · exact ⟨st2, emitOps_nil_ctrl st2 hnil 0 rest⟩
        · exact emitOps_total rest st2 vs2 0 hsim2 vsF hv2
      obtain ⟨stF, hF⟩ := hcont
      refine ⟨stF, ?_⟩
      show (match st.controlStack.getLast? with
        | none => some st
        | some f =>
          if f.isReachable then do
            let st2x ← emitOp st op
            emitOps st2x 0 rest
          else do
            let (st2x, depth2) ← unreachableVisit st 0 op
            emitOps st2x depth2 rest) = some stF
      rw [he]
      show (if etop.isReachable then do
          let st2x ← emitOp st op
          emitOps st2x 0 rest
        else do
          let (st2x, depth2) ← unreachableVisit st 0 op
          emitOps st2x depth2 rest) = some stF
      rw [if_pos hrc, hemit]
      show emitOps st2 0 rest = some stF
      exact hF
    | false =>
      have hstep : ∃ st2 d2, unreachableVisit st d op = some (st2, d2) ∧
          (st2.controlStack = [] ∨ Sim st2 vs2 d2) := by
        cases op with
        | const t =>
          exact ⟨st, d, rfl, Or.inr (dead_validate_sim hs he hrc (Op.const t) hv1 trivial)⟩
        | binary t =>
          exact ⟨st, d, rfl, Or.inr (dead_validate_sim hs he hrc (Op.binary t) hv1 trivial)⟩
        | unary t =>
          exact ⟨st, d, rfl, Or.inr (dead_validate_sim hs he hrc (Op.unary t) hv1 trivial)⟩
        | dropV =>
          exact ⟨st, d, rfl, Or.inr (dead_validate_sim hs he hrc Op.dropV hv1 trivial)⟩
        | selectV =>
          exact ⟨st, d, rfl, Or.inr (dead_validate_sim hs he hrc Op.selectV hv1 trivial)⟩
        | callOp ps rs =>
          exact ⟨st, d, rfl,
            Or.inr (dead_validate_sim hs he hrc (Op.callOp ps rs) hv1 trivial)⟩
        | brOp dep =>
          exact ⟨st, d, rfl, Or.inr (dead_validate_sim hs he hrc (Op.brOp dep) hv1 trivial)⟩
        | brIfOp dep =>
          exact ⟨st, d, rfl,
            Or.inr (dead_validate_sim hs he hrc (Op.brIfOp dep) hv1 trivial)⟩
        | brTableOp ds dep =>
          exact ⟨st, d, rfl,
            Or.inr (dead_validate_sim hs he hrc (Op.brTableOp ds dep) hv1 trivial)⟩
        | returnOp =>
          exact ⟨st, d, rfl, Or.inr (dead_validate_sim hs he hrc Op.returnOp hv1 trivial)⟩
        | unreachableOp =>
          exact ⟨st, d, rfl,
            Or.inr (dead_validate_sim hs he hrc Op.unreachableOp hv1 trivial)⟩
        | blockOp ps rs =>
          exact ⟨st, d + 1, rfl,
            Or.inr (dead_pushctrl_core hs he hrc CtrlType.block ps rs hv1)⟩
        | loopOp ps rs =>
          exact ⟨st, d + 1, rfl,
            Or.inr (dead_pushctrl_core hs he hrc CtrlType.loop ps rs hv1)⟩
        | ifOp ps rs =>
          exact ⟨st, d + 1, rfl, Or.inr (dead_if_core hs he hrc ps rs hv1)⟩
        | elseOp =>
          cases d with
          | zero =>
            obtain ⟨st2, h1, h2⟩ := else_core hs he hv1
            refine ⟨st2, 0, ?_, Or.inr h2⟩
            show (if (0 : Nat) = 0 then (else_ st).map (fun st2x => (st2x, 0))
              else some (st, 0)) = some (st2, 0)
            rw [if_pos rfl, h1]
            rfl
          | succ d0 =>
            refine ⟨st, d0 + 1, ?_, Or.inr (dead_else_core hs he hrc hv1)⟩
            show (if d0 + 1 = 0 then (else_ st).map (fun st2x => (st2x, 0))
              else some (st, d0 + 1)) = some (st, d0 + 1)
            rw [if_neg (by omega)]
        | endOp =>
          cases d with
          | zero =>
            obtain ⟨st2, h1, h2⟩ := end_core hs he hv1
            refine ⟨st2, 0, ?_, h2⟩
            show (if (0 : Nat) = 0 then (end_ st).map (fun st2x => (st2x, 0))
              else some (st, 0 - 1)) = some (st2, 0)
            rw [if_pos rfl, h1]
            rfl
          | succ d0 =>
            refine ⟨st, d0, ?_, Or.inr (dead_end_core hs he hrc hv1)⟩
            show (if d0 + 1 = 0 then (end_ st).map (fun st2x => (st2x, 0))
              else some (st, d0 + 1 - 1)) = some (st, d0)
            rw [if_neg (by omega)]
            rfl
      obtain ⟨st2, d2, hvisit, hrest⟩ := hstep
      have hcont : ∃ stF, emitOps st2 d2 rest = some stF := by
        rcases hrest with hnil | hsim2
        · exact ⟨st2, emitOps_nil_ctrl st2 hnil d2 rest⟩
        · exact emitOps_total rest st2 vs2 d2 hsim2 vsF hv2
      obtain ⟨stF, hF⟩ := hcont
      refine ⟨stF, ?_⟩
      show (match st.controlStack.getLast? with
        | none => some st
        | some f =>
          if f.isReachable then do
            let st2x ← emitOp st op
            emitOps st2x d rest
          else do
            let (st2x, depth2) ← unreachableVisit st d op
            emitOps st2x depth2 rest) = some stF
      rw [he]
      show (if etop.isReachable then do
          let st2x ← emitOp st op
          emitOps st2x d rest
        else do
          let (st2x, depth2) ← unreachableVisit st d op
          emitOps st2x depth2 rest) = some stF
      rw [if_neg (fun hcontra => by rw [hrc] at hcontra; simp at hcontra)]
      show (do
        let (st2x, depth2) ← unreachableVisit st d op
        emitOps st2x depth2 rest) = some stF
      rw [hvisit]
      show emitOps st2 d2 rest = some stF
      exact hF

end Emit

namespace Emit

theorem emitFunc_total (results : List WasmType) (ops : List Op)
    (hv : validateFunc results ops = true) :
    ∃ stF, emitFunc results ops = some stF := by
  unfold validateFunc at hv
  rw [Option.isSome_iff_exists] at hv
  obtain ⟨vsF, hvF⟩ := hv
  have hsim : Sim
      ⟨[], [⟨CtrlType.function, 0, (List.range results.length).map (fun i => 1 + i),
          none, [], results, 0, 0, true⟩],
        [⟨results, 0, (List.range results.length).map (fun i => 1 + i)⟩],
        ((List.range results.length).map (fun i => 1 + i)).map
          (fun i => (i, ([] : List Val))),
        results, 1 + results.length⟩
      ⟨[], [⟨CtrlType.function, [], results, 0, false⟩]⟩ 0 := by
    refine ⟨?_, ?_, ?_, ?_, ?_, ?_, ?_, ?_, ?_, ?_⟩
    · simp
    · refine List.Forall₂.cons ⟨rfl, rfl, rfl, ?_, ?_, fun _ => rfl⟩ List.Forall₂.nil
      · show ((List.range results.length).map (fun i => 1 + i)).length = results.length
        rw [List.length_map, List.length_range]
      · intro hcontra
        simp at hcontra
    · refine List.Forall₂.cons ⟨rfl, ?_⟩ List.Forall₂.nil
      show ((List.range results.length).map (fun i => 1 + i)).length = results.length
      rw [List.length_map, List.length_range]
    · rfl
    · intro ec hec
      simp at hec
    · intro vc hvc
      simp at hvc
    · intro vc0 h0
      simp only [List.head?_cons, Option.some.injEq] at h0
      rw [← h0]
    · intro g hg
      replace hg : some (⟨CtrlType.function, [], results, 0, false⟩ : VCtrl)
          = some g := hg
      rw [← Option.some.inj hg]
      exact Nat.le_refl 0
    · exact List.chain'_singleton _
    · intro etop2 he2 vtop2 hvt2
      replace he2 : some (⟨CtrlType.function, 0,
          (List.range results.length).map (fun i => 1 + i),
          none, [], results, 0, 0, true⟩ : ControlContext) = some etop2 := he2
      replace hvt2 : some (⟨CtrlType.function, [], results, 0, false⟩ : VCtrl)
          = some vtop2 := hvt2
      left
      rw [← Option.some.inj he2, ← Option.some.inj hvt2]
      exact ⟨rfl, rfl, rfl, rfl, rfl⟩
  obtain ⟨stF, hF⟩ := emitOps_total ops _ _ 0 hsim vsF hvF
  exact ⟨stF, hF⟩

end Emit

namespace Emit

/-- **C8**: during emission of a well-typed function no operation pops the
operand stack below the innermost control frame's recorded outer operand-stack
depth, and at every `end` of a reachable frame the operand-stack depth equals
the frame's outer depth plus the number of its result types.  Both asserts are
modelled as `none`-failures (`pop`/`popMultiple` fail exactly on the unsigned
`stack.size() - outerStackSize >= num` assert, and
`branchToEndOfControlContext` fails exactly when the depth after popping one
value per frame result is not the recorded outer depth), so the claim is
equivalent to totality: on a function body accepted by the WebAssembly
validator, emission never fails. -/
theorem C8_stack_balance (results : List WasmType) (ops : List Op)
    (hv : validateFunc results ops = true) :
    emitFunc results ops ≠ none := by
  obtain ⟨stF, hF⟩ := emitFunc_total results ops hv
  rw [hF]
  simp

theorem C8_stack_balance_witness :
    validateFunc [WasmType.i32] [Op.const WasmType.i32, Op.endOp] = true ∧
    emitFunc [WasmType.i32] [Op.const WasmType.i32, Op.endOp] ≠ none :=
  ⟨by decide, C8_stack_balance [WasmType.i32] [Op.const WasmType.i32, Op.endOp]
    (by decide)⟩

end Emit
